import Mathlib

/-!
HTTP client layer of terraform-provider-atlassian-operations.

A shallow embedding of `internal/httpClient` (`response.go`, `request.go`,
`error.go`) together with the properties proved about it.

Conventions of the embedding

* A Go pointer that may be nil is an `Option`.
* A Go `error` is an `Option Error`; `none` is the nil error.
* A method with a pointer receiver returns the updated receiver next to its
  Go results.
* A Go `[]byte` and a Go `string` are both byte sequences (`Bytes`);
  the conversion `string(body)` copies the bytes unchanged.
* Calls into the Go standard library and into go-retryablehttp
  (`json.Unmarshal`, `json.Marshal`, `client.Do`) are parameters of the
  definitions that use them.
* `URL.JoinPath` of net/url with `path.Join` and `path.Clean`, and
  `json.Marshal` and `json.Unmarshal` on a `dto.Schedule`, are embedded
  from the standard library on bytes.
-/

set_option autoImplicit false

namespace httpClient

/-! ## Basic data -/

/-- A Go error value, identified by its message. -/
abbrev Error := String

/-- A Go byte slice; also used for Go strings that hold raw reply text. -/
abbrev Bytes := List UInt8

/-- Error reported by a net/http reply body when it is read after Close. -/
def errReadOnClosedResBody : Error := "http: read on closed response body"

/-- The `Body` of an `http.Response`, an `io.ReadCloser`.
`data` are the bytes still to be delivered, `readErr` is the error the
stream reports once `data` has been delivered (`none` for a clean EOF),
`closeErr` is what `Close` returns and `closed` counts the `Close` calls
made so far. -/
structure BodyStream where
  data : Bytes
  readErr : Option Error
  closeErr : Option Error
  closed : Nat
deriving DecidableEq, Repr

/-- The call `io.ReadAll(body)`: delivers every remaining byte together with
the read error, if any, and leaves the stream drained. A stream that was
closed before delivers nothing and reports `errReadOnClosedResBody`. -/
def BodyStream.ReadAll (s : BodyStream) : BodyStream × Bytes × Option Error :=
  if s.closed = 0 then
    ({ s with data := [] }, s.data, s.readErr)
  else
    (s, [], some errReadOnClosedResBody)

/-- The call `body.Close()`. -/
def BodyStream.Close (s : BodyStream) : BodyStream × Option Error :=
  ({ s with closed := s.closed + 1 }, s.closeErr)

/-- The parts of `*http.Response` that the client layer touches:
the status code, the method of the request that produced the reply
(`resp.Request.Method`) and the body stream. -/
structure NativeResponse where
  StatusCode : Int
  Method : String
  Body : BodyStream
deriving DecidableEq, Repr

/-! ## response.go -/

/-- The struct `Response` of response.go. -/
structure Response where
  nativeResponse : Option NativeResponse
  errorBody : Option Bytes
deriving DecidableEq, Repr

/-- Method `Response.Discard` (response.go 13-22). Next to the updated
receiver and the error it returns, the result names the body stream the
call made its `Close` call on, as that call leaves the stream, and `none`
when it made no `Close` call: once `receiver.nativeResponse` is nil the
`Response` no longer leads to the reply, so the effect on the stream is
given here. -/
def Response.Discard (receiver : Response) : Response × Option BodyStream × Option Error :=
  match receiver.nativeResponse with
  | some native =>
    let (body, err) := native.Body.Close
    match err with
    | some e =>
      ({ receiver with nativeResponse := some { native with Body := body } }, some body, some e)
    | none => ({ receiver with nativeResponse := none }, some body, none)
  | none => (receiver, none, none)

/-- Method `Response.Body` (response.go 34-40): reads the whole stream, then
the deferred `Close` runs; the error of the deferred `Close` is dropped. -/
def Response.Body (receiver : Response) : Response × Bytes × Option Error :=
  match receiver.nativeResponse with
  | some native =>
    let (afterRead, bytes, err) := native.Body.ReadAll
    let (afterClose, _) := afterRead.Close
    ({ receiver with nativeResponse := some { native with Body := afterClose } }, bytes, err)
  | none => (receiver, [], none)

/-- Method `Response.parseErrorBody` (response.go 24-32). -/
def Response.parseErrorBody (receiver : Response) : Response × Option Error :=
  let (receiver1, body, err) := receiver.Body
  match err with
  | some e => (receiver1, some e)
  | none => ({ receiver1 with errorBody := some body }, none)

/-- Method `Response.GetErrorBody` (response.go 42-44). -/
def Response.GetErrorBody (receiver : Response) : Option Bytes :=
  receiver.errorBody

/-- Method `Response.GetStatusCode` (response.go 46-51). -/
def Response.GetStatusCode (receiver : Response) : Int :=
  match receiver.nativeResponse with
  | none => -1
  | some native => native.StatusCode

/-- Method `Response.IsError` (response.go 53-55). -/
def Response.IsError (receiver : Response) : Bool :=
  receiver.GetStatusCode == -1 || decide (receiver.GetStatusCode > 399)

/-- Method `Response.GetNativeResponse` (response.go 57-59). -/
def Response.GetNativeResponse (receiver : Response) : Option NativeResponse :=
  receiver.nativeResponse

/-- Number of `Close` calls made so far on the body stream of the reply a
`Response` holds; `none` when it holds no reply. -/
def Response.closeCount (receiver : Response) : Option Nat :=
  receiver.nativeResponse.map fun native => native.Body.closed

/-! ## error.go -/

/-- A decoded JSON document, as `json.Unmarshal` hands it to an
`interface{}`: `null` is the nil interface, a number is a `float64`
(the model carries integer-valued numbers), an array is `[]interface{}`
and an object is `map[string]interface{}`, kept as its member list in
document order. -/
inductive JsonValue where
  | null
  | bool (b : Bool)
  | number (n : Int)
  | str (s : String)
  | array (items : List JsonValue)
  | object (members : List (String × JsonValue))
deriving Repr

/-- What a Go function body does: return normally, return a non-nil
error, or panic. -/
inductive Outcome (α : Type) where
  | ok (value : α)
  | error (err : Error)
  | panic (msg : String)
deriving DecidableEq, Repr

/-- Sequencing of Go statements: an error return or a panic ends the body. -/
def Outcome.bind {α β : Type} (x : Outcome α) (f : α → Outcome β) : Outcome β :=
  match x with
  | .ok a => f a
  | .error e => .error e
  | .panic m => .panic m

instance : Monad Outcome where
  pure := Outcome.ok
  bind := Outcome.bind

/-- The map index expression `v[key]` on a `map[string]interface{}` filled
by `json.Unmarshal`: a later member with the same key overwrites an
earlier one, and a missing key yields the nil interface. -/
def mapIndex : List (String × JsonValue) → String → JsonValue
  | [], _ => JsonValue.null
  | (k, x) :: rest, key =>
    if (rest.any fun kv => kv.1 == key) then mapIndex rest key
    else if k == key then x
    else JsonValue.null

/-- The comparison `x != nil` on an `interface{}` taken from decoded JSON. -/
def JsonValue.notNil : JsonValue → Bool
  | JsonValue.null => false
  | _ => true

/-- The call `json.Unmarshal(data, &v)` for `var v map[string]interface{}`.
The payload is given by its parse: `none` is text that is not JSON.
An object fills the map, `null` leaves the nil map, and any other
document is a type error. -/
def unmarshalToMap : Option JsonValue → Outcome (List (String × JsonValue))
  | none => Outcome.error "invalid character looking for beginning of value"
  | some (JsonValue.object members) => Outcome.ok members
  | some JsonValue.null => Outcome.ok []
  | some _ => Outcome.error "json: cannot unmarshal value into Go value of type map"

/-- The type assertion `x.(string)`. -/
def assertString : JsonValue → Outcome String
  | JsonValue.str s => Outcome.ok s
  | _ => Outcome.panic "interface conversion: value is not string"

/-- The type assertion `x.(float64)`. -/
def assertFloat64 : JsonValue → Outcome Int
  | JsonValue.number n => Outcome.ok n
  | _ => Outcome.panic "interface conversion: value is not float64"

/-- The type assertion `x.(int32)`: a value decoded from JSON is never an
`int32`, numbers arrive as `float64`. -/
def assertInt32 : JsonValue → Outcome Int
  | _ => Outcome.panic "interface conversion: value is not int32"

/-- The type assertion `x.([]interface{})`. -/
def assertSlice : JsonValue → Outcome (List JsonValue)
  | JsonValue.array items => Outcome.ok items
  | _ => Outcome.panic "interface conversion: value is not a slice"

/-- The type assertion `x.(map[string]interface{})`. -/
def assertMap : JsonValue → Outcome (List (String × JsonValue))
  | JsonValue.object members => Outcome.ok members
  | _ => Outcome.panic "interface conversion: value is not a map"

/-- The conversion `int32(f)` of a `float64` holding an integer:
two's complement wrap-around into 32 bits. -/
def toInt32 (n : Int) : Int :=
  (n + 2147483648) % 4294967296 - 2147483648

/-- The struct `opsClientDefaultError`. -/
structure opsClientDefaultError where
  Title : String
  Code : Int
deriving DecidableEq, Repr

/-- The struct `opsClientDefaultErrorResponse`. -/
structure opsClientDefaultErrorResponse where
  Errors : List opsClientDefaultError
deriving DecidableEq, Repr

/-- The struct `opsClientUnauthorizedErrorResponse`. -/
structure opsClientUnauthorizedErrorResponse where
  Code : Int
  Message : String
deriving DecidableEq, Repr

/-- The struct `teamClientDefaultErrorResponse`. -/
structure teamClientDefaultErrorResponse where
  Code : String
  Message : String
deriving DecidableEq, Repr

/-- The struct `teamEnableOpsClientDefaultErrorResponse`. -/
structure teamEnableOpsClientDefaultErrorResponse where
  Message : String
deriving DecidableEq, Repr

/-- The struct `userClientDefaultErrorResponse`; `Errors` has type `any`
and holds the nil interface as `JsonValue.null`. -/
structure userClientDefaultErrorResponse where
  ErrorMessages : List String
  Errors : JsonValue
  Status : Int
deriving Repr

/-- Zero value `opsClientDefaultErrorResponse{}`. -/
def opsClientDefaultErrorResponse.zero : opsClientDefaultErrorResponse := { Errors := [] }

/-- Zero value `opsClientUnauthorizedErrorResponse{}`. -/
def opsClientUnauthorizedErrorResponse.zero : opsClientUnauthorizedErrorResponse :=
  { Code := 0, Message := "" }

/-- Zero value `teamClientDefaultErrorResponse{}`. -/
def teamClientDefaultErrorResponse.zero : teamClientDefaultErrorResponse :=
  { Code := "", Message := "" }

/-- Zero value `teamEnableOpsClientDefaultErrorResponse{}`. -/
def teamEnableOpsClientDefaultErrorResponse.zero : teamEnableOpsClientDefaultErrorResponse :=
  { Message := "" }

/-- Zero value `userClientDefaultErrorResponse{}`. -/
def userClientDefaultErrorResponse.zero : userClientDefaultErrorResponse :=
  { ErrorMessages := [], Errors := JsonValue.null, Status := 0 }

/-- Method `opsClientDefaultErrorResponse.Error` (error.go 44-50). -/
def opsClientDefaultErrorResponse.Error (e : opsClientDefaultErrorResponse) : String :=
  e.Errors.foldl
    (fun errMsg err => errMsg ++ ("Error: " ++ err.Title ++ ", Code: " ++ toString err.Code ++ "\n"))
    ""

/-- Method `opsClientUnauthorizedErrorResponse.Error` (error.go 52-54). -/
def opsClientUnauthorizedErrorResponse.Error (e : opsClientUnauthorizedErrorResponse) : String :=
  "Code: " ++ toString e.Code ++ ", Message: " ++ e.Message

/-- Method `teamClientDefaultErrorResponse.Error` (error.go 56-58). -/
def teamClientDefaultErrorResponse.Error (e : teamClientDefaultErrorResponse) : String :=
  "Code: " ++ e.Code ++ ", Message: " ++ e.Message

/-- Method `teamEnableOpsClientDefaultErrorResponse.Error` (error.go 60-62). -/
def teamEnableOpsClientDefaultErrorResponse.Error
    (e : teamEnableOpsClientDefaultErrorResponse) : String :=
  "Message: " ++ e.Message

/-- Method `userClientDefaultErrorResponse.Error` (error.go 64-76);
`marshal` stands for `json.Marshal` on the `any` field. -/
def userClientDefaultErrorResponse.Error (marshal : JsonValue → Except Error String)
    (e : userClientDefaultErrorResponse) : String :=
  let errMsg := e.ErrorMessages.foldl (fun acc err => acc ++ ("Error: " ++ err ++ "\n")) ""
  if e.Errors.notNil then
    match marshal e.Errors with
    | Except.ok res => errMsg ++ ("Errors: " ++ res ++ "\n")
    | Except.error _ => errMsg
  else errMsg

/-- One turn of the loop of `opsClientDefaultErrorResponse.UnmarshalJSON`
(error.go 89-93): the element built from one item of `rawErrors`. -/
def opsDecodeItem (item : JsonValue) : Outcome opsClientDefaultError := do
  let itemMap ← assertMap item
  let title ← assertString (mapIndex itemMap "title")
  let code ← assertFloat64 (mapIndex itemMap "code")
  pure { Title := title, Code := toInt32 code }

/-- The loop of `opsClientDefaultErrorResponse.UnmarshalJSON` over
`rawErrors` (error.go 88-94). -/
def opsDecodeItems : List JsonValue → Outcome (List opsClientDefaultError)
  | [] => pure []
  | item :: rest => do
    let first ← opsDecodeItem item
    let others ← opsDecodeItems rest
    pure (first :: others)

/-- Method `opsClientDefaultErrorResponse.UnmarshalJSON` (error.go 78-97). -/
def opsClientDefaultErrorResponse.UnmarshalJSON (e : opsClientDefaultErrorResponse)
    (data : Option JsonValue) : Outcome opsClientDefaultErrorResponse := do
  let v ← unmarshalToMap data
  if (mapIndex v "errors").notNil then
    let rawErrors ← assertSlice (mapIndex v "errors")
    let errors ← opsDecodeItems rawErrors
    pure { e with Errors := errors }
  else
    pure e

/-- Method `opsClientUnauthorizedErrorResponse.UnmarshalJSON`
(error.go 99-114). -/
def opsClientUnauthorizedErrorResponse.UnmarshalJSON (e : opsClientUnauthorizedErrorResponse)
    (data : Option JsonValue) : Outcome opsClientUnauthorizedErrorResponse := do
  let v ← unmarshalToMap data
  let e1 ← if (mapIndex v "code").notNil then do
      let code ← assertFloat64 (mapIndex v "code")
      pure { e with Code := toInt32 code }
    else pure e
  if (mapIndex v "message").notNil then do
    let message ← assertString (mapIndex v "message")
    pure { e1 with Message := message }
  else pure e1

/-- Method `teamClientDefaultErrorResponse.UnmarshalJSON` (error.go 116-131). -/
def teamClientDefaultErrorResponse.UnmarshalJSON (e : teamClientDefaultErrorResponse)
    (data : Option JsonValue) : Outcome teamClientDefaultErrorResponse := do
  let v ← unmarshalToMap data
  let e1 ← if (mapIndex v "code").notNil then do
      let code ← assertString (mapIndex v "code")
      pure { e with Code := code }
    else pure e
  if (mapIndex v "message").notNil then do
    let message ← assertString (mapIndex v "message")
    pure { e1 with Message := message }
  else pure e1

/-- Method `teamEnableOpsClientDefaultErrorResponse.UnmarshalJSON`
(error.go 133-145). -/
def teamEnableOpsClientDefaultErrorResponse.UnmarshalJSON
    (e : teamEnableOpsClientDefaultErrorResponse)
    (data : Option JsonValue) : Outcome teamEnableOpsClientDefaultErrorResponse := do
  let v ← unmarshalToMap data
  if (mapIndex v "message").notNil then do
    let message ← assertString (mapIndex v "message")
    pure { e with Message := message }
  else pure e

/-- The loop of `userClientDefaultErrorResponse.UnmarshalJSON` over
`rawErrors` (error.go 160-162). -/
def userDecodeMessages : List JsonValue → Outcome (List String)
  | [] => pure []
  | item :: rest => do
    let first ← assertString item
    let others ← userDecodeMessages rest
    pure (first :: others)

/-- Method `userClientDefaultErrorResponse.UnmarshalJSON` (error.go 147-169). -/
def userClientDefaultErrorResponse.UnmarshalJSON (e : userClientDefaultErrorResponse)
    (data : Option JsonValue) : Outcome userClientDefaultErrorResponse := do
  let v ← unmarshalToMap data
  let e1 ← if (mapIndex v "status").notNil then do
      let status ← assertInt32 (mapIndex v "status")
      pure { e with Status := status }
    else pure e
  let e2 ← if (mapIndex v "errorMessages").notNil then do
      let rawErrors ← assertSlice (mapIndex v "errorMessages")
      let messages ← userDecodeMessages rawErrors
      pure { e1 with ErrorMessages := messages }
    else pure e1
  if (mapIndex v "errors").notNil then
    pure { e2 with Errors := mapIndex v "errors" }
  else pure e2

/-- The interface `HttpErrorResponse` (error.go 9-12) with its five
implementations: the dynamic type and value a registry entry points to. -/
inductive HttpErrorResponse where
  | opsDefault (e : opsClientDefaultErrorResponse)
  | opsUnauthorized (e : opsClientUnauthorizedErrorResponse)
  | team (e : teamClientDefaultErrorResponse)
  | teamEnableOps (e : teamEnableOpsClientDefaultErrorResponse)
  | user (e : userClientDefaultErrorResponse)
deriving Repr

/-- Interface method `HttpErrorResponse.Error`, dispatched on the dynamic
type. -/
def HttpErrorResponse.Error (marshal : JsonValue → Except Error String) :
    HttpErrorResponse → String
  | .opsDefault e => e.Error
  | .opsUnauthorized e => e.Error
  | .team e => e.Error
  | .teamEnableOps e => e.Error
  | .user e => e.Error marshal

/-- Interface method `HttpErrorResponse.UnmarshalJSON`, dispatched on the
dynamic type. -/
def HttpErrorResponse.UnmarshalJSON (data : Option JsonValue) :
    HttpErrorResponse → Outcome HttpErrorResponse
  | .opsDefault e => do pure (.opsDefault (← e.UnmarshalJSON data))
  | .opsUnauthorized e => do pure (.opsUnauthorized (← e.UnmarshalJSON data))
  | .team e => do pure (.team (← e.UnmarshalJSON data))
  | .teamEnableOps e => do pure (.teamEnableOps (← e.UnmarshalJSON data))
  | .user e => do pure (.user (← e.UnmarshalJSON data))

/-- The type `ErrorCodeToObjectMap`: its declaration is not in error.go;
the literals of error.go 171-214 use it as a map from status code to
`HttpErrorResponse`. Kept as the key-value list of the literal. -/
abbrev ErrorCodeToObjectMap := List (Int × HttpErrorResponse)

/-- The index expression `errorMap[statusCode]`; `none` is the nil
interface of a missing key. -/
def ErrorCodeToObjectMap.get (m : ErrorCodeToObjectMap) (code : Int) : Option HttpErrorResponse :=
  (m.find? fun kv => kv.1 == code).map fun kv => kv.2

/-- Function `NewOpsClientErrorMap` (error.go 171-182). -/
def NewOpsClientErrorMap : ErrorCodeToObjectMap :=
  [ (400, .opsDefault opsClientDefaultErrorResponse.zero),
    (401, .opsUnauthorized opsClientUnauthorizedErrorResponse.zero),
    (402, .opsDefault opsClientDefaultErrorResponse.zero),
    (403, .opsDefault opsClientDefaultErrorResponse.zero),
    (404, .opsDefault opsClientDefaultErrorResponse.zero),
    (409, .opsDefault opsClientDefaultErrorResponse.zero),
    (422, .opsDefault opsClientDefaultErrorResponse.zero),
    (429, .opsDefault opsClientDefaultErrorResponse.zero) ]

/-- Function `NewTeamClientErrorMap` (error.go 184-194). -/
def NewTeamClientErrorMap : ErrorCodeToObjectMap :=
  [ (400, .team teamClientDefaultErrorResponse.zero),
    (403, .team teamClientDefaultErrorResponse.zero),
    (404, .team teamClientDefaultErrorResponse.zero),
    (410, .team teamClientDefaultErrorResponse.zero),
    (413, .team teamClientDefaultErrorResponse.zero),
    (415, .team teamClientDefaultErrorResponse.zero),
    (422, .team teamClientDefaultErrorResponse.zero) ]

/-- Function `NewTeamEnableOpsClientErrorMap` (error.go 196-206). -/
def NewTeamEnableOpsClientErrorMap : ErrorCodeToObjectMap :=
  [ (400, .teamEnableOps teamEnableOpsClientDefaultErrorResponse.zero),
    (403, .teamEnableOps teamEnableOpsClientDefaultErrorResponse.zero),
    (404, .teamEnableOps teamEnableOpsClientDefaultErrorResponse.zero),
    (410, .teamEnableOps teamEnableOpsClientDefaultErrorResponse.zero),
    (413, .teamEnableOps teamEnableOpsClientDefaultErrorResponse.zero),
    (415, .teamEnableOps teamEnableOpsClientDefaultErrorResponse.zero),
    (422, .teamEnableOps teamEnableOpsClientDefaultErrorResponse.zero) ]

/-- Function `NewUserClientErrorMap` (error.go 208-214). -/
def NewUserClientErrorMap : ErrorCodeToObjectMap :=
  [ (400, .user userClientDefaultErrorResponse.zero),
    (401, .user userClientDefaultErrorResponse.zero),
    (429, .user userClientDefaultErrorResponse.zero) ]

/-! ## request.go -/

/-- The parts of `*url.URL` that request.go reads or writes, directly or
through `JoinPath`. `Path`, `RawPath` and `RawQuery` are kept as the bytes
of the Go strings, since percent-encoding works on bytes. -/
structure URL where
  Scheme : String
  Host : String
  Path : Bytes
  RawPath : Bytes
  RawQuery : Bytes
deriving DecidableEq, Repr

/-- An `http.Header`: canonical key to list of values. -/
abbrev Header := List (String × List String)

/-- Test `validHeaderFieldByte` of net/textproto: the token characters of
RFC 7230. -/
def validHeaderFieldChar (c : Char) : Bool :=
  c.isAlphanum || [33, 35, 36, 37, 38, 39, 42, 43, 45, 46, 94, 95, 96, 124, 126].contains c.toNat

/-- The rewriting loop of `textproto.CanonicalMIMEHeaderKey`: upper case
for the first letter and for a letter after a dash, lower case elsewhere. -/
def canonicalizeChars : Bool → List Char → List Char
  | _, [] => []
  | upper, c :: rest =>
    let c1 := if upper && c.isLower then c.toUpper
              else if !upper && c.isUpper then c.toLower
              else c
    c1 :: canonicalizeChars (c1 == '-') rest

/-- Function `textproto.CanonicalMIMEHeaderKey`: a key holding a byte that
is no token character, or a space, is returned unchanged. -/
def CanonicalMIMEHeaderKey (key : String) : String :=
  if key.toList.all validHeaderFieldChar then String.mk (canonicalizeChars true key.toList)
  else key

/-- Method `http.Header.Set`: replaces every value held under the
canonical form of `key` with the single `value`. -/
def Header.Set (h : Header) (key value : String) : Header :=
  let k := CanonicalMIMEHeaderKey key
  if (h.any fun kv => kv.1 == k) then
    h.map fun kv => if kv.1 == k then (k, [value]) else kv
  else h ++ [(k, [value])]

/-- Method `http.Header.Values`: every value held under the canonical form
of `key`. -/
def Header.Values (h : Header) (key : String) : List String :=
  match h.find? fun kv => kv.1 == CanonicalMIMEHeaderKey key with
  | some kv => kv.2
  | none => []

/-- The parts of `*retryablehttp.Request` that request.go reads or writes:
method, URL and headers of the embedded `http.Request`, and the body bytes
that its body reader replays on every attempt, with their length. -/
structure InnerRequest where
  Method : String
  URL : URL
  Header : Header
  body : Bytes
  ContentLength : Nat
deriving DecidableEq, Repr

/-- The call `retryablehttp.NewRequest("", "", nil)`: the empty method
defaults to GET, the URL is empty, there is no header and no body. -/
def retryablehttpNewRequest : InnerRequest :=
  { Method := "GET",
    URL := { Scheme := "", Host := "", Path := [], RawPath := [], RawQuery := [] },
    Header := [],
    body := [],
    ContentLength := 0 }

/-- Method `retryablehttp.Request.SetBody` on a byte slice: the body reader
replays these bytes and the content length is their number. -/
def InnerRequest.SetBody (r : InnerRequest) (rawBody : Bytes) : InnerRequest :=
  { r with body := rawBody, ContentLength := rawBody.length }

/-- The struct `Request` (request.go 14-19). `T` is the type of the value
the registered decode target points to; a nil `parseBodyObject` is `none`.
The `Client` pointer is not a field here: the client is passed to the
functions that follow it. The struct has no slot for an error registry,
and request.go has no `SetErrorParseMap`. -/
structure Request (T : Type) where
  innerRequest : InnerRequest
  parseBodyObject : Option T
  response : Option Response

/-- The address of a `Request` object, as the `newReq` pointer that the
closures of `NewRequest` capture. -/
abbrev RequestRef := Nat

/-- An element of `client.onRetryFuncs`, a `func(*Request) error`: it
receives the address of a request and acts on the program state `σ`. -/
abbrev RetryFunc (σ : Type) := RequestRef → σ → σ × Option Error

/-- The three function fields of `client.innerClient` that `NewRequest`
assigns. A closure is kept by what identifies it: `CheckRetry` and
`ErrorHandler` record that the closure of request.go was installed,
`PrepareRetry` records the `newReq` its closure captured. -/
structure InnerClient where
  CheckRetry : Bool
  PrepareRetry : Option RequestRef
  ErrorHandler : Bool
deriving DecidableEq, Repr

/-- The parts of the struct `HttpClient` that request.go uses (the struct
is declared outside request.go). -/
structure HttpClient (σ : Type) where
  innerClient : InnerClient
  onRetryFuncs : List (RetryFunc σ)

/-- Method `Request.SetHeader` (request.go 91-94). -/
def Request.SetHeader {T : Type} (r : Request T) (key value : String) : Request T :=
  { r with innerRequest := { r.innerRequest with Header := r.innerRequest.Header.Set key value } }

/-- Method `Request.Method` (request.go 86-89). -/
def Request.Method {T : Type} (r : Request T) (method : String) : Request T :=
  { r with innerRequest := { r.innerRequest with Method := method } }

/-- Method `Request.SetBearerAuth` (request.go 63-66). -/
def Request.SetBearerAuth {T : Type} (r : Request T) (token : String) : Request T :=
  { r with innerRequest :=
      { r.innerRequest with Header := r.innerRequest.Header.Set "Authorization" ("Bearer " ++ token) } }

/-- Method `Request.SetOAuth2Auth` (request.go 68-71). -/
def Request.SetOAuth2Auth {T : Type} (r : Request T) (token : String) : Request T :=
  { r with innerRequest :=
      { r.innerRequest with Header := r.innerRequest.Header.Set "Authorization" ("OAuth2 " ++ token) } }

/-- The body of the `PrepareRetry` closure (request.go 40-48): the loop
over `client.onRetryFuncs`, each called with the captured `newReq`. -/
def PrepareRetry {σ : Type} (onRetryFuncs : List (RetryFunc σ)) (newReq : RequestRef)
    (s : σ) : σ × Option Error :=
  match onRetryFuncs with
  | [] => (s, none)
  | f :: rest =>
    match f newReq s with
    | (s1, some err) => (s1, some err)
    | (s1, none) => PrepareRetry rest newReq s1

/-- The body of the `ErrorHandler` closure (request.go 49-54).
`resp.Request.Method` dereferences `resp`, so a nil `resp` with a nil
`err` panics. -/
def ErrorHandler (resp : Option NativeResponse) (err : Option Error) (numTries : Int) :
    Outcome (Option NativeResponse × Option Error) :=
  match err with
  | none =>
    match resp with
    | none => Outcome.panic "invalid memory address or nil pointer dereference"
    | some native =>
      Outcome.ok (resp, some (native.Method ++ " request giving up after "
        ++ toString numTries ++ " attempt(s)"))
  | some e => Outcome.ok (resp, some e)

/-- Function `NewRequest` (request.go 30-56). `newReq` is the address of
the `Request` it allocates. Returns the request and the client with the
three closures stored in `innerClient`. -/
def NewRequest {σ T : Type} (client : HttpClient σ) (newReq : RequestRef) :
    Request T × HttpClient σ :=
  let inReq := retryablehttpNewRequest
  let req : Request T :=
    { innerRequest := inReq, parseBodyObject := none, response := none }
  let req1 := req.SetHeader "Content-Type" "application/json"
  (req1, { client with
    innerClient := { CheckRetry := true, PrepareRetry := some newReq, ErrorHandler := true } })

/-- What go-retryablehttp does when it calls `c.PrepareRetry(req.Request)`
before a retried attempt: it runs the closure stored in the client at
that moment, if there is one. -/
def HttpClient.callPrepareRetry {σ : Type} (client : HttpClient σ) (s : σ) : σ × Option Error :=
  match client.innerClient.PrepareRetry with
  | none => (s, none)
  | some newReq => PrepareRetry client.onRetryFuncs newReq s

/-- Method `Request.SetBody` (request.go 114-118). `marshal` stands for
`json.Marshal`; on failure it returns a nil slice with the error, and the
error is assigned to the blank identifier. -/
def Request.SetBody {T α : Type} (marshal : α → Except Error Bytes) (r : Request T) (body : α) :
    Request T :=
  let rawBody : Bytes :=
    match marshal body with
    | Except.ok bytes => bytes
    | Except.error _ => []
  { r with innerRequest := r.innerRequest.SetBody rawBody }

/-- Method `Request.SetBodyParseObject` (request.go 124-127). -/
def Request.SetBodyParseObject {T : Type} (r : Request T) (t : Option T) : Request T :=
  { r with parseBodyObject := t }

/-- Function `parseBody` (request.go 129-141). `unmarshal` stands for
`json.Unmarshal(body, t)`: from the bytes and the value the target holds
it yields the value the target holds afterwards and the error. -/
def parseBody {T : Type} (unmarshal : Bytes → T → T × Option Error) (t : Option T)
    (resp : Response) : Option T × Response × Option Error :=
  match t with
  | some target =>
    let (resp1, body, err) := resp.Body
    match err with
    | some e => (some target, resp1, some e)
    | none =>
      let (target1, err1) := unmarshal body target
      match err1 with
      | some e => (some target1, resp1, some e)
      | none => (some target1, resp1, none)
  | none => (none, resp, none)

/-- Function `parseErrorBody` (request.go 143-150). -/
def parseErrorBody (resp : Response) : Response × Option Bytes × Option Error :=
  let (resp1, body, err) := resp.Body
  match err with
  | some e => (resp1, none, some e)
  | none => (resp1, some body, none)

/-- The response handler that `Send` installs (request.go 153-168). It
runs on the current state of the request `r` it captured and on the
native reply, and leaves the `Response` it built in `r.response`. -/
def Request.responseHandler {T : Type} (unmarshal : Bytes → T → T × Option Error)
    (r : Request T) (resp : Option NativeResponse) : Request T × Option Error :=
  let clientResp : Response := { nativeResponse := resp, errorBody := none }
  if clientResp.IsError then
    match parseErrorBody clientResp with
    | (clientResp1, _, some err) => ({ r with response := some clientResp1 }, some err)
    | (clientResp1, errorBody, none) =>
      ({ r with response := some { clientResp1 with errorBody := errorBody } }, none)
  else if r.parseBodyObject.isSome then
    match parseBody unmarshal r.parseBodyObject clientResp with
    | (target, clientResp1, retErr) =>
      ({ r with parseBodyObject := target, response := some clientResp1 }, retErr)
  else
    ({ r with response := some clientResp }, none)

/-- The call `client.Do(r.innerRequest)` of go-retryablehttp as `Send` sees
it: given the installed response handler and the request, it yields the
request as the handler calls left it, the reply and the error. -/
abbrev Transport (T : Type) :=
  (Request T → Option NativeResponse → Request T × Option Error) → Request T →
    Request T × Option NativeResponse × Option Error

/-- Method `Request.Send` (request.go 152-172). -/
def Request.Send {T : Type} (unmarshal : Bytes → T → T × Option Error) (Do : Transport T)
    (r : Request T) : Request T × Option Response × Option Error :=
  match Do (fun req resp => req.responseHandler unmarshal resp) r with
  | (r1, _, err) => (r1, r1.response, err)

/-- A run of `client.Do` in which the first attempt obtains the reply
`native` and the retry policy asks for no further attempt, after
go-retryablehttp: the response handler is called on the reply; when it
returns nil the call ends with the reply and a nil error, otherwise its
error goes through the installed `ErrorHandler` with one attempt counted. -/
def doSingleAttempt {T : Type} (native : NativeResponse) : Transport T :=
  fun handler r =>
    match handler r (some native) with
    | (r1, none) => (r1, r1.response.bind Response.nativeResponse, none)
    | (r1, some respErr) =>
      match ErrorHandler (r1.response.bind Response.nativeResponse) (some respErr) 1 with
      | Outcome.ok (resp, err) => (r1, resp, err)
      | _ => (r1, none, some respErr)

/-- The bytes of an ASCII text. -/
def bytesOfString (s : String) : Bytes :=
  s.toList.map fun c => UInt8.ofNat c.toNat

/-- The reply body of the 404 example: the JSON text with the members
`code` = `NOT_FOUND` and `message` = `x`. -/
def notFoundBody : Bytes :=
  bytesOfString "\x7b\"code\":\"NOT_FOUND\",\"message\":\"x\"\x7d"

/-- The parse of `notFoundBody`. -/
def notFoundPayload : JsonValue :=
  JsonValue.object [("code", JsonValue.str "NOT_FOUND"), ("message", JsonValue.str "x")]

/-- The request of the 404 example: a new request with the method POST. -/
def notFoundRequest : Request Unit :=
  (NewRequest (HttpClient.mk ⟨false, none, false⟩ [] : HttpClient Unit) 1).1.Method "POST"

/-- The 404 reply of the example, its body unread. -/
def notFoundReply : NativeResponse :=
  ⟨404, "POST", ⟨notFoundBody, none, none, 0⟩⟩

/-- The `Response` over `notFoundReply` once its body has been read and
its stream closed: it holds the body as text. -/
def notFoundResponse : Response :=
  ⟨some ⟨404, "POST", ⟨[], none, none, 1⟩⟩, some notFoundBody⟩

/-- One observed call of a pre-retry hook: the position of the hook in
`onRetryFuncs`, the request address it was called with and the error it
returned. -/
structure HookCall where
  position : Nat
  request : RequestRef
  result : Option Error
deriving DecidableEq, Repr

/-- The hooks `funcs`, each wrapped so that a call appends its `HookCall`
to a log kept next to the program state; positions count from `start`.
The wrapped hook acts on the program state as the hook does. -/
def recordingCalls {σ : Type} (start : Nat) :
    List (RetryFunc σ) → List (RetryFunc (σ × List HookCall))
  | [] => []
  | f :: rest =>
    (fun req s => (((f req s.1).1, s.2 ++ [⟨start, req, (f req s.1).2⟩]), (f req s.1).2))
      :: recordingCalls (start + 1) rest

/-- Whether a decoded value is a JSON string. -/
def JsonValue.isString : JsonValue → Bool
  | JsonValue.str _ => true
  | _ => false

/-- Whether a decoded value is a JSON number. -/
def JsonValue.isNumber : JsonValue → Bool
  | JsonValue.number _ => true
  | _ => false

/-- Whether a decoded value is an array of JSON strings. -/
def JsonValue.isStringSlice : JsonValue → Bool
  | JsonValue.array items => items.all JsonValue.isString
  | _ => false

/-- Whether a decoded value is an object with a string under `title` and a
number under `code`. -/
def JsonValue.isOpsErrorItem : JsonValue → Bool
  | JsonValue.object members =>
    (mapIndex members "title").isString && (mapIndex members "code").isNumber
  | _ => false

/-- Whether a decoded value is an array of such objects. -/
def JsonValue.isOpsErrorSlice : JsonValue → Bool
  | JsonValue.array items => items.all JsonValue.isOpsErrorItem
  | _ => false

/-- Whether the value under a key is nil (the key is absent or holds null)
or else passes `test`. -/
def JsonValue.nilOr (test : JsonValue → Bool) (x : JsonValue) : Bool :=
  !x.notNil || test x

/-- Method `Request.SetBasicAuth` (request.go 58-61). It calls
`http.Request.SetBasicAuth`, which sets the `Authorization` header to
`Basic ` followed by the base64 form of `username:password`; `base64`
stands for `base64.StdEncoding.EncodeToString`. -/
def Request.SetBasicAuth {T : Type} (base64 : String → String) (r : Request T)
    (username password : String) : Request T :=
  { r with innerRequest :=
      { r.innerRequest with
        Header := r.innerRequest.Header.Set "Authorization"
          ("Basic " ++ base64 (username ++ ":" ++ password)) } }

/-- One call of an authentication setter of request.go 58-71. -/
inductive AuthCall where
  | basic (username password : String)
  | bearer (token : String)
  | oauth2 (token : String)
deriving DecidableEq, Repr

/-- The request after one authentication call. -/
def Request.applyAuth {T : Type} (base64 : String → String) (r : Request T) :
    AuthCall → Request T
  | AuthCall.basic username password => r.SetBasicAuth base64 username password
  | AuthCall.bearer token => r.SetBearerAuth token
  | AuthCall.oauth2 token => r.SetOAuth2Auth token

/-- The header value that the claim assigns to an authentication call. -/
def AuthCall.headerValue (base64 : String → String) : AuthCall → String
  | AuthCall.basic username password => "Basic " ++ base64 (username ++ ":" ++ password)
  | AuthCall.bearer token => "Bearer " ++ token
  | AuthCall.oauth2 token => "OAuth2 " ++ token

/-! ## net/url: query strings, as request.go 96-112 uses them -/

/-- Function `shouldEscape(c, encodeQueryComponent)` of net/url: every byte
but the ASCII letters, the digits and `-`, `_`, `.`, `~` is escaped. -/
def shouldEscape (c : UInt8) : Bool :=
  !((97 ≤ c && c ≤ 122) || (65 ≤ c && c ≤ 90) || (48 ≤ c && c ≤ 57) ||
    c == 45 || c == 95 || c == 46 || c == 126)

/-- The digit `"0123456789ABCDEF"[n]` for a nibble `n`. -/
def upperhex (n : UInt8) : UInt8 :=
  if n < 10 then 48 + n else 55 + n

/-- What `url.QueryEscape` writes for one byte: `+` for a space, `%XX` for
a byte to escape, the byte itself otherwise. -/
def escapeByte (c : UInt8) : Bytes :=
  if c = 32 then [43]
  else if shouldEscape c then [37, upperhex (c >>> 4), upperhex (c &&& 15)]
  else [c]

/-- Function `url.QueryEscape`. -/
def QueryEscape (s : Bytes) : Bytes :=
  s.flatMap escapeByte

/-- Function `ishex` of net/url. -/
def ishex (c : UInt8) : Bool :=
  (48 ≤ c && c ≤ 57) || (97 ≤ c && c ≤ 102) || (65 ≤ c && c ≤ 70)

/-- Function `unhex` of net/url. -/
def unhex (c : UInt8) : UInt8 :=
  if 48 ≤ c && c ≤ 57 then c - 48
  else if 97 ≤ c && c ≤ 102 then c - 97 + 10
  else if 65 ≤ c && c ≤ 70 then c - 65 + 10
  else 0

/-- Function `url.QueryUnescape`; `none` is the `EscapeError` for a `%`
that is not followed by two hex digits. `+` becomes a space and `%XX` the
byte it names. -/
def QueryUnescape : Bytes → Option Bytes
  | [] => some []
  | [c] => if c = 37 then none else if c = 43 then some [32] else some [c]
  | c :: a :: rest =>
    if c = 37 then
      match rest with
      | [] => none
      | b :: rest2 =>
        if ishex a && ishex b then
          (QueryUnescape rest2).map fun tail => (unhex a <<< 4 ||| unhex b) :: tail
        else none
    else if c = 43 then (QueryUnescape (a :: rest)).map fun tail => 32 :: tail
    else (QueryUnescape (a :: rest)).map fun tail => c :: tail

/-- A `url.Values`, a `map[string][]string`, kept as its list of entries.
A Go map holds a key once; the entries built by `ParseQuery`, `Set` and
`Del` have distinct keys and non-empty value lists. -/
abbrev Values := List (Bytes × List Bytes)

/-- The index expression `v[key]`: the values under `key`, the nil slice
when the key is absent. -/
def Values.values (v : Values) (key : Bytes) : List Bytes :=
  match v.find? fun kv => kv.1 == key with
  | some kv => kv.2
  | none => []

/-- Method `Values.Has`. -/
def Values.Has (v : Values) (key : Bytes) : Bool :=
  v.any fun kv => kv.1 == key

/-- Method `Values.Set`: `v[key] = []string{value}`. -/
def Values.Set (v : Values) (key value : Bytes) : Values :=
  if v.Has key then v.map fun kv => if kv.1 == key then (key, [value]) else kv
  else v ++ [(key, [value])]

/-- Method `Values.Add`, also the statement `m[key] = append(m[key], value)`
of `parseQuery`. -/
def Values.Add (v : Values) (key value : Bytes) : Values :=
  if v.Has key then v.map fun kv => if kv.1 == key then (key, kv.2 ++ [value]) else kv
  else v ++ [(key, [value])]

/-- Method `Values.Del`: `delete(v, key)`. -/
def Values.Del (v : Values) (key : Bytes) : Values :=
  v.filter fun kv => !(kv.1 == key)

/-- The order of Go strings that `slices.Sort` uses: byte by byte, a proper
prefix first. -/
def keyLE (a b : Bytes) : Prop :=
  a.map UInt8.toNat ≤ b.map UInt8.toNat

instance : DecidableRel keyLE :=
  fun a b => inferInstanceAs (Decidable (a.map UInt8.toNat ≤ b.map UInt8.toNat))

/-- The sorted keys that `Values.Encode` walks. -/
def Values.sortedKeys (v : Values) : List Bytes :=
  (v.map fun kv => kv.1).insertionSort keyLE

/-- The text `Values.Encode` writes for one key: `key=value` for each
value, both escaped. -/
def encodeKey (key : Bytes) (vs : List Bytes) : List Bytes :=
  vs.map fun value => QueryEscape key ++ [61] ++ QueryEscape value

/-- The pieces joined with `&`, as `Values.Encode` writes them into its
buffer. -/
def joinAmp : List Bytes → Bytes
  | [] => []
  | [piece] => piece
  | piece :: rest => piece ++ [38] ++ joinAmp rest

/-- Method `Values.Encode`: keys in sorted order, the values of a key in
their order, `key=value` pieces joined with `&`. -/
def Values.Encode (v : Values) : Bytes :=
  joinAmp (v.sortedKeys.flatMap fun key => encodeKey key (v.values key))

/-- The pieces of a text between the occurrences of `sep`. -/
def splitOn (sep : UInt8) : Bytes → List Bytes
  | [] => [[]]
  | c :: rest =>
    if c = sep then [] :: splitOn sep rest
    else
      match splitOn sep rest with
      | piece :: pieces => (c :: piece) :: pieces
      | [] => [[c]]

/-- Function `strings.Cut(s, sep)` for a one byte separator: the text before
the first `sep` and the text after it; without a `sep` the whole text and
the empty text. -/
def cutAt (sep : UInt8) : Bytes → Bytes × Bytes
  | [] => ([], [])
  | c :: rest =>
    if c = sep then ([], rest)
    else ((c :: (cutAt sep rest).1), (cutAt sep rest).2)

/-- One turn of the loop of `parseQuery` of net/url, on the piece cut off at
the next `&`: a piece with a semicolon, an empty piece, and a piece whose
key or value does not unescape are skipped. -/
def parsePiece (m : Values) (piece : Bytes) : Values :=
  if piece.contains 59 then m
  else if piece = [] then m
  else
    match QueryUnescape (cutAt 61 piece).1 with
    | none => m
    | some key =>
      match QueryUnescape (cutAt 61 piece).2 with
      | none => m
      | some value => m.Add key value

/-- Function `url.ParseQuery`, its error dropped as `URL.Query` drops it. -/
def ParseQuery (query : Bytes) : Values :=
  (splitOn 38 query).foldl parsePiece []

/-- Method `URL.Query`. -/
def URL.Query (u : URL) : Values :=
  ParseQuery u.RawQuery

/-- Method `Request.SetQueryParam` (request.go 96-105). -/
def Request.SetQueryParam {T : Type} (r : Request T) (param value : Bytes) : Request T :=
  let queries := r.innerRequest.URL.Query
  let queries1 := if value = [] then queries.Del param else queries.Set param value
  { r with innerRequest :=
      { r.innerRequest with URL := { r.innerRequest.URL with RawQuery := queries1.Encode } } }

/-- Method `Request.SetQueryParams` (request.go 107-112). `params` lists the
entries of the map in the order in which the `range` loop visits them. -/
def Request.SetQueryParams {T : Type} (r : Request T) (params : List (Bytes × Bytes)) :
    Request T :=
  params.foldl (fun req kv => req.SetQueryParam kv.1 kv.2) r

/-- The keys of the entries of a `url.Values`. -/
def Values.keys (v : Values) : List Bytes :=
  v.map fun kv => kv.1

/-- The entries stand for a Go map built by `ParseQuery`, `Set` and `Del`:
no key occurs twice and every key has at least one value. -/
def Values.WF (v : Values) : Prop :=
  v.keys.Nodup ∧ ∀ kv ∈ v, kv.2 ≠ []

/-- The entries of a map in the order of its sorted keys. -/
def Values.canonical (v : Values) : Values :=
  v.sortedKeys.map fun key => (key, v.values key)

/-- The map `SetQueryParam` encodes: `queries.Del(param)` for the empty
value, `queries.Set(param, value)` otherwise (request.go 98-102). -/
def Values.setOrDel (queries : Values) (param value : Bytes) : Values :=
  if value = [] then queries.Del param else queries.Set param value

/-! ## net/url and path: joining paths, as request.go 80-84 uses them -/

/-- Function `shouldEscape(c, encodePath)` of net/url: the ASCII letters, the
digits, `-`, `_`, `.`, `~` and the reserved `$`, `&`, `+`, `,`, `/`, `:`,
`;`, `=`, `@` are kept; every other byte, `?` and `%` among them, is
escaped. -/
def shouldEscapePath (c : UInt8) : Bool :=
  !((97 ≤ c && c ≤ 122) || (65 ≤ c && c ≤ 90) || (48 ≤ c && c ≤ 57) ||
    c == 45 || c == 95 || c == 46 || c == 126 ||
    c == 36 || c == 38 || c == 43 || c == 44 || c == 47 || c == 58 || c == 59 ||
    c == 61 || c == 64)

/-- What `escape(s, encodePath)` writes for one byte: `%XX` for a byte to
escape, the byte itself otherwise. -/
def escapePathByte (c : UInt8) : Bytes :=
  if shouldEscapePath c then [37, upperhex (c >>> 4), upperhex (c &&& 15)] else [c]

/-- Function `escape(s, encodePath)` of net/url. -/
def escapePath (s : Bytes) : Bytes :=
  s.flatMap escapePathByte

/-- Function `unescape(s, encodePath)` of net/url; `none` is the
`EscapeError` for a `%` that is not followed by two hex digits. `%XX`
becomes the byte it names and every other byte, `+` included, is kept. -/
def unescapePath : Bytes → Option Bytes
  | [] => some []
  | [c] => if c = 37 then none else some [c]
  | c :: a :: rest =>
    if c = 37 then
      match rest with
      | [] => none
      | b :: rest2 =>
        if ishex a && ishex b then
          (unescapePath rest2).map fun tail => (unhex a <<< 4 ||| unhex b) :: tail
        else none
    else (unescapePath (a :: rest)).map fun tail => c :: tail

/-- Function `validEncoded(s, encodePath)` of net/url: each byte is one of
`!`, `$`, `&`, `'`, `(`, `)`, `*`, `+`, `,`, `;`, `=`, `:`, `@`, `[`, `]`,
`%`, or a byte that `shouldEscape` keeps. -/
def validEncodedPath (s : Bytes) : Bool :=
  s.all fun c =>
    c == 33 || c == 36 || c == 38 || c == 39 || c == 40 || c == 41 || c == 42 || c == 43 ||
    c == 44 || c == 59 || c == 61 || c == 58 || c == 64 || c == 91 || c == 93 || c == 37 ||
    !shouldEscapePath c

/-- Method `URL.EscapedPath` of net/url: `RawPath` when it is a valid
encoding of `Path`, else the default encoding of `Path`; the path `*` is
not escaped. -/
def URL.EscapedPath (u : URL) : Bytes :=
  if u.RawPath ≠ [] ∧ validEncodedPath u.RawPath = true ∧ unescapePath u.RawPath = some u.Path then
    u.RawPath
  else if u.Path = [42] then [42]
  else escapePath u.Path

/-- Method `URL.setPath` of net/url, its error dropped as `JoinPath` drops
it: a text that does not unescape leaves the URL as it is; otherwise
`Path` is the unescaped text and `RawPath` the text itself unless that is
the default encoding of `Path`. -/
def URL.setPath (u : URL) (p : Bytes) : URL :=
  match unescapePath p with
  | none => u
  | some unescaped =>
    { u with Path := unescaped, RawPath := if p = escapePath unescaped then [] else p }

/-- The inner loop of the `..` case of `path.Clean`: from the write index
`w`, step back while `w > dotdot` and the byte at `w` is not a slash. -/
def cleanBacktrack (out : Bytes) (dotdot : Nat) : Nat → Nat
  | 0 => 0
  | w + 1 =>
    if w + 1 > dotdot ∧ out.getD (w + 1) 0 ≠ 47 then cleanBacktrack out dotdot w else w + 1

/-- The loop of `path.Clean` on the bytes still to read, with the bytes
written so far (`out`, whose length is the write index) and the index
`dotdot`. The first argument tells whether the path is rooted. The second
is true while the loop that copies a path element runs: it copies up to
the next slash. Otherwise the byte at hand starts an empty element (a
slash), a `.` element (a dot at the end or before a slash), a `..` element
(two dots at the end or before a slash), or a real element, before which
a slash is written unless the output is empty or is the leading slash. -/
def cleanLoop (rooted : Bool) : Bool → Bytes → Bytes → Nat → Bytes
  | _, [], out, _ => out
  | true, c :: rest, out, dotdot =>
    if c = 47 then cleanLoop rooted false rest out dotdot
    else cleanLoop rooted true rest (out ++ [c]) dotdot
  | false, [c], out, dotdot =>
    if c = 47 then cleanLoop rooted false [] out dotdot
    else if c = 46 then cleanLoop rooted false [] out dotdot
    else
      cleanLoop rooted true []
        ((if (rooted && out.length != 1) || (!rooted && out.length != 0) then out ++ [47]
          else out) ++ [c]) dotdot
  | false, c :: d :: rest, out, dotdot =>
    if c = 47 then cleanLoop rooted false (d :: rest) out dotdot
    else if c = 46 ∧ d = 47 then cleanLoop rooted false (d :: rest) out dotdot
    else if c = 46 ∧ d = 46 ∧ (rest = [] ∨ rest.head? = some 47) then
      if out.length > dotdot then
        cleanLoop rooted false rest
          (out.take (cleanBacktrack out dotdot (out.length - 1))) dotdot
      else if !rooted then
        cleanLoop rooted false rest
          ((if out.length > 0 then out ++ [47] else out) ++ [46, 46])
          ((if out.length > 0 then out ++ [47] else out) ++ [46, 46]).length
      else cleanLoop rooted false rest out dotdot
    else
      cleanLoop rooted true (d :: rest)
        ((if (rooted && out.length != 1) || (!rooted && out.length != 0) then out ++ [47]
          else out) ++ [c]) dotdot

/-- Function `path.Clean`. -/
def path.Clean (p : Bytes) : Bytes :=
  if p = [] then [46]
  else
    let out :=
      if p.head? = some 47 then cleanLoop true false (p.drop 1) [47] 1
      else cleanLoop false false p [] 0
    if out = [] then [46] else out

/-- Function `path.Join`: the non-empty elements joined with slashes, then
cleaned; the empty text when every element is empty. -/
def path.Join (elem : List Bytes) : Bytes :=
  if (elem.map List.length).sum = 0 then []
  else
    path.Clean (elem.foldl
      (fun buf e =>
        if buf ≠ [] ∨ e ≠ [] then (if buf ≠ [] then buf ++ [47] else buf) ++ e else buf) [])

/-- Method `URL.JoinPath` of net/url with one element: a copy of the URL
whose path is the escaped path and the element joined by `path.Join`. A
path that does not start with a slash is joined as a rooted one and the
leading slash is cut off again; a trailing slash of the element is
kept. -/
def URL.JoinPath (u : URL) (elem : Bytes) : URL :=
  let p :=
    if u.EscapedPath.head? ≠ some 47 then (path.Join [47 :: u.EscapedPath, elem]).drop 1
    else path.Join [u.EscapedPath, elem]
  let p := if elem.getLast? = some 47 ∧ p.getLast? ≠ some 47 then p ++ [47] else p
  u.setPath p

/-- Method `Request.GetInnerRequest` (request.go 120-122). -/
def Request.GetInnerRequest {T : Type} (r : Request T) : InnerRequest :=
  r.innerRequest

/-- Method `Request.JoinBaseUrl` (request.go 80-84). -/
def Request.JoinBaseUrl {T : Type} (r : Request T) (url : Bytes) : Request T :=
  let innerReq := r.GetInnerRequest
  { r with innerRequest := { innerReq with URL := innerReq.URL.JoinPath url } }

/-- A path element that `path.Clean` keeps as it is: not empty, without a
slash, and neither `.` nor `..`. -/
def plainElement (e : Bytes) : Prop :=
  e ≠ [] ∧ 47 ∉ e ∧ e ≠ [46] ∧ e ≠ [46, 46]

instance (e : Bytes) : Decidable (plainElement e) :=
  inferInstanceAs (Decidable (e ≠ [] ∧ 47 ∉ e ∧ e ≠ [46] ∧ e ≠ [46, 46]))

/-- The elements joined with slashes. -/
def joinSlash : List Bytes → Bytes
  | [] => []
  | [e] => e
  | e :: rest => e ++ [47] ++ joinSlash rest

/-! ## unicode/utf8 -/

/-- The rune `utf8.RuneError`, U+FFFD. -/
def RuneError : Nat := 0xFFFD

/-- The lowest second byte that `utf8.DecodeRune` accepts after the first
byte `p0` (table `acceptRanges`). -/
def acceptLo (p0 : UInt8) : UInt8 :=
  if p0 = 0xE0 then 0xA0 else if p0 = 0xF0 then 0x90 else 0x80

/-- The highest second byte that `utf8.DecodeRune` accepts after the first
byte `p0` (table `acceptRanges`). -/
def acceptHi (p0 : UInt8) : UInt8 :=
  if p0 = 0xED then 0x9F else if p0 = 0xF4 then 0x8F else 0xBF

/-- Function `utf8.DecodeRune`: the rune at the start of the bytes and its
width. An invalid or incomplete sequence gives `(RuneError, 1)`, no bytes
give `(RuneError, 0)`. The masks and shifts of the Go code select disjoint
bit fields and are written as remainders, products and sums. -/
def utf8.DecodeRune (p : Bytes) : Nat × Nat :=
  match p with
  | [] => (RuneError, 0)
  | p0 :: rest =>
    if p0 < 0x80 then (p0.toNat, 1)
    else if p0 < 0xC2 ∨ 0xF4 < p0 then (RuneError, 1)
    else
      match rest with
      | [] => (RuneError, 1)
      | b1 :: rest1 =>
        if b1 < acceptLo p0 ∨ acceptHi p0 < b1 then (RuneError, 1)
        else if p0 < 0xE0 then (p0.toNat % 32 * 64 + b1.toNat % 64, 2)
        else
          match rest1 with
          | [] => (RuneError, 1)
          | b2 :: rest2 =>
            if b2 < 0x80 ∨ 0xBF < b2 then (RuneError, 1)
            else if p0 < 0xF0 then
              (p0.toNat % 16 * 4096 + b1.toNat % 64 * 64 + b2.toNat % 64, 3)
            else
              match rest2 with
              | [] => (RuneError, 1)
              | b3 :: _ =>
                if b3 < 0x80 ∨ 0xBF < b3 then (RuneError, 1)
                else
                  (p0.toNat % 8 * 262144 + b1.toNat % 64 * 4096 + b2.toNat % 64 * 64
                    + b3.toNat % 64, 4)

/-- Function `utf8.EncodeRune` (also `utf8.AppendRune`): the UTF-8 bytes of
a rune; a surrogate and a value above U+10FFFF are written as U+FFFD. -/
def utf8.EncodeRune (r : Nat) : Bytes :=
  if r ≤ 0x7F then [UInt8.ofNat r]
  else if r ≤ 0x7FF then [UInt8.ofNat (0xC0 + r / 64), UInt8.ofNat (0x80 + r % 64)]
  else if r > 0x10FFFF ∨ (0xD800 ≤ r ∧ r ≤ 0xDFFF) then [0xEF, 0xBF, 0xBD]
  else if r ≤ 0xFFFF then
    [UInt8.ofNat (0xE0 + r / 4096), UInt8.ofNat (0x80 + r / 64 % 64), UInt8.ofNat (0x80 + r % 64)]
  else
    [UInt8.ofNat (0xF0 + r / 262144), UInt8.ofNat (0x80 + r / 4096 % 64),
     UInt8.ofNat (0x80 + r / 64 % 64), UInt8.ofNat (0x80 + r % 64)]

/-- The loop of `utf8.Valid` over the bytes, `fuel` bounding its turns:
whether no position decodes to `(RuneError, 1)`. -/
def utf8.validLoop : Nat → Bytes → Bool
  | 0, _ => true
  | _ + 1, [] => true
  | fuel + 1, b :: rest =>
    if b < 0x80 then utf8.validLoop fuel rest
    else if (utf8.DecodeRune (b :: rest)).1 = RuneError ∧ (utf8.DecodeRune (b :: rest)).2 = 1 then
      false
    else utf8.validLoop fuel ((b :: rest).drop (utf8.DecodeRune (b :: rest)).2)

/-- Function `utf8.Valid`: whether the bytes are valid UTF-8. -/
def utf8.Valid (p : Bytes) : Bool :=
  utf8.validLoop p.length p

/-- The bytes with each byte that starts no valid UTF-8 sequence replaced
by the three bytes of U+FFFD, `fuel` bounding the turns. -/
def coerceLoop : Nat → Bytes → Bytes
  | 0, _ => []
  | _ + 1, [] => []
  | fuel + 1, b :: rest =>
    if b < 0x80 then b :: coerceLoop fuel rest
    else if (utf8.DecodeRune (b :: rest)).1 = RuneError ∧ (utf8.DecodeRune (b :: rest)).2 = 1 then
      [0xEF, 0xBF, 0xBD] ++ coerceLoop fuel rest
    else
      (b :: rest).take (utf8.DecodeRune (b :: rest)).2
        ++ coerceLoop fuel ((b :: rest).drop (utf8.DecodeRune (b :: rest)).2)

/-- What a Go string becomes when it is coerced to valid UTF-8 byte by
byte: valid sequences are kept, every other byte becomes U+FFFD. -/
def coerceUTF8 (p : Bytes) : Bytes :=
  coerceLoop p.length p

/-! ## dto/schedule.go and encoding/json on it -/

/-- The struct `dto.Schedule` (schedule.go 4-11). A Go string is its
bytes. -/
structure dto.Schedule where
  Id : Bytes
  Name : Bytes
  Description : Bytes
  Timezone : Bytes
  Enabled : Bool
  TeamId : Bytes
deriving DecidableEq, Repr

/-- Zero value `dto.Schedule{}`. -/
def dto.Schedule.zero : dto.Schedule :=
  { Id := [], Name := [], Description := [], Timezone := [], Enabled := false, TeamId := [] }

/-- The digit `"0123456789abcdef"[n]` for a nibble `n`. -/
def lowerhex (n : UInt8) : UInt8 :=
  if n < 10 then 48 + n else 87 + n

/-- Table `htmlSafeSet` of encoding/json for a byte below 0x80: the byte is
written as it is unless it is a control character, `"`, `\`, `<`, `>` or
`&`. -/
def htmlSafe (b : UInt8) : Bool :=
  32 ≤ b && b != 34 && b != 38 && b != 60 && b != 62 && b != 92

/-- What `appendString` of encoding/json writes for a byte below 0x80 that
is not in `htmlSafeSet`: a two character escape for `\`, `"`, backspace,
form feed, line feed, carriage return and tab, `\u00XX` otherwise. -/
def escapeAscii (b : UInt8) : Bytes :=
  if b = 92 ∨ b = 34 then [92, b]
  else if b = 8 then [92, 98]
  else if b = 12 then [92, 102]
  else if b = 10 then [92, 110]
  else if b = 13 then [92, 114]
  else if b = 9 then [92, 116]
  else [92, 117, 48, 48, lowerhex (b >>> 4), lowerhex (b &&& 15)]

/-- The loop of `appendString` of encoding/json with HTML escaping, as
`json.Marshal` runs it, `fuel` bounding its turns. A byte below 0x80 is
written as it is or escaped; otherwise the rune at hand is decoded from
at most four bytes: an invalid byte is written as the escape of U+FFFD,
U+2028 and U+2029 as their escapes, any other rune as its bytes. -/
def appendStringLoop : Nat → Bytes → Bytes
  | 0, _ => []
  | _ + 1, [] => []
  | fuel + 1, b :: rest =>
    if b < 0x80 then
      (if htmlSafe b then [b] else escapeAscii b) ++ appendStringLoop fuel rest
    else if (utf8.DecodeRune ((b :: rest).take 4)).1 = RuneError
        ∧ (utf8.DecodeRune ((b :: rest).take 4)).2 = 1 then
      [92, 117, 102, 102, 102, 100] ++ appendStringLoop fuel rest
    else if (utf8.DecodeRune ((b :: rest).take 4)).1 = 0x2028
        ∨ (utf8.DecodeRune ((b :: rest).take 4)).1 = 0x2029 then
      [92, 117, 50, 48, 50,
          lowerhex (UInt8.ofNat ((utf8.DecodeRune ((b :: rest).take 4)).1 % 16))]
        ++ appendStringLoop fuel ((b :: rest).drop (utf8.DecodeRune ((b :: rest).take 4)).2)
    else
      (b :: rest).take (utf8.DecodeRune ((b :: rest).take 4)).2
        ++ appendStringLoop fuel ((b :: rest).drop (utf8.DecodeRune ((b :: rest).take 4)).2)

/-- Function `appendString` of encoding/json: the JSON string literal for a
Go string. -/
def appendString (src : Bytes) : Bytes :=
  [34] ++ appendStringLoop src.length src ++ [34]

/-- The call `json.Marshal(s)` for a `dto.Schedule`: an object with one
member per field, named by the `json` tag, in field order, without
spaces. It has no error case. -/
def dto.Schedule.Marshal (s : dto.Schedule) : Bytes :=
  bytesOfString "\x7b\"id\":" ++ appendString s.Id
    ++ bytesOfString ",\"name\":" ++ appendString s.Name
    ++ bytesOfString ",\"description\":" ++ appendString s.Description
    ++ bytesOfString ",\"timezone\":" ++ appendString s.Timezone
    ++ bytesOfString ",\"enabled\":" ++ bytesOfString (if s.Enabled then "true" else "false")
    ++ bytesOfString ",\"teamId\":" ++ appendString s.TeamId
    ++ bytesOfString "\x7d"

/-- A JSON document as the decoder of encoding/json reads it: a number is
kept as its literal, a string as its unquoted bytes, an object as its
members in document order. -/
inductive JsonDoc where
  | null
  | bool (b : Bool)
  | number (literal : Bytes)
  | str (text : Bytes)
  | array (items : List JsonDoc)
  | object (members : List (Bytes × JsonDoc))

/-- The white space the scanner of encoding/json steps over: space, tab,
carriage return, line feed. -/
def skipSpace : Bytes → Bytes
  | [] => []
  | c :: rest => if c = 32 ∨ c = 9 ∨ c = 13 ∨ c = 10 then skipSpace rest else c :: rest

/-- The value of a hexadecimal digit, `none` for any other byte. -/
def hexDigit (c : UInt8) : Option Nat :=
  if 48 ≤ c ∧ c ≤ 57 then some (c.toNat - 48)
  else if 97 ≤ c ∧ c ≤ 102 then some (c.toNat - 97 + 10)
  else if 65 ≤ c ∧ c ≤ 70 then some (c.toNat - 65 + 10)
  else none

/-- Function `getu4` of encoding/json: the number that a text starting with
`\uXXXX` names, `none` (the result -1) for any other text. -/
def getu4 : Bytes → Option Nat
  | 92 :: 117 :: a :: b :: c :: d :: _ =>
    match hexDigit a, hexDigit b, hexDigit c, hexDigit d with
    | some x, some y, some z, some w => some (x * 4096 + y * 256 + z * 16 + w)
    | _, _, _, _ => none
  | _ => none

/-- Function `utf16.DecodeRune` on a first number and what `getu4` gave for
the text after it: the rune of a surrogate pair, U+FFFD otherwise. -/
def utf16.DecodeRune (r1 : Nat) (r2 : Option Nat) : Nat :=
  match r2 with
  | some low =>
    if 0xD800 ≤ r1 ∧ r1 < 0xDC00 ∧ 0xDC00 ≤ low ∧ low < 0xE000 then
      (r1 - 0xD800) * 1024 + (low - 0xDC00) + 0x10000
    else RuneError
  | none => RuneError

/-- Puts bytes in front of the text of a result of `unquoteLoop`. -/
def prepend (bytes : Bytes) (result : Option (Bytes × Bytes)) : Option (Bytes × Bytes) :=
  result.map fun r => (bytes ++ r.1, r.2)

/-- A string literal after its opening quote, read as the scanner and
`unquoteBytes` of encoding/json read it, `fuel` bounding the turns: the
unquoted text and what follows the closing quote; `none` for what the
scanner rejects (a control character, an unknown escape, no closing
quote). An escape names its byte or rune, a surrogate pair names one rune
and a lone surrogate U+FFFD; a byte from 0x80 on is decoded as a rune and
written again, which turns invalid UTF-8 into U+FFFD. -/
def unquoteLoop : Nat → Bytes → Option (Bytes × Bytes)
  | 0, _ => none
  | _ + 1, [] => none
  | fuel + 1, c :: rest =>
    if c = 34 then some ([], rest)
    else if c = 92 then
      match rest with
      | [] => none
      | e :: rest1 =>
        if e = 34 ∨ e = 92 ∨ e = 47 then prepend [e] (unquoteLoop fuel rest1)
        else if e = 98 then prepend [8] (unquoteLoop fuel rest1)
        else if e = 102 then prepend [12] (unquoteLoop fuel rest1)
        else if e = 110 then prepend [10] (unquoteLoop fuel rest1)
        else if e = 114 then prepend [13] (unquoteLoop fuel rest1)
        else if e = 116 then prepend [9] (unquoteLoop fuel rest1)
        else if e = 117 then
          match getu4 (c :: rest) with
          | none => none
          | some rr =>
            if 0xD800 ≤ rr ∧ rr < 0xE000 then
              if utf16.DecodeRune rr (getu4 (rest1.drop 4)) ≠ RuneError then
                prepend (utf8.EncodeRune (utf16.DecodeRune rr (getu4 (rest1.drop 4))))
                  (unquoteLoop fuel (rest1.drop 10))
              else prepend (utf8.EncodeRune RuneError) (unquoteLoop fuel (rest1.drop 4))
            else prepend (utf8.EncodeRune rr) (unquoteLoop fuel (rest1.drop 4))
        else none
    else if c < 32 then none
    else if c < 0x80 then prepend [c] (unquoteLoop fuel rest)
    else
      prepend (utf8.EncodeRune (utf8.DecodeRune (c :: rest)).1)
        (unquoteLoop fuel ((c :: rest).drop (utf8.DecodeRune (c :: rest)).2))

/-- A string literal after its opening quote: its unquoted text and what
follows the closing quote. -/
def unquote (input : Bytes) : Option (Bytes × Bytes) :=
  unquoteLoop input.length input

/-- The leading decimal digits of a text and what follows them. -/
def takeDigits : Bytes → Bytes × Bytes
  | [] => ([], [])
  | c :: rest =>
    if 48 ≤ c ∧ c ≤ 57 then ((c :: (takeDigits rest).1), (takeDigits rest).2)
    else ([], c :: rest)

/-- The fraction and exponent that may follow the integer part of a number
literal: a `.` needs digits after it, an `e` or `E` an optional sign and
digits. Gives the text read and what follows it. -/
def numberTail (input : Bytes) : Option (Bytes × Bytes) :=
  let afterFraction : Option (Bytes × Bytes) :=
    match input with
    | 46 :: rest =>
      if (takeDigits rest).1 = [] then none
      else some (46 :: (takeDigits rest).1, (takeDigits rest).2)
    | _ => some ([], input)
  match afterFraction with
  | none => none
  | some (fraction, rest) =>
    match rest with
    | e :: rest1 =>
      if e = 101 ∨ e = 69 then
        let sign : Bytes :=
          match rest1 with
          | s :: _ => if s = 43 ∨ s = 45 then [s] else []
          | [] => []
        if (takeDigits (rest1.drop sign.length)).1 = [] then none
        else
          some (fraction ++ [e] ++ sign ++ (takeDigits (rest1.drop sign.length)).1,
            (takeDigits (rest1.drop sign.length)).2)
      else some (fraction, rest)
    | [] => some (fraction, rest)

/-- A number literal at the start of a text, after an optional `-` that the
caller has read: `0` or a digit from 1 to 9 with further digits, then the
optional fraction and exponent. -/
def unsignedNumber (input : Bytes) : Option (Bytes × Bytes) :=
  match input with
  | c :: rest =>
    if c = 48 then (numberTail rest).map fun r => (48 :: r.1, r.2)
    else if 49 ≤ c ∧ c ≤ 57 then
      (numberTail (takeDigits rest).2).map fun r => (c :: (takeDigits rest).1 ++ r.1, r.2)
    else none
  | [] => none

/-- What follows a given literal text at the start of a text. -/
def afterLiteral (literal : Bytes) (input : Bytes) : Option Bytes :=
  if literal.isPrefixOf input then some (input.drop literal.length) else none

mutual

/-- A JSON value at the start of a text, after optional white space, as
the scanner and decoder of encoding/json read it: the value and what
follows it, `none` for a syntax error. `fuel` bounds the nesting and the
number of members and items. -/
def parseValue : Nat → Bytes → Option (JsonDoc × Bytes)
  | 0, _ => none
  | fuel + 1, input =>
    match skipSpace input with
    | [] => none
    | c :: rest =>
      if c = 123 then
        match skipSpace rest with
        | 125 :: rest1 => some (JsonDoc.object [], rest1)
        | after =>
          (parseMembers fuel after).map fun r => (JsonDoc.object r.1, r.2)
      else if c = 91 then
        match skipSpace rest with
        | 93 :: rest1 => some (JsonDoc.array [], rest1)
        | after =>
          (parseItems fuel after).map fun r => (JsonDoc.array r.1, r.2)
      else if c = 34 then (unquote rest).map fun r => (JsonDoc.str r.1, r.2)
      else if c = 116 then
        (afterLiteral [114, 117, 101] rest).map fun r => (JsonDoc.bool true, r)
      else if c = 102 then
        (afterLiteral [97, 108, 115, 101] rest).map fun r => (JsonDoc.bool false, r)
      else if c = 110 then
        (afterLiteral [117, 108, 108] rest).map fun r => (JsonDoc.null, r)
      else if c = 45 then (unsignedNumber rest).map fun r => (JsonDoc.number (45 :: r.1), r.2)
      else (unsignedNumber (c :: rest)).map fun r => (JsonDoc.number r.1, r.2)

/-- The members of an object from the opening quote of a key on: key, `:`,
value, then `,` and further members, or the closing brace. -/
def parseMembers : Nat → Bytes → Option (List (Bytes × JsonDoc) × Bytes)
  | 0, _ => none
  | fuel + 1, input =>
    match input with
    | 34 :: rest =>
      match unquote rest with
      | none => none
      | some (key, rest1) =>
        match skipSpace rest1 with
        | 58 :: rest2 =>
          match parseValue fuel rest2 with
          | none => none
          | some (value, rest3) =>
            match skipSpace rest3 with
            | 44 :: rest4 =>
              (parseMembers fuel (skipSpace rest4)).map fun r => ((key, value) :: r.1, r.2)
            | 125 :: rest4 => some ([(key, value)], rest4)
            | _ => none
        | _ => none
    | _ => none

/-- The items of an array from the first value on: value, then `,` and
further items, or the closing bracket. -/
def parseItems : Nat → Bytes → Option (List JsonDoc × Bytes)
  | 0, _ => none
  | fuel + 1, input =>
    match parseValue fuel input with
    | none => none
    | some (value, rest) =>
      match skipSpace rest with
      | 44 :: rest1 => (parseItems fuel rest1).map fun r => (value :: r.1, r.2)
      | 93 :: rest1 => some ([value], rest1)
      | _ => none

end

/-- A whole JSON text as `json.Unmarshal` checks and reads it: one value
with optional white space around it; `none` for a syntax error. The fuel
is not used up by a text of that length. -/
def parseDocument (data : Bytes) : Option JsonDoc :=
  match parseValue (data.length + 1) data with
  | some (doc, rest) => if skipSpace rest = [] then some doc else none
  | none => none

/-- The `json` tags of `dto.Schedule` (schedule.go 5-10). -/
def dto.Schedule.tags : List String :=
  ["id", "name", "description", "timezone", "enabled", "teamId"]

/-- The upper case form of an ASCII byte. -/
def upperAscii (c : UInt8) : UInt8 :=
  if 97 ≤ c ∧ c ≤ 122 then c - 32 else c

/-- Whether a key and a tag made of ASCII bytes have the same `foldName`
in encoding/json: ASCII letters match without regard to case, and of the
other runes only U+017F folds to `S` and U+212A to `K`. -/
def equalFold : Bytes → Bytes → Bool
  | [], [] => true
  | 0xC5 :: 0xBF :: key, t :: tag => upperAscii t == 83 && equalFold key tag
  | 0xE2 :: 0x84 :: 0xAA :: key, t :: tag => upperAscii t == 75 && equalFold key tag
  | k :: key, t :: tag => k < 0x80 && upperAscii k == upperAscii t && equalFold key tag
  | _, _ => false

/-- The field that `json.Unmarshal` picks for an object key: the tag equal
to the key, else the tag with the same folded name. -/
def dto.Schedule.fieldFor (key : Bytes) : Option String :=
  match dto.Schedule.tags.find? fun tag => bytesOfString tag == key with
  | some tag => some tag
  | none => dto.Schedule.tags.find? fun tag => equalFold key (bytesOfString tag)

/-- What `json.Unmarshal` does with one object member: a key without a
field is skipped, `null` leaves the field, a value of the field's type is
stored, and a value of another type leaves the field and reports an
`UnmarshalTypeError`. -/
def dto.Schedule.setField (t : dto.Schedule) (key : Bytes) (value : JsonDoc) :
    dto.Schedule × Option Error :=
  match dto.Schedule.fieldFor key, value with
  | none, _ => (t, none)
  | some _, JsonDoc.null => (t, none)
  | some "id", JsonDoc.str text => ({ t with Id := text }, none)
  | some "name", JsonDoc.str text => ({ t with Name := text }, none)
  | some "description", JsonDoc.str text => ({ t with Description := text }, none)
  | some "timezone", JsonDoc.str text => ({ t with Timezone := text }, none)
  | some "enabled", JsonDoc.bool b => ({ t with Enabled := b }, none)
  | some "teamId", JsonDoc.str text => ({ t with TeamId := text }, none)
  | some tag, _ => (t, some ("json: cannot unmarshal value into Go struct field Schedule." ++ tag))

/-- The loop of `json.Unmarshal` over the members of an object: members are
decoded in document order and the first error is the one returned. -/
def dto.Schedule.setFields :
    List (Bytes × JsonDoc) → dto.Schedule → dto.Schedule × Option Error
  | [], t => (t, none)
  | (key, value) :: rest, t =>
    match dto.Schedule.setField t key value with
    | (t1, some err) => ((dto.Schedule.setFields rest t1).1, some err)
    | (t1, none) => dto.Schedule.setFields rest t1

/-- The call `json.Unmarshal(body, t)` for `t *dto.Schedule`: a text that is
not JSON leaves the target and is a syntax error, an object is decoded
member by member, `null` changes nothing, any other document is a type
error. -/
def dto.Schedule.Unmarshal (body : Bytes) (t : dto.Schedule) : dto.Schedule × Option Error :=
  match parseDocument body with
  | none => (t, some "invalid character looking for beginning of value")
  | some (JsonDoc.object members) => dto.Schedule.setFields members t
  | some JsonDoc.null => (t, none)
  | some _ => (t, some "json: cannot unmarshal value into Go value of type dto.Schedule")

/-- A run of `client.Do` as the request sees it: the replies it hands to the
installed response handler, in order, and how it settles its own reply and
error from the errors the handler returned. A transport of this form
reaches the `Request` through the handler alone. -/
def transportRun {T : Type} (handed : List (Option NativeResponse))
    (settle : List (Option Error) → Option NativeResponse × Option Error) : Transport T :=
  fun handler r =>
    match handed.foldl
        (fun acc reply => ((handler acc.1 reply).1, acc.2 ++ [(handler acc.1 reply).2]))
        (r, []) with
    | (r1, errs) => (r1, (settle errs).1, (settle errs).2)

/-- Method `Request.Url` (request.go 73-78). `parse` stands for `url.Parse`,
`none` being the nil URL it returns with an error; the error is assigned to
the blank identifier, so the assignment to `parsedURL.RawQuery`
dereferences a nil pointer then. -/
def Request.Url {T : Type} (parse : String → Option URL) (r : Request T) (url : String) :
    Outcome (Request T) :=
  match parse url with
  | none => Outcome.panic "invalid memory address or nil pointer dereference"
  | some parsedURL =>
    Outcome.ok { r with innerRequest :=
      { r.innerRequest with URL := { parsedURL with RawQuery := r.innerRequest.URL.RawQuery } } }

/-! ## terraform-plugin-framework: diagnostics -/

/-- The severity of a diagnostic. -/
inductive Severity where
  | error
  | warning
deriving DecidableEq, Repr

/-- A `diag.Diagnostic`: severity, summary and detail. The detail is a Go
string, kept as its bytes. -/
structure Diagnostic where
  severity : Severity
  summary : String
  detail : Bytes
deriving DecidableEq, Repr

/-- A `diag.Diagnostics`. -/
abbrev Diagnostics := List Diagnostic

/-- Method `Diagnostics.Append`: adds the diagnostics that are not yet
contained. -/
def Diagnostics.Append (diags more : Diagnostics) : Diagnostics :=
  more.foldl (fun acc d => if acc.contains d then acc else acc ++ [d]) diags

/-- Method `Diagnostics.AddError`. -/
def Diagnostics.AddError (diags : Diagnostics) (summary : String) (detail : Bytes) : Diagnostics :=
  diags.Append [⟨Severity.error, summary, detail⟩]

/-- Method `Diagnostics.HasError`. -/
def Diagnostics.HasError (diags : Diagnostics) : Bool :=
  diags.any fun d => d.severity == Severity.error

/-- The bytes of a Go string given as text: its UTF-8 encoding. -/
def goBytes (s : String) : Bytes :=
  s.toUTF8.data.toList

/-! ## provider/schedule_rotation_resource.go -/

/-- The parts of `resource.ImportStateResponse` that `ImportState` writes:
the diagnostics and the state, of a type `σ` left to the framework. -/
structure ImportStateResponse (σ : Type) where
  Diagnostics : Diagnostics
  State : σ

/-- Method `ScheduleRotationResource.ImportState`
(schedule_rotation_resource.go 260-271) on the identifier `ID`.
`setAttribute` stands for `State.SetAttribute` at a root attribute and
`quote` for the `%q` verb of `fmt`. -/
def ScheduleRotationResource.ImportState {σ : Type}
    (setAttribute : σ → String → Bytes → σ × Diagnostics) (quote : Bytes → Bytes)
    (ID : Bytes) (resp : ImportStateResponse σ) : ImportStateResponse σ :=
  let idParts := splitOn 44 ID
  if idParts.length != 2 || idParts.getD 0 [] == [] || idParts.getD 1 [] == [] then
    let detail :=
      bytesOfString "Expected import identifier with format: id,schedule_id. Got: " ++ quote ID
    { Diagnostics := resp.Diagnostics.AddError "Unexpected Import Identifier" detail,
      State := resp.State }
  else
    let step1 := setAttribute resp.State "id" (idParts.getD 0 [])
    let diags1 := resp.Diagnostics.Append step1.2
    let step2 := setAttribute step1.1 "schedule_id" (idParts.getD 1 [])
    { Diagnostics := diags1.Append step2.2, State := step2.1 }

/-! ## provider/api_integration_resource.go -/

/-- The diagnostics of `ApiIntegrationResource.Create` after the block that
reports the outcome of `Send` (api_integration_resource.go 84-101), from
the diagnostics before it. -/
def ApiIntegrationResource.reportSend (diags : Diagnostics) (httpResp : Option Response)
    (err : Option Error) : Diagnostics :=
  let diags1 :=
    match httpResp with
    | none =>
      diags.AddError "Client Error"
        (bytesOfString "Unable to create api integration, got nil response")
    | some resp =>
      if resp.IsError then
        let statusCode := resp.GetStatusCode
        match resp.GetErrorBody with
        | some errorResponse =>
          diags.AddError "Client Error"
            (bytesOfString "Unable to create api integration, status code: "
              ++ bytesOfString (toString statusCode) ++ bytesOfString ". Got response: "
              ++ errorResponse)
        | none =>
          diags.AddError "Client Error"
            (bytesOfString "Unable to create api integration, got http response: "
              ++ bytesOfString (toString statusCode))
      else diags
  match err with
  | some e =>
    diags1.AddError "Client Error"
      (bytesOfString "Unable to create api integration, got error: " ++ goBytes e)
  | none => diags1

/-- What `ApiIntegrationResource.Create` leaves: the diagnostics and whether
it reached `resp.State.Set`. -/
structure CreateResult where
  Diagnostics : Diagnostics
  stateWritten : Bool
deriving DecidableEq, Repr

/-- Method `ApiIntegrationResource.Create` from the return of `Send` on
(api_integration_resource.go 84-122). `diags` are the diagnostics after
`req.Plan.Get`; `finish` stands for the rest of the method after the
`HasError` check (deleting the default actions, the conversion and
`State.Set`) as it acts on the diagnostics. -/
def ApiIntegrationResource.Create (finish : Diagnostics → Diagnostics) (diags : Diagnostics)
    (httpResp : Option Response) (err : Option Error) : CreateResult :=
  let diags1 := ApiIntegrationResource.reportSend diags httpResp err
  if diags1.HasError then { Diagnostics := diags1, stateWritten := false }
  else { Diagnostics := finish diags1, stateWritten := true }

/-- Whether a diagnostic is the "got nil response" error of
`ApiIntegrationResource.Create`. -/
def ApiIntegrationResource.isNilResponseDiagnostic (d : Diagnostic) : Bool :=
  d.detail == bytesOfString "Unable to create api integration, got nil response"

/-- Whether a diagnostic is one of the two status-code errors of
`ApiIntegrationResource.Create`: its detail starts with the text that
precedes the status code in one of the two formats. -/
def ApiIntegrationResource.isStatusCodeDiagnostic (d : Diagnostic) : Bool :=
  (bytesOfString "Unable to create api integration, status code: ").isPrefixOf d.detail
    || (bytesOfString "Unable to create api integration, got http response: ").isPrefixOf d.detail

/-! ## terraform-plugin-framework: values -/

/-- The state of a framework value (`types.String`, `types.Int32`,
`types.List`, `types.Object`): null, unknown, or known with a content. The
zero value of each of these Go types is the null value. -/
inductive TfValue (α : Type) where
  | null
  | unknown
  | known (value : α)
deriving DecidableEq, Repr

/-- Method `IsNull`. -/
def TfValue.IsNull {α : Type} : TfValue α → Bool
  | TfValue.null => true
  | _ => false

/-- Method `IsUnknown`. -/
def TfValue.IsUnknown {α : Type} : TfValue α → Bool
  | TfValue.unknown => true
  | _ => false

/-- Method `ValueString`: the known string, or the empty string for null
and unknown. -/
def TfValue.ValueString : TfValue String → String
  | TfValue.known s => s
  | _ => ""

/-- Method `ValueInt32`: the known number, or 0 for null and unknown. -/
def TfValue.ValueInt32 : TfValue Int → Int
  | TfValue.known n => n
  | _ => 0

/-- Method `ValueStringPointer`: nil for null, a pointer to the empty string
for unknown, a pointer to the known string otherwise. -/
def TfValue.ValueStringPointer : TfValue String → Option String
  | TfValue.null => none
  | TfValue.unknown => some ""
  | TfValue.known s => some s

/-- Method `Elements` of a list value: the elements of a known list, none
for null and unknown. -/
def TfValue.Elements {α : Type} : TfValue (List α) → List α
  | TfValue.known elements => elements
  | _ => []

/-- An `attr.Value` of the kinds the conversions build: strings, 32 bit
integers, objects (attribute name to value) and lists. -/
inductive AttrValue where
  | string (v : TfValue String)
  | int32 (v : TfValue Int)
  | object (v : TfValue (List (String × AttrValue)))
  | list (v : TfValue (List AttrValue))

/-- A `types.Object`. -/
abbrev TfObject := TfValue (List (String × AttrValue))

/-- A `types.List`. -/
abbrev TfList := TfValue (List AttrValue)

/-- The statement `slice[i] = f(item)` run for each `i, item` of a `range`
loop over `items`, starting at index `i`: an index beyond the length of
the slice panics. -/
def assignEach {α γ : Type} (f : α → γ) : Nat → List α → List γ → Outcome (List γ)
  | _, [], slice => Outcome.ok slice
  | i, item :: rest, slice =>
    if i < slice.length then assignEach f (i + 1) rest (slice.set i (f item))
    else Outcome.panic "index out of range"

/-- The expression `make([]attr.Value, n)`: `n` nil interface values; a
negative length panics. -/
def makeAttrValues (n : Int) : Outcome (List (Option AttrValue)) :=
  if n < 0 then Outcome.panic "makeslice: len out of range"
  else Outcome.ok (List.replicate n.toNat none)

/-- Function `types.ListValueMust` on a slice of `attr.Value` whose non-nil
entries have the element type: a nil entry makes it panic (the element
type is asked of a nil interface). -/
def ListValueMust (elements : List (Option AttrValue)) : Outcome TfList :=
  if elements.all Option.isSome then Outcome.ok (TfValue.known (elements.filterMap id))
  else Outcome.panic "invalid memory address or nil pointer dereference"

/-! ## provider/schemaAttributes/customValidators/ListFieldNullIfOtherField.go -/

/-- What the configuration yields at one matched path: the diagnostics of
`GetAttribute`, the value read, and the diagnostics of `tfsdk.ValueAs`
converting it to the type of the variable it is assigned to. `ValueAs`
assigns the value, whatever its state, when it reports no error. -/
structure PathLookup (V : Type) where
  getDiags : Diagnostics
  value : V
  asDiags : Diagnostics

/-- What the configuration yields for one merged expression: the
diagnostics of `PathMatches` and the lookups at the matched paths. -/
structure ExpressionLookup (V : Type) where
  matchDiags : Diagnostics
  paths : List (PathLookup V)

/-- One round of the inner loop over the paths matched for the target field
(ListFieldNullIfOtherField.go 35-55): the response diagnostics and the
variable `targetFieldValue`. -/
def readTargetPath {L : Type} (acc : Diagnostics × TfValue L) (p : PathLookup (TfValue L)) :
    Diagnostics × TfValue L :=
  let diags1 := acc.1.Append p.getDiags
  if p.getDiags.HasError then (diags1, acc.2)
  else if p.value.IsNull then (diags1, acc.2)
  else
    let diags2 := diags1.Append p.asDiags
    if p.asDiags.HasError then (diags2, acc.2) else (diags2, p.value)

/-- One round of the inner loop over the paths matched for the field to
check (ListFieldNullIfOtherField.go 65-85): the response diagnostics and
the variable `fieldToCheckValue`. -/
def readCheckedPath (acc : Diagnostics × TfValue String) (p : PathLookup (TfValue String)) :
    Diagnostics × TfValue String :=
  let diags1 := acc.1.Append p.getDiags
  if p.getDiags.HasError then (diags1, acc.2)
  else if p.value.IsNull || p.value.IsUnknown then (diags1, acc.2)
  else
    let diags2 := diags1.Append p.asDiags
    if p.asDiags.HasError then (diags2, acc.2) else (diags2, p.value)

/-- Method `listFieldNullIfOtherFieldValidator.ValidateObject`
(ListFieldNullIfOtherField.go 21-93): the response diagnostics it leaves,
from those before the call. `targetField` and `fieldToCheck` are the texts
of the two path expressions; `targets` and `fields` are what the
configuration yields for the merged expressions of each. -/
def listFieldNullIfOtherFieldValidator.ValidateObject {L : Type} (targetField fieldToCheck checkValue : String)
    (targets : List (ExpressionLookup (TfValue L)))
    (fields : List (ExpressionLookup (TfValue String))) (diags : Diagnostics) : Diagnostics :=
  let s1 := targets.foldl
    (fun (acc : Diagnostics × TfValue L) e =>
      if e.matchDiags.HasError then (acc.1.Append e.matchDiags, acc.2)
      else e.paths.foldl readTargetPath (acc.1.Append e.matchDiags, acc.2))
    (diags, TfValue.null)
  let s2 := fields.foldl
    (fun (acc : Diagnostics × TfValue String) e =>
      if e.matchDiags.HasError then (acc.1.Append e.matchDiags, acc.2)
      else e.paths.foldl readCheckedPath (acc.1.Append e.matchDiags, acc.2))
    (s1.1, TfValue.null)
  if !s1.2.IsNull && (!s2.2.IsNull && !s2.2.IsUnknown) && s2.2.ValueString == checkValue then
    s2.1.AddError "Invalid Attribute"
      (goBytes ("The field '" ++ targetField ++ "' must be null or unknown if the field '"
        ++ fieldToCheck ++ "' is set to '" ++ checkValue ++ "'"))
  else s2.1

/-! ## provider/convertions.go: users -/

/-- Modelled from the spec: the paged lists `ApplicationRoles` and `Groups`
of `dto.UserDto`, a reported `Size` next to the `Items`; package `dto` has
only `schedule.go` among the sources, the two fields are those that
`UserDtoToModel` reads. -/
structure dto.Paged (α : Type) where
  Size : Int
  Items : List α

/-- Modelled from the spec: the part of `dto.UserDto` that the two lists of
`UserDtoToModel` are built from. -/
structure dto.UserDto (R G : Type) where
  ApplicationRoles : dto.Paged R
  Groups : dto.Paged G

/-- The two list attributes of `dataModels.UserModel` that `UserDtoToModel`
builds with `ListValueMust`. -/
structure UserModelLists where
  ApplicationRoles : TfList
  Groups : TfList

/-- Function `UserDtoToModel` (convertions.go 257-284), the two lists.
`roleValue` stands for `ApplicationRoleDtoToModel(..).AsValue()` and
`groupValue` for `GroupNameDtoToModel(..).AsValue()`. -/
def UserDtoToModel {R G : Type} (roleValue : R → AttrValue) (groupValue : G → AttrValue)
    (u : dto.UserDto R G) : Outcome UserModelLists := do
  let applicationRoles ← makeAttrValues u.ApplicationRoles.Size
  let applicationRoles ← assignEach (fun r => some (roleValue r)) 0 u.ApplicationRoles.Items
    applicationRoles
  let modelApplicationRoles ← ListValueMust applicationRoles
  let groups ← makeAttrValues u.Groups.Size
  let groups ← assignEach (fun g => some (groupValue g)) 0 u.Groups.Items groups
  let modelGroups ← ListValueMust groups
  pure { ApplicationRoles := modelApplicationRoles, Groups := modelGroups }

/-! ## dto: rotations -/

/-- Modelled from the spec: struct `dto.ResponderInfo`; package `dto` has
only `schedule.go` among the sources, the fields are those the conversions
of convertions.go read and write. `Id` is a `*string`; `Type_` stands for
the field `Type` here and in the structs below. -/
structure dto.ResponderInfo where
  Id : Option String
  Type_ : String
deriving DecidableEq, Repr

/-- Modelled from the spec: struct `dto.TimeOfDayTimeRestrictionSettings`,
by the fields the conversions use. -/
structure dto.TimeOfDayTimeRestrictionSettings where
  StartHour : Int
  EndHour : Int
  StartMin : Int
  EndMin : Int
deriving DecidableEq, Repr

/-- Modelled from the spec: struct `dto.WeekdayTimeRestrictionSettings`, by
the fields the conversions use. -/
structure dto.WeekdayTimeRestrictionSettings where
  StartDay : String
  EndDay : String
  StartHour : Int
  EndHour : Int
  StartMin : Int
  EndMin : Int
deriving DecidableEq, Repr

/-- Modelled from the spec: struct `dto.TimeRestriction`, by the fields the
conversions use; the two restrictions are pointers. -/
structure dto.TimeRestriction where
  Type_ : String
  TimeOfDayRestriction : Option dto.TimeOfDayTimeRestrictionSettings
  WeekAndTimeOfDayRestriction : Option (List dto.WeekdayTimeRestrictionSettings)
deriving DecidableEq, Repr

/-- Modelled from the spec: struct `dto.Rotation`, by the fields the
conversions use. -/
structure dto.Rotation where
  Id : String
  Name : String
  StartDate : String
  EndDate : String
  Type_ : String
  Length : Int
  Participants : List dto.ResponderInfo
  TimeRestriction : Option dto.TimeRestriction
deriving DecidableEq, Repr

/-! ## provider/dataModels: rotations -/

/-- Modelled from the spec: struct `dataModels.ResponderInfoModel`; of
package `dataModels` only `email_integration_model.go` is among the
sources, the fields are those the conversions use. -/
structure dataModels.ResponderInfoModel where
  Id : TfValue String
  Type_ : TfValue String

/-- Modelled from the spec: method `ResponderInfoModel.AsValue`, after the
`AsValue` methods of `email_integration_model.go`: the object whose
attributes are the fields under their `tfsdk` names. -/
def dataModels.ResponderInfoModel.AsValue (receiver : dataModels.ResponderInfoModel) :
    AttrValue :=
  AttrValue.object
    (TfValue.known [("id", AttrValue.string receiver.Id), ("type", AttrValue.string receiver.Type_)])

/-- Modelled from the spec: struct `dataModels.TimeOfDayTimeRestrictionSettingsModel`. -/
structure dataModels.TimeOfDayTimeRestrictionSettingsModel where
  StartHour : TfValue Int
  EndHour : TfValue Int
  StartMin : TfValue Int
  EndMin : TfValue Int

/-- Modelled from the spec: struct `dataModels.WeekdayTimeRestrictionSettingsModel`. -/
structure dataModels.WeekdayTimeRestrictionSettingsModel where
  StartDay : TfValue String
  EndDay : TfValue String
  StartHour : TfValue Int
  EndHour : TfValue Int
  StartMin : TfValue Int
  EndMin : TfValue Int

/-- Modelled from the spec: struct `dataModels.TimeRestrictionModel`. -/
structure dataModels.TimeRestrictionModel where
  Type_ : TfValue String
  Restriction : TfObject
  Restrictions : TfList

/-- Modelled from the spec: struct `dataModels.RotationModel`. The two dates
are `timetypes.RFC3339` values, which wrap a string value. -/
structure dataModels.RotationModel where
  Id : TfValue String
  ScheduleId : TfValue String
  Name : TfValue String
  StartDate : TfValue String
  EndDate : TfValue String
  Type_ : TfValue String
  Length : TfValue Int
  Participants : TfList
  TimeRestriction : TfObject

/-! ## terraform-plugin-framework: reading objects and lists into structs -/

/-- The value of an attribute of an object. -/
def attrLookup (attributes : List (String × AttrValue)) (name : String) : Option AttrValue :=
  (attributes.find? fun kv => kv.1 == name).map Prod.snd

/-- A value read into a `types.String` field. -/
def AttrValue.asString : AttrValue → Option (TfValue String)
  | AttrValue.string v => some v
  | _ => none

/-- A value read into a `types.Int32` field. -/
def AttrValue.asInt32 : AttrValue → Option (TfValue Int)
  | AttrValue.int32 v => some v
  | _ => none

/-- A value read into a `types.Object` field. -/
def AttrValue.asObject : AttrValue → Option TfObject
  | AttrValue.object v => some v
  | _ => none

/-- A value read into a `types.List` field. -/
def AttrValue.asList : AttrValue → Option TfList
  | AttrValue.list v => some v
  | _ => none

/-- Modelled from the spec: a known object read into a
`dataModels.ResponderInfoModel` by the `tfsdk` names `id` and `type`;
`none` when an attribute is missing or of another type. -/
def readResponderInfoModel (attributes : List (String × AttrValue)) :
    Option dataModels.ResponderInfoModel := do
  let id ← (← attrLookup attributes "id").asString
  let type ← (← attrLookup attributes "type").asString
  pure { Id := id, Type_ := type }

/-- Modelled from the spec: a known object read into a
`dataModels.TimeOfDayTimeRestrictionSettingsModel` by the `tfsdk` names
`start_hour`, `end_hour`, `start_min`, `end_min`. -/
def readTimeOfDayModel (attributes : List (String × AttrValue)) :
    Option dataModels.TimeOfDayTimeRestrictionSettingsModel := do
  let startHour ← (← attrLookup attributes "start_hour").asInt32
  let endHour ← (← attrLookup attributes "end_hour").asInt32
  let startMin ← (← attrLookup attributes "start_min").asInt32
  let endMin ← (← attrLookup attributes "end_min").asInt32
  pure { StartHour := startHour, EndHour := endHour, StartMin := startMin, EndMin := endMin }

/-- Modelled from the spec: a known object read into a
`dataModels.WeekdayTimeRestrictionSettingsModel` by the `tfsdk` names
`start_day`, `end_day`, `start_hour`, `end_hour`, `start_min`, `end_min`. -/
def readWeekdayModel (attributes : List (String × AttrValue)) :
    Option dataModels.WeekdayTimeRestrictionSettingsModel := do
  let startDay ← (← attrLookup attributes "start_day").asString
  let endDay ← (← attrLookup attributes "end_day").asString
  let startHour ← (← attrLookup attributes "start_hour").asInt32
  let endHour ← (← attrLookup attributes "end_hour").asInt32
  let startMin ← (← attrLookup attributes "start_min").asInt32
  let endMin ← (← attrLookup attributes "end_min").asInt32
  pure { StartDay := startDay, EndDay := endDay, StartHour := startHour, EndHour := endHour,
         StartMin := startMin, EndMin := endMin }

/-- Modelled from the spec: a known object read into a
`dataModels.TimeRestrictionModel` by the `tfsdk` names `type`,
`restriction` and `restrictions`. -/
def readTimeRestrictionModel (attributes : List (String × AttrValue)) :
    Option dataModels.TimeRestrictionModel := do
  let type ← (← attrLookup attributes "type").asString
  let restriction ← (← attrLookup attributes "restriction").asObject
  let restrictions ← (← attrLookup attributes "restrictions").asList
  pure { Type_ := type, Restriction := restriction, Restrictions := restrictions }

/-- Method `Object.As` into a struct that starts at its zero value: the
struct read from a known object; when the object cannot be read the
diagnostics are dropped by the callers and the struct stays `zero`. -/
def objectAs {M : Type} (read : List (String × AttrValue) → Option M) (zero : M) :
    TfObject → M
  | TfValue.known attributes => (read attributes).getD zero
  | _ => zero

/-- The structs read from the elements of a list, each a known object;
`none` when an element cannot be read. -/
def readElements {M : Type} (read : List (String × AttrValue) → Option M) :
    List AttrValue → Option (List M)
  | [] => some []
  | element :: rest =>
    match element with
    | AttrValue.object (TfValue.known attributes) =>
      match read attributes, readElements read rest with
      | some m, some ms => some (m :: ms)
      | _, _ => none
    | _ => none

/-- Method `List.ElementsAs` into a nil slice of structs: the structs read
from the elements of a known list; when an element cannot be read, or the
list is null or unknown, the slice stays empty (the callers drop the
diagnostics). -/
def elementsAs {M : Type} (read : List (String × AttrValue) → Option M) : TfList → List M
  | TfValue.known elements => (readElements read elements).getD []
  | _ => []

/-! ## provider/convertions.go: rotations -/

/-- Function `ResponderInfoDtoToModel` (convertions.go 15-24). -/
def ResponderInfoDtoToModel (d : dto.ResponderInfo) : dataModels.ResponderInfoModel :=
  let model : dataModels.ResponderInfoModel :=
    { Id := TfValue.null, Type_ := TfValue.known d.Type_ }
  match d.Id with
  | some id => { model with Id := TfValue.known id }
  | none => model

/-- Function `timetypes.NewRFC3339ValueMust`: the known value holding the
text as given; it panics on a text that `validRFC3339`, standing for the
RFC 3339 parse of package `time`, rejects. -/
def NewRFC3339ValueMust (validRFC3339 : String → Bool) (value : String) :
    Outcome (TfValue String) :=
  if validRFC3339 value then Outcome.ok (TfValue.known value)
  else Outcome.panic "NewRFC3339ValueMust received invalid value"

/-- The object that `RotationDtoToModel` builds for one weekday restriction
(convertions.go 84-94). -/
def weekdayRestrictionValue (restriction : dto.WeekdayTimeRestrictionSettings) : AttrValue :=
  AttrValue.object (TfValue.known
    [("start_day", AttrValue.string (TfValue.known restriction.StartDay)),
     ("end_day", AttrValue.string (TfValue.known restriction.EndDay)),
     ("start_hour", AttrValue.int32 (TfValue.known restriction.StartHour)),
     ("end_hour", AttrValue.int32 (TfValue.known restriction.EndHour)),
     ("start_min", AttrValue.int32 (TfValue.known restriction.StartMin)),
     ("end_min", AttrValue.int32 (TfValue.known restriction.EndMin))])

/-- The attribute `restriction` that `RotationDtoToModel` builds
(convertions.go 63-80): the null object, replaced by the object of the
four times when the pointer is non-nil. -/
def timeOfDayRestrictionValue (restriction : Option dto.TimeOfDayTimeRestrictionSettings) :
    AttrValue :=
  match restriction with
  | none => AttrValue.object TfValue.null
  | some t =>
    AttrValue.object (TfValue.known
      [("start_hour", AttrValue.int32 (TfValue.known t.StartHour)),
       ("end_hour", AttrValue.int32 (TfValue.known t.EndHour)),
       ("start_min", AttrValue.int32 (TfValue.known t.StartMin)),
       ("end_min", AttrValue.int32 (TfValue.known t.EndMin))])

/-- The attribute `restrictions` that `RotationDtoToModel` builds
(convertions.go 64-66 and 82-101): the null list, replaced by the list of
the weekday objects when the pointer is non-nil. -/
def weekdayRestrictionsValue (restrictions : Option (List dto.WeekdayTimeRestrictionSettings)) :
    Outcome AttrValue :=
  match restrictions with
  | none => Outcome.ok (AttrValue.list TfValue.null)
  | some items => do
    let slice ← makeAttrValues items.length
    let slice ← assignEach (fun r => some (weekdayRestrictionValue r)) 0 items slice
    let list ← ListValueMust slice
    pure (AttrValue.list list)

/-- Function `RotationDtoToModel` (convertions.go 26-110). -/
def RotationDtoToModel (validRFC3339 : String → Bool) (scheduleId : String) (d : dto.Rotation) :
    Outcome dataModels.RotationModel := do
  let startDate ←
    (if d.StartDate = "" then Outcome.ok TfValue.null
      else NewRFC3339ValueMust validRFC3339 d.StartDate)
  let endDate ←
    (if d.EndDate = "" then Outcome.ok TfValue.null
      else NewRFC3339ValueMust validRFC3339 d.EndDate)
  let participants ← makeAttrValues d.Participants.length
  let participants ←
    (if d.Participants.length != 0 then
      assignEach (fun p => some (ResponderInfoDtoToModel p).AsValue) 0 d.Participants participants
    else Outcome.ok participants)
  let participantsList ← ListValueMust participants
  let timeRestrictionObject ←
    (match d.TimeRestriction with
    | none => Outcome.ok (TfValue.null : TfObject)
    | some restriction =>
      (weekdayRestrictionsValue restriction.WeekAndTimeOfDayRestriction).bind fun restrictions =>
        Outcome.ok (TfValue.known
          [("type", AttrValue.string (TfValue.known restriction.Type_)),
           ("restriction", timeOfDayRestrictionValue restriction.TimeOfDayRestriction),
           ("restrictions", restrictions)]))
  pure { Id := TfValue.known d.Id, ScheduleId := TfValue.known scheduleId,
         Name := TfValue.known d.Name, StartDate := startDate, EndDate := endDate,
         Type_ := TfValue.known d.Type_, Length := TfValue.known d.Length,
         Participants := participantsList, TimeRestriction := timeRestrictionObject }

/-- Function `ResponderInfoModelToDto` (convertions.go 370-375). -/
def ResponderInfoModelToDto (model : dataModels.ResponderInfoModel) : dto.ResponderInfo :=
  { Id := model.Id.ValueStringPointer, Type_ := model.Type_.ValueString }

/-- Function `TimeOfDayTimeRestrictionSettingsModelToDto`
(convertions.go 400-407); the pointer it returns is never nil. -/
def TimeOfDayTimeRestrictionSettingsModelToDto
    (model : dataModels.TimeOfDayTimeRestrictionSettingsModel) :
    dto.TimeOfDayTimeRestrictionSettings :=
  { StartHour := model.StartHour.ValueInt32, EndHour := model.EndHour.ValueInt32,
    StartMin := model.StartMin.ValueInt32, EndMin := model.EndMin.ValueInt32 }

/-- Function `WeekdayTimeRestrictionSettingsModelToDto`
(convertions.go 409-418). -/
def WeekdayTimeRestrictionSettingsModelToDto
    (model : dataModels.WeekdayTimeRestrictionSettingsModel) :
    dto.WeekdayTimeRestrictionSettings :=
  { StartDay := model.StartDay.ValueString, EndDay := model.EndDay.ValueString,
    StartHour := model.StartHour.ValueInt32, EndHour := model.EndHour.ValueInt32,
    StartMin := model.StartMin.ValueInt32, EndMin := model.EndMin.ValueInt32 }

/-- Function `TimeRestrictionModelToDto` (convertions.go 377-398); the
pointer it returns is never nil. -/
def TimeRestrictionModelToDto (model : dataModels.TimeRestrictionModel) :
    Outcome dto.TimeRestriction := do
  let weekAndTimeOfDayRestriction ←
    (if model.Restrictions.Elements.length != 0 then
      (assignEach WeekdayTimeRestrictionSettingsModelToDto 0
        (elementsAs readWeekdayModel model.Restrictions)
        (List.replicate (elementsAs readWeekdayModel model.Restrictions).length
          ⟨"", "", 0, 0, 0, 0⟩)).bind fun arr => Outcome.ok (some arr)
    else Outcome.ok none)
  let timeOfDayRestriction :=
    if !(model.Restriction.IsNull || model.Restriction.IsUnknown) then
      some (TimeOfDayTimeRestrictionSettingsModelToDto
        (objectAs readTimeOfDayModel
          ⟨TfValue.null, TfValue.null, TfValue.null, TfValue.null⟩ model.Restriction))
    else none
  pure { Type_ := model.Type_.ValueString, TimeOfDayRestriction := timeOfDayRestriction,
         WeekAndTimeOfDayRestriction := weekAndTimeOfDayRestriction }

/-- Function `RotationModelToDto` (convertions.go 341-368). -/
def RotationModelToDto (model : dataModels.RotationModel) : Outcome dto.Rotation := do
  let slots : List dto.ResponderInfo :=
    List.replicate model.Participants.Elements.length ⟨none, ""⟩
  let timeRestriction ←
    (if !(model.TimeRestriction.IsNull || model.TimeRestriction.IsUnknown) then
      (TimeRestrictionModelToDto
        (objectAs readTimeRestrictionModel ⟨TfValue.null, TfValue.null, TfValue.null⟩
          model.TimeRestriction)).bind fun restriction => Outcome.ok (some restriction)
    else Outcome.ok none)
  let participants := elementsAs readResponderInfoModel model.Participants
  let filled ← assignEach ResponderInfoModelToDto 0 participants slots
  pure { Id := model.Id.ValueString, Name := model.Name.ValueString,
         StartDate := model.StartDate.ValueString, EndDate := model.EndDate.ValueString,
         Type_ := model.Type_.ValueString, Length := model.Length.ValueInt32,
         Participants := filled, TimeRestriction := timeRestriction }

/-! # Properties -/

/-- Claim C1. `IsError()` holds exactly when `GetStatusCode()` is the sentinel
-1 or at least 400. A `Response` without a native reply reports the
sentinel and is an error; a `Response` holding a reply with status code `c`
reports `c` itself, is an error exactly when `c` is -1 or at least 400,
and is no error for every `c` from 200 to 399. -/
theorem C1_isError_iff_sentinel_or_ge_400 (c : Int) (method : String) (body : BodyStream)
    (errorBody : Option Bytes) :
    (∀ r : Response, r.IsError = true ↔ (r.GetStatusCode = -1 ∨ r.GetStatusCode ≥ 400)) ∧
    (Response.mk none errorBody).GetStatusCode = -1 ∧
    (Response.mk none errorBody).IsError = true ∧
    (Response.mk (some ⟨c, method, body⟩) errorBody).GetStatusCode = c ∧
    ((Response.mk (some ⟨c, method, body⟩) errorBody).IsError = true ↔ (c = -1 ∨ c ≥ 400)) ∧
    ((200 ≤ c ∧ c ≤ 399) → (Response.mk (some ⟨c, method, body⟩) errorBody).IsError = false) := by
  have key : ∀ r : Response, r.IsError = true ↔ (r.GetStatusCode = -1 ∨ r.GetStatusCode ≥ 400) := by
    intro r
    simp only [Response.IsError, Bool.or_eq_true, beq_iff_eq, decide_eq_true_eq]
    constructor
    · rintro (h | h)
      · exact Or.inl h
      · exact Or.inr (by omega)
    · rintro (h | h)
      · exact Or.inl h
      · exact Or.inr (by omega)
  refine ⟨key, rfl, rfl, rfl, ?_, ?_⟩
  · exact key _
  · rintro ⟨h1, h2⟩
    have hk := key (Response.mk (some ⟨c, method, body⟩) errorBody)
    have hc : (Response.mk (some ⟨c, method, body⟩) errorBody).GetStatusCode = c := rfl
    rw [hc] at hk
    cases hE : (Response.mk (some ⟨c, method, body⟩) errorBody).IsError with
    | false => rfl
    | true =>
      rcases hk.mp hE with h | h
      · omega
      · omega

/-- Witness for C1 at the status code 302. -/
theorem C1_isError_iff_sentinel_or_ge_400_witness :
    (Response.mk (some ⟨302, "GET", ⟨[], none, none, 0⟩⟩) none).IsError = false :=
  (C1_isError_iff_sentinel_or_ge_400 302 "GET" ⟨[], none, none, 0⟩ none).2.2.2.2.2
    ⟨by decide, by decide⟩

/-- The classification of a fresh `Response` over a reply depends on the
status code alone. -/
theorem isError_of_ge_400 (native : NativeResponse) (errorBody : Option Bytes)
    (h : native.StatusCode ≥ 400) : (Response.mk (some native) errorBody).IsError = true := by
  simp only [Response.IsError, Response.GetStatusCode, Bool.or_eq_true, beq_iff_eq,
    decide_eq_true_eq]
  exact Or.inr (by omega)

/-- Claim C2. For a reply with a status code of at least 400 whose body `b` is
read without an I/O error, the response handler installed by `Send` returns
a nil error, whatever state the request is in, changes nothing of the
request but its `response`, and the `Response` it leaves is an error whose
`GetErrorBody()` is `b` byte for byte; `Send` over a run that hands this
reply to the handler returns that `Response` with a nil error. -/
theorem C2_unmatched_error_reply_keeps_raw_body {T : Type}
    (unmarshal : Bytes → T → T × Option Error) (r : Request T) (native : NativeResponse)
    (b : Bytes) (hstatus : native.StatusCode ≥ 400)
    (hread : native.Body.ReadAll.2 = (b, none)) :
    ∃ resp : Response,
      r.responseHandler unmarshal (some native) = ({ r with response := some resp }, none) ∧
      resp.IsError = true ∧
      resp.GetErrorBody = some b ∧
      (r.Send unmarshal (doSingleAttempt native)).2 = (some resp, none) := by
  have hE : (Response.mk (some native) none).IsError = true := isError_of_ge_400 native none hstatus
  rcases hRA : native.Body.ReadAll with ⟨st, bs, e⟩
  rw [hRA] at hread
  simp only [Prod.mk.injEq] at hread
  obtain ⟨rfl, rfl⟩ := hread
  have hH : r.responseHandler unmarshal (some native) =
      ({ r with response := some ⟨some { native with Body := st.Close.1 }, some bs⟩ },
        none) := by
    simp [Request.responseHandler, hE, parseErrorBody, Response.Body, hRA]
  refine ⟨_, hH, ?_, rfl, ?_⟩
  · exact isError_of_ge_400 _ _ hstatus
  · simp [Request.Send, doSingleAttempt, hH]

/-- Witness for C2: a 404 reply whose body is the two bytes `h`, `i`. -/
theorem C2_unmatched_error_reply_keeps_raw_body_witness :
    ∃ resp : Response,
      (Request.mk retryablehttpNewRequest (none : Option Unit) none).responseHandler
          (fun _ t => (t, none)) (some ⟨404, "GET", ⟨[104, 105], none, none, 0⟩⟩)
        = ({ (Request.mk retryablehttpNewRequest (none : Option Unit) none) with
              response := some resp }, none) ∧
      resp.IsError = true ∧
      resp.GetErrorBody = some [104, 105] ∧
      ((Request.mk retryablehttpNewRequest (none : Option Unit) none).Send
          (fun _ t => (t, none))
          (doSingleAttempt ⟨404, "GET", ⟨[104, 105], none, none, 0⟩⟩)).2 = (some resp, none) :=
  C2_unmatched_error_reply_keeps_raw_body (fun _ t => (t, none))
    (Request.mk retryablehttpNewRequest (none : Option Unit) none)
    ⟨404, "GET", ⟨[104, 105], none, none, 0⟩⟩ [104, 105] (by decide) rfl

/-- A zero `{code,message}` decoder that decodes the object with the strings
`c` and `m` under `code` and `message` holds `c` and `m`. -/
theorem teamDecoder_decodes (c m : String) :
    teamClientDefaultErrorResponse.zero.UnmarshalJSON
        (some (JsonValue.object [("code", JsonValue.str c), ("message", JsonValue.str m)]))
      = Outcome.ok ⟨c, m⟩ := by
  have hc : mapIndex [("code", JsonValue.str c), ("message", JsonValue.str m)] "code"
      = JsonValue.str c := by simp [mapIndex]
  have hm : mapIndex [("code", JsonValue.str c), ("message", JsonValue.str m)] "message"
      = JsonValue.str m := by simp [mapIndex]
  simp [teamClientDefaultErrorResponse.UnmarshalJSON, unmarshalToMap, hc, hm,
    JsonValue.notNil, assertString, bind, Outcome.bind, pure,
    teamClientDefaultErrorResponse.zero]

/-- Claim C4. For a reply that is not classified as an error and a request with
a registered decode target: when the body cannot be read the response
handler returns the read error; when it is read but `json.Unmarshal` fails
the handler returns that error; when it decodes the handler returns nil and
the target holds the decoded value. In each case `Send` over a run that
hands the reply to the handler returns the handler's error as its own. -/
theorem C4_success_reply_decode_or_fail {T : Type} (unmarshal : Bytes → T → T × Option Error)
    (r : Request T) (native : NativeResponse) (target : T)
    (hok : (Response.mk (some native) none).IsError = false)
    (hreg : r.parseBodyObject = some target) :
    (∀ e, native.Body.ReadAll.2.2 = some e →
      (r.responseHandler unmarshal (some native)).2 = some e ∧
      (r.Send unmarshal (doSingleAttempt native)).2.2 = some e) ∧
    (∀ body e, native.Body.ReadAll.2 = (body, none) → (unmarshal body target).2 = some e →
      (r.responseHandler unmarshal (some native)).2 = some e ∧
      (r.Send unmarshal (doSingleAttempt native)).2.2 = some e) ∧
    (∀ body, native.Body.ReadAll.2 = (body, none) → (unmarshal body target).2 = none →
      (r.responseHandler unmarshal (some native)).2 = none ∧
      (r.responseHandler unmarshal (some native)).1.parseBodyObject
        = some (unmarshal body target).1 ∧
      (r.Send unmarshal (doSingleAttempt native)).2.2 = none) := by
  rcases hRA : native.Body.ReadAll with ⟨st, bs, rerr⟩
  refine ⟨?_, ?_, ?_⟩
  · intro e he
    simp only at he
    subst he
    have hH : (r.responseHandler unmarshal (some native)).2 = some e := by
      simp [Request.responseHandler, hok, hreg, parseBody, Response.Body, hRA]
    refine ⟨hH, ?_⟩
    simp only [Request.Send, doSingleAttempt]
    rcases hOut : r.responseHandler unmarshal (some native) with ⟨r1, herr⟩
    rw [hOut] at hH
    simp only at hH
    subst hH
    simp [ErrorHandler]
  · intro body e hb hu
    simp only [Prod.mk.injEq] at hb
    obtain ⟨rfl, rfl⟩ := hb
    rcases hU : unmarshal bs target with ⟨t1, uerr⟩
    rw [hU] at hu
    simp only at hu
    subst hu
    have hH : (r.responseHandler unmarshal (some native)).2 = some e := by
      simp [Request.responseHandler, hok, hreg, parseBody, Response.Body, hRA, hU]
    refine ⟨hH, ?_⟩
    simp only [Request.Send, doSingleAttempt]
    rcases hOut : r.responseHandler unmarshal (some native) with ⟨r1, herr⟩
    rw [hOut] at hH
    simp only at hH
    subst hH
    simp [ErrorHandler]
  · intro body hb hu
    simp only [Prod.mk.injEq] at hb
    obtain ⟨rfl, rfl⟩ := hb
    rcases hU : unmarshal bs target with ⟨t1, uerr⟩
    rw [hU] at hu
    simp only at hu
    subst hu
    have hH : r.responseHandler unmarshal (some native) =
        ({ r with parseBodyObject := some t1,
                  response := some ⟨some { native with Body := st.Close.1 }, none⟩ }, none) := by
      simp [Request.responseHandler, hok, hreg, parseBody, Response.Body, hRA, hU]
    refine ⟨by rw [hH], by rw [hH], ?_⟩
    simp [Request.Send, doSingleAttempt, hH]

/-- Witness for C4: a 200 reply with a three byte body, decoded by a decoder
that stores the number of bytes in the target. -/
theorem C4_success_reply_decode_or_fail_witness :
    ((Request.mk retryablehttpNewRequest (some 0) none).responseHandler
        (fun body (_ : Nat) => (body.length, none))
        (some ⟨200, "GET", ⟨[1, 2, 3], none, none, 0⟩⟩)).2 = none ∧
    ((Request.mk retryablehttpNewRequest (some 0) none).responseHandler
        (fun body (_ : Nat) => (body.length, none))
        (some ⟨200, "GET", ⟨[1, 2, 3], none, none, 0⟩⟩)).1.parseBodyObject = some 3 ∧
    ((Request.mk retryablehttpNewRequest (some 0) none).Send
        (fun body (_ : Nat) => (body.length, none))
        (doSingleAttempt ⟨200, "GET", ⟨[1, 2, 3], none, none, 0⟩⟩)).2.2 = none :=
  (C4_success_reply_decode_or_fail (fun body (_ : Nat) => (body.length, none))
    (Request.mk retryablehttpNewRequest (some 0) none)
    ⟨200, "GET", ⟨[1, 2, 3], none, none, 0⟩⟩ 0 (by decide) rfl).2.2 [1, 2, 3] rfl rfl

/-- Claim C5 fails when the last attempt ended with a transport error: with no
reply and the error `dial tcp: connection refused` the `ErrorHandler`
closure returns that error itself, the same for 3 and for 5 attempts. -/
theorem C5_transport_error_is_returned_raw :
    ErrorHandler none (some "dial tcp: connection refused") 3
      = Outcome.ok (none, some "dial tcp: connection refused") ∧
    ErrorHandler none (some "dial tcp: connection refused") 3
      = ErrorHandler none (some "dial tcp: connection refused") 5 := by
  constructor <;> rfl

/-- Claim C5, amended. When the last attempt ended with a reply (the incoming
error is nil) the `ErrorHandler` closure returns the reply and an error
whose message is the request method, ` request giving up after `, the
attempt count in decimal and ` attempt(s)`. When the incoming error is not
nil it returns the reply and that error unchanged. -/
theorem C5_error_handler_result (native : NativeResponse) (resp : Option NativeResponse)
    (e : Error) (numTries : Int) :
    ErrorHandler (some native) none numTries
      = Outcome.ok (some native,
          some (native.Method ++ " request giving up after " ++ toString numTries
            ++ " attempt(s)")) ∧
    ErrorHandler resp (some e) numTries = Outcome.ok (resp, some e) := by
  constructor <;> rfl

/-- The loop of `PrepareRetry` over recording hooks: what it appends to the
log, and that recording does not change the run. -/
theorem prepareRetry_recording {σ : Type} (newReq : RequestRef) (funcs : List (RetryFunc σ)) :
    ∀ (start : Nat) (s : σ) (pre : List HookCall),
      ∃ suffix : List HookCall,
        (PrepareRetry (recordingCalls start funcs) newReq (s, pre)).1.2 = pre ++ suffix ∧
        ((PrepareRetry (recordingCalls start funcs) newReq (s, pre)).1.1,
          (PrepareRetry (recordingCalls start funcs) newReq (s, pre)).2)
            = PrepareRetry funcs newReq s ∧
        (∀ c ∈ suffix, c.request = newReq) ∧
        ((PrepareRetry (recordingCalls start funcs) newReq (s, pre)).2 = none →
          suffix.map HookCall.position = List.range' start funcs.length ∧
          ∀ c ∈ suffix, c.result = none) ∧
        (∀ e, (PrepareRetry (recordingCalls start funcs) newReq (s, pre)).2 = some e →
          ∃ k, k < funcs.length ∧ ∃ init : List HookCall,
            suffix = init ++ [⟨start + k, newReq, some e⟩] ∧
            init.map HookCall.position = List.range' start k ∧
            ∀ c ∈ init, c.result = none) := by
  induction funcs with
  | nil =>
    intro start s pre
    refine ⟨[], ?_, ?_, ?_, ?_, ?_⟩
    · simp [recordingCalls, PrepareRetry]
    · simp [recordingCalls, PrepareRetry]
    · simp
    · simp
    · simp [recordingCalls, PrepareRetry]
  | cons f rest ih =>
    intro start s pre
    rcases hf : f newReq s with ⟨s1, _ | err⟩
    · obtain ⟨suffix, h1, h2, h3, h4, h5⟩ :=
        ih (start + 1) s1 (pre ++ [⟨start, newReq, none⟩])
      have hstep : PrepareRetry (recordingCalls start (f :: rest)) newReq (s, pre)
          = PrepareRetry (recordingCalls (start + 1) rest) newReq
              (s1, pre ++ [⟨start, newReq, none⟩]) := by
        simp [recordingCalls, PrepareRetry, hf]
      have hplain : PrepareRetry (f :: rest) newReq s = PrepareRetry rest newReq s1 := by
        simp [PrepareRetry, hf]
      rw [hstep, hplain]
      refine ⟨⟨start, newReq, none⟩ :: suffix, ?_, h2, ?_, ?_, ?_⟩
      · rw [h1]; simp
      · intro c hc
        rcases List.mem_cons.mp hc with rfl | hc
        · rfl
        · exact h3 c hc
      · intro hnone
        obtain ⟨hpos, hres⟩ := h4 hnone
        refine ⟨?_, ?_⟩
        · simp [hpos, List.range'_succ]
        · intro c hc
          rcases List.mem_cons.mp hc with rfl | hc
          · rfl
          · exact hres c hc
      · intro e he
        obtain ⟨k, hk, init, hsuf, hpos, hres⟩ := h5 e he
        refine ⟨k + 1, by simp only [List.length_cons]; omega, ⟨start, newReq, none⟩ :: init, ?_, ?_, ?_⟩
        · rw [hsuf]
          have : start + 1 + k = start + (k + 1) := by omega
          simp [this]
        · simp [hpos, List.range'_succ]
        · intro c hc
          rcases List.mem_cons.mp hc with rfl | hc
          · rfl
          · exact hres c hc
    · have hstep : PrepareRetry (recordingCalls start (f :: rest)) newReq (s, pre)
          = ((s1, pre ++ [⟨start, newReq, some err⟩]), some err) := by
        simp [recordingCalls, PrepareRetry, hf]
      have hplain : PrepareRetry (f :: rest) newReq s = (s1, some err) := by
        simp [PrepareRetry, hf]
      rw [hstep, hplain]
      refine ⟨[⟨start, newReq, some err⟩], rfl, rfl, ?_, ?_, ?_⟩
      · intro c hc
        rcases List.mem_singleton.mp hc with rfl
        rfl
      · intro h
        cases h
      · intro e he
        simp only [Option.some.injEq] at he
        subst he
        exact ⟨0, by simp, [], by simp, by simp, by simp⟩

/-- Claim C6. The `PrepareRetry` closure that `NewRequest` installs runs the
loop `PrepareRetry` over the registered hooks and the new request. The loop
runs over recording hooks as over the hooks themselves, and every call
receives the captured request. If it
returns nil, the log holds one call per registered hook, positions
0, 1, ... in registration order, every call returning nil. If it returns an
error `e`, the log ends with the call of some hook `k` that returned `e`,
preceded by exactly the calls of hooks 0 .. k-1 in order, each
returning nil: hook `k` is the first to fail, no later hook is called, and
`e` is its error. -/
theorem C6_prepare_retry_runs_hooks_in_order {σ : Type} (funcs : List (RetryFunc σ))
    (newReq : RequestRef) (s : σ) (inner : InnerClient) :
    ((NewRequest (HttpClient.mk inner funcs) newReq : Request Unit × HttpClient σ).2).callPrepareRetry s
      = PrepareRetry funcs newReq s ∧
    ((PrepareRetry (recordingCalls 0 funcs) newReq (s, [])).1.1,
      (PrepareRetry (recordingCalls 0 funcs) newReq (s, [])).2) = PrepareRetry funcs newReq s ∧
    (∀ c ∈ (PrepareRetry (recordingCalls 0 funcs) newReq (s, [])).1.2, c.request = newReq) ∧
    ((PrepareRetry funcs newReq s).2 = none →
      (PrepareRetry (recordingCalls 0 funcs) newReq (s, [])).1.2.map HookCall.position
        = List.range funcs.length ∧
      ∀ c ∈ (PrepareRetry (recordingCalls 0 funcs) newReq (s, [])).1.2, c.result = none) ∧
    (∀ e, (PrepareRetry funcs newReq s).2 = some e →
      ∃ k, k < funcs.length ∧ ∃ init : List HookCall,
        (PrepareRetry (recordingCalls 0 funcs) newReq (s, [])).1.2
          = init ++ [⟨k, newReq, some e⟩] ∧
        init.map HookCall.position = List.range k ∧
        ∀ c ∈ init, c.result = none) := by
  obtain ⟨suffix, h1, h2, h3, h4, h5⟩ := prepareRetry_recording newReq funcs 0 s []
  have hlog : (PrepareRetry (recordingCalls 0 funcs) newReq (s, [])).1.2 = suffix := by
    simpa using h1
  have herr : (PrepareRetry (recordingCalls 0 funcs) newReq (s, [])).2
      = (PrepareRetry funcs newReq s).2 := by
    rw [← h2]
  refine ⟨rfl, h2, ?_, ?_, ?_⟩
  · rw [hlog]; exact h3
  · intro hnone
    rw [← herr] at hnone
    obtain ⟨hpos, hres⟩ := h4 hnone
    rw [hlog]
    exact ⟨by rw [hpos, List.range_eq_range'], hres⟩
  · intro e he
    rw [← herr] at he
    obtain ⟨k, hk, init, hsuf, hpos, hres⟩ := h5 e he
    refine ⟨k, hk, init, ?_, ?_, hres⟩
    · rw [hlog, hsuf]; simp
    · rw [hpos, List.range_eq_range']

/-- Witness for C6: three hooks, the second fails with `denied`; the first
two are called, in order, and the error is `denied`. -/
theorem C6_prepare_retry_runs_hooks_in_order_witness :
    ∃ k, k < 3 ∧ ∃ init : List HookCall,
      (PrepareRetry (recordingCalls 0
        [(fun _ (n : Nat) => (n + 1, none)), (fun _ n => (n, some "denied")),
          (fun _ n => (n + 100, none))]) 7 (0, [])).1.2
        = init ++ [⟨k, 7, some "denied"⟩] ∧
      init.map HookCall.position = List.range k ∧
      ∀ c ∈ init, c.result = none :=
  (C6_prepare_retry_runs_hooks_in_order
    [(fun _ (n : Nat) => (n + 1, none)), (fun _ n => (n, some "denied")),
      (fun _ n => (n + 100, none))] 7 0 ⟨false, none, false⟩).2.2.2.2 "denied" rfl

/-- Claim C7, evaluated on the code. After two requests are created from one
client, first at address `p1`, then at address `p2`, the `PrepareRetry`
closure the client holds is the one that captured `p2`. Whenever
go-retryablehttp calls it, also while the request at `p1` is being sent,
the hooks run as `PrepareRetry` over `p2`, and every recorded hook call
received `p2`. -/
theorem C7_hooks_receive_the_latest_request {σ : Type} (client : HttpClient σ)
    (p1 p2 : RequestRef) (s : σ) :
    ((NewRequest ((NewRequest client p1 : Request Unit × HttpClient σ).2) p2 :
        Request Unit × HttpClient σ).2).innerClient.PrepareRetry = some p2 ∧
    ((NewRequest ((NewRequest client p1 : Request Unit × HttpClient σ).2) p2 :
        Request Unit × HttpClient σ).2).callPrepareRetry s
      = PrepareRetry client.onRetryFuncs p2 s ∧
    (∀ c ∈ (((NewRequest ((NewRequest
          (HttpClient.mk client.innerClient (recordingCalls 0 client.onRetryFuncs)) p1 :
            Request Unit × HttpClient (σ × List HookCall)).2) p2 :
          Request Unit × HttpClient (σ × List HookCall)).2).callPrepareRetry (s, [])).1.2,
      c.request = p2) := by
  refine ⟨rfl, rfl, ?_⟩
  obtain ⟨suffix, h1, -, h3, -, -⟩ := prepareRetry_recording p2 client.onRetryFuncs 0 s []
  intro c hc
  have hlog : (PrepareRetry (recordingCalls 0 client.onRetryFuncs) p2 (s, [])).1.2 = suffix := by
    simpa using h1
  have hc2 : c ∈ (PrepareRetry (recordingCalls 0 client.onRetryFuncs) p2 (s, [])).1.2 := hc
  rw [hlog] at hc2
  exact h3 c hc2

/-- Claim C8 fails at a value that `json.Marshal` rejects with `json:
unsupported type: chan int`: after `SetBody` the request body is empty, and
`Send` over a run in which the server answers 200 returns a nil error. -/
theorem C8_marshal_failure_is_swallowed :
    (((NewRequest (HttpClient.mk ⟨false, none, false⟩ [] : HttpClient Unit) 1 :
        Request Unit × HttpClient Unit).1.SetBody
        (fun (_ : Unit) => Except.error "json: unsupported type: chan int") ()).innerRequest.body
      = []) ∧
    ((((NewRequest (HttpClient.mk ⟨false, none, false⟩ [] : HttpClient Unit) 1 :
        Request Unit × HttpClient Unit).1.SetBody
        (fun (_ : Unit) => Except.error "json: unsupported type: chan int") ()).Send
        (fun _ t => (t, none)) (doSingleAttempt ⟨200, "POST", ⟨[], none, none, 0⟩⟩)).2.2
      = none) := by
  constructor <;> rfl

/-- Claim C8, amended. For a value whose serialization fails, `SetBody` drops
the failure: the request it leaves is the request with an empty body of
content length 0, nothing of the failure is kept, and `Send` returns what
sending that empty-bodied request returns, over every transport. -/
theorem C8_set_body_drops_marshal_failure {T α : Type} (marshal : α → Except Error Bytes)
    (unmarshal : Bytes → T → T × Option Error) (Do : Transport T) (r : Request T) (v : α)
    (e : Error) (hfail : marshal v = Except.error e) :
    r.SetBody marshal v = { r with innerRequest := r.innerRequest.SetBody [] } ∧
    (r.SetBody marshal v).innerRequest.body = [] ∧
    (r.SetBody marshal v).innerRequest.ContentLength = 0 ∧
    (r.SetBody marshal v).Send unmarshal Do
      = ({ r with innerRequest := r.innerRequest.SetBody [] } : Request T).Send unmarshal Do := by
  have h : r.SetBody marshal v = { r with innerRequest := r.innerRequest.SetBody [] } := by
    simp [Request.SetBody, hfail]
  refine ⟨h, ?_, ?_, ?_⟩
  · rw [h]; rfl
  · rw [h]; rfl
  · rw [h]

/-- Witness for C8, amended: the value rejected with `json: unsupported
type: chan int`, over the run in which the server answers 200. -/
theorem C8_set_body_drops_marshal_failure_witness :
    ((Request.mk retryablehttpNewRequest (none : Option Unit) none).SetBody
        (fun (_ : Unit) => Except.error "json: unsupported type: chan int") ()).innerRequest.body
      = [] :=
  (C8_set_body_drops_marshal_failure
    (fun (_ : Unit) => Except.error "json: unsupported type: chan int")
    (fun _ t => (t, none)) (doSingleAttempt ⟨200, "POST", ⟨[], none, none, 0⟩⟩)
    (Request.mk retryablehttpNewRequest (none : Option Unit) none) ()
    "json: unsupported type: chan int" rfl).2.1

/-- Claim C9, evaluated on the code on the path of a non-error reply without
a decode target: for a 204 reply with an unread, open body the handler
returns nil and the stream of the reply it leaves in the `Response` has
been closed zero times. -/
theorem C9_no_target_reply_is_left_open :
    ((Request.mk retryablehttpNewRequest (none : Option Unit) none).responseHandler
        (fun _ t => (t, none)) (some ⟨204, "DELETE", ⟨[], none, none, 0⟩⟩)).2 = none ∧
    (((Request.mk retryablehttpNewRequest (none : Option Unit) none).responseHandler
        (fun _ t => (t, none)) (some ⟨204, "DELETE", ⟨[], none, none, 0⟩⟩)).1.response.bind
      Response.closeCount) = some 0 := by
  constructor <;> rfl

/-- Release of the body stream by the response handler, path by path.
When the handler returns, the stream has been closed exactly once more than
before on the path of an error-classified reply and on the path of a
non-error reply with a registered decode target; on the path of a non-error
reply without a decode target the handler has not closed it and leaves the
reply untouched in the `Response`. -/
theorem responseHandler_release_per_path {T : Type} (unmarshal : Bytes → T → T × Option Error)
    (r : Request T) (native : NativeResponse) :
    ((Response.mk (some native) none).IsError = true →
      ((r.responseHandler unmarshal (some native)).1.response.bind Response.closeCount)
        = some (native.Body.closed + 1)) ∧
    ((Response.mk (some native) none).IsError = false → r.parseBodyObject.isSome = true →
      ((r.responseHandler unmarshal (some native)).1.response.bind Response.closeCount)
        = some (native.Body.closed + 1)) ∧
    ((Response.mk (some native) none).IsError = false → r.parseBodyObject = none →
      (r.responseHandler unmarshal (some native)).1.response = some ⟨some native, none⟩ ∧
      ((r.responseHandler unmarshal (some native)).1.response.bind Response.closeCount)
        = some native.Body.closed) := by
  have hclosed : (native.Body.ReadAll.1.Close).1.closed = native.Body.closed + 1 := by
    simp only [BodyStream.ReadAll, BodyStream.Close]
    split <;> rfl
  refine ⟨?_, ?_, ?_⟩
  · intro hE
    rcases hRA : native.Body.ReadAll with ⟨st, bs, _ | rerr⟩ <;>
      rw [hRA] at hclosed <;>
      simp [Request.responseHandler, hE, parseErrorBody, Response.Body, hRA, Response.closeCount,
        hclosed]
  · intro hE hT
    obtain ⟨target, hreg⟩ := Option.isSome_iff_exists.mp hT
    rcases hRA : native.Body.ReadAll with ⟨st, bs, _ | rerr⟩
    · rw [hRA] at hclosed
      rcases hU : unmarshal bs target with ⟨t1, _ | uerr⟩ <;>
        simp [Request.responseHandler, hE, hreg, parseBody, Response.Body, hRA, hU,
          Response.closeCount, hclosed]
    · rw [hRA] at hclosed
      simp [Request.responseHandler, hE, hreg, parseBody, Response.Body, hRA,
        Response.closeCount, hclosed]
  · intro hE hT
    simp [Request.responseHandler, hE, hT, Response.closeCount]

/-- A 404 reply with an open body is closed once by the handler. -/
theorem responseHandler_release_per_path_witness :
    (((Request.mk retryablehttpNewRequest (none : Option Unit) none).responseHandler
        (fun _ t => (t, none)) (some ⟨404, "GET", ⟨[104, 105], none, none, 0⟩⟩)).1.response.bind
      Response.closeCount) = some (0 + 1) :=
  (responseHandler_release_per_path (fun _ t => (t, none))
    (Request.mk retryablehttpNewRequest (none : Option Unit) none)
    ⟨404, "GET", ⟨[104, 105], none, none, 0⟩⟩).1 (by decide)

/-- A key that no member of the object carries indexes to the nil
interface. -/
theorem mapIndex_of_absent_key (members : List (String × JsonValue)) (key : String)
    (h : ∀ kv ∈ members, kv.1 ≠ key) : mapIndex members key = JsonValue.null := by
  induction members with
  | nil => rfl
  | cons kv rest ih =>
    have hrest : ∀ kv ∈ rest, kv.1 ≠ key := fun x hx => h x (List.mem_cons_of_mem _ hx)
    have hkv : kv.1 ≠ key := h kv (List.mem_cons_self _ _)
    obtain ⟨k, x⟩ := kv
    simp only [mapIndex, ih hrest]
    have : (k == key) = false := by simpa using hkv
    simp [this]

/-- The loop over `rawErrors` of the ops decoder succeeds on items of the
asserted shape, with one element per item. -/
theorem opsDecodeItems_ok (items : List JsonValue)
    (h : items.all JsonValue.isOpsErrorItem = true) :
    ∃ errors, opsDecodeItems items = Outcome.ok errors ∧ errors.length = items.length := by
  induction items with
  | nil => exact ⟨[], rfl, rfl⟩
  | cons item rest ih =>
    simp only [List.all_cons, Bool.and_eq_true] at h
    obtain ⟨errors, hrest, hlen⟩ := ih h.2
    have hitem : ∃ first, opsDecodeItem item = Outcome.ok first := by
      cases item with
      | object members =>
        have h1 := h.1
        simp only [JsonValue.isOpsErrorItem, Bool.and_eq_true] at h1
        cases ht : mapIndex members "title" <;> cases hc : mapIndex members "code" <;>
          simp_all [JsonValue.isString, JsonValue.isNumber, opsDecodeItem, assertMap,
            assertString, assertFloat64, bind, Outcome.bind, pure]
      | _ => simp [JsonValue.isOpsErrorItem] at h
    obtain ⟨first, hfirst⟩ := hitem
    exact ⟨first :: errors, by simp [opsDecodeItems, hfirst, hrest, bind, Outcome.bind, pure],
      by simp [hlen]⟩

/-- The loop over `rawErrors` of the user decoder succeeds on strings. -/
theorem userDecodeMessages_ok (items : List JsonValue)
    (h : items.all JsonValue.isString = true) :
    ∃ messages, userDecodeMessages items = Outcome.ok messages ∧
      messages.length = items.length := by
  induction items with
  | nil => exact ⟨[], rfl, rfl⟩
  | cons item rest ih =>
    simp only [List.all_cons, Bool.and_eq_true] at h
    obtain ⟨messages, hrest, hlen⟩ := ih h.2
    cases item with
    | str text =>
      exact ⟨text :: messages,
        by simp [userDecodeMessages, assertString, hrest, bind, Outcome.bind, pure],
        by simp [hlen]⟩
    | _ => simp [JsonValue.isString] at h

/-- Claim C10 fails at two JSON objects in which envelope keys are absent.
The team decoder panics on the object whose only member is `code` = 404
(`message` absent, `code` not a string). The user decoder panics on the
object whose only member is `status` = 400 (`errorMessages` and `errors`
absent). -/
theorem C10_partial_objects_that_panic :
    teamClientDefaultErrorResponse.zero.UnmarshalJSON
        (some (JsonValue.object [("code", JsonValue.number 404)]))
      = Outcome.panic "interface conversion: value is not string" ∧
    userClientDefaultErrorResponse.zero.UnmarshalJSON
        (some (JsonValue.object [("status", JsonValue.number 400)]))
      = Outcome.panic "interface conversion: value is not int32" := by
  constructor
  · decide
  · rfl

/-- Claim C10, amended. For each of the five decoders and every JSON object
payload in which every envelope key is absent, null, or holds a value of
the type the decoder asserts for it (for the user decoder: `status` absent
or null), `UnmarshalJSON` returns a nil error and every field whose key is
absent or null keeps the value it had, which is the zero value for a zero
decoder. -/
theorem C10_absent_or_null_keys_are_tolerated (members : List (String × JsonValue)) :
    (∀ e : opsClientDefaultErrorResponse,
      (mapIndex members "errors").nilOr JsonValue.isOpsErrorSlice = true →
      ∃ e1, e.UnmarshalJSON (some (JsonValue.object members)) = Outcome.ok e1 ∧
        ((mapIndex members "errors").notNil = false → e1.Errors = e.Errors)) ∧
    (∀ e : opsClientUnauthorizedErrorResponse,
      (mapIndex members "code").nilOr JsonValue.isNumber = true →
      (mapIndex members "message").nilOr JsonValue.isString = true →
      ∃ e1, e.UnmarshalJSON (some (JsonValue.object members)) = Outcome.ok e1 ∧
        ((mapIndex members "code").notNil = false → e1.Code = e.Code) ∧
        ((mapIndex members "message").notNil = false → e1.Message = e.Message)) ∧
    (∀ e : teamClientDefaultErrorResponse,
      (mapIndex members "code").nilOr JsonValue.isString = true →
      (mapIndex members "message").nilOr JsonValue.isString = true →
      ∃ e1, e.UnmarshalJSON (some (JsonValue.object members)) = Outcome.ok e1 ∧
        ((mapIndex members "code").notNil = false → e1.Code = e.Code) ∧
        ((mapIndex members "message").notNil = false → e1.Message = e.Message)) ∧
    (∀ e : teamEnableOpsClientDefaultErrorResponse,
      (mapIndex members "message").nilOr JsonValue.isString = true →
      ∃ e1, e.UnmarshalJSON (some (JsonValue.object members)) = Outcome.ok e1 ∧
        ((mapIndex members "message").notNil = false → e1.Message = e.Message)) ∧
    (∀ e : userClientDefaultErrorResponse,
      (mapIndex members "status").notNil = false →
      (mapIndex members "errorMessages").nilOr JsonValue.isStringSlice = true →
      ∃ e1, e.UnmarshalJSON (some (JsonValue.object members)) = Outcome.ok e1 ∧
        e1.Status = e.Status ∧
        ((mapIndex members "errorMessages").notNil = false →
          e1.ErrorMessages = e.ErrorMessages) ∧
        ((mapIndex members "errors").notNil = false → e1.Errors = e.Errors)) := by
  refine ⟨?_, ?_, ?_, ?_, ?_⟩
  · intro e h
    cases hv : mapIndex members "errors" with
    | array items =>
      rw [hv] at h
      simp only [JsonValue.nilOr, JsonValue.notNil, JsonValue.isOpsErrorSlice, Bool.not_true,
        Bool.false_or] at h
      obtain ⟨errors, hdec, -⟩ := opsDecodeItems_ok items h
      exact ⟨{ e with Errors := errors },
        by simp [opsClientDefaultErrorResponse.UnmarshalJSON, unmarshalToMap, hv,
          JsonValue.notNil, assertSlice, hdec, bind, Outcome.bind, pure],
        by simp [JsonValue.notNil]⟩
    | null =>
      exact ⟨e, by simp [opsClientDefaultErrorResponse.UnmarshalJSON, unmarshalToMap, hv,
        JsonValue.notNil, bind, Outcome.bind, pure], fun _ => rfl⟩
    | _ =>
      rw [hv] at h
      simp [JsonValue.nilOr, JsonValue.notNil, JsonValue.isOpsErrorSlice] at h
  · intro e hc hm
    cases hcv : mapIndex members "code" <;> cases hmv : mapIndex members "message" <;>
      simp_all [JsonValue.nilOr, JsonValue.notNil, JsonValue.isNumber, JsonValue.isString,
        opsClientUnauthorizedErrorResponse.UnmarshalJSON, unmarshalToMap, assertFloat64,
        assertString, bind, Outcome.bind, pure]
  · intro e hc hm
    cases hcv : mapIndex members "code" <;> cases hmv : mapIndex members "message" <;>
      simp_all [JsonValue.nilOr, JsonValue.notNil, JsonValue.isString,
        teamClientDefaultErrorResponse.UnmarshalJSON, unmarshalToMap,
        assertString, bind, Outcome.bind, pure]
  · intro e hm
    cases hmv : mapIndex members "message" <;>
      simp_all [JsonValue.nilOr, JsonValue.notNil, JsonValue.isString,
        teamEnableOpsClientDefaultErrorResponse.UnmarshalJSON, unmarshalToMap,
        assertString, bind, Outcome.bind, pure]
  · intro e hs hm
    have hstatus : mapIndex members "status" = JsonValue.null := by
      cases hsv : mapIndex members "status" <;> simp_all [JsonValue.notNil]
    cases hmv : mapIndex members "errorMessages" with
    | array items =>
      rw [hmv] at hm
      simp only [JsonValue.nilOr, JsonValue.notNil, JsonValue.isStringSlice, Bool.not_true,
        Bool.false_or] at hm
      obtain ⟨messages, hdec, -⟩ := userDecodeMessages_ok items hm
      cases hev : mapIndex members "errors" <;>
        simp [userClientDefaultErrorResponse.UnmarshalJSON, unmarshalToMap, hstatus, hmv, hev,
          JsonValue.notNil, assertSlice, hdec, bind, Outcome.bind, pure]
    | null =>
      cases hev : mapIndex members "errors" <;>
        simp [userClientDefaultErrorResponse.UnmarshalJSON, unmarshalToMap, hstatus, hmv, hev,
          JsonValue.notNil, bind, Outcome.bind, pure]
    | _ =>
      rw [hmv] at hm
      simp [JsonValue.nilOr, JsonValue.notNil, JsonValue.isStringSlice] at hm

/-- Witness for C10, amended: the object whose only member is `message` =
`boom` decodes into each of the five zero decoders; the fields of the
absent keys stay zero. -/
theorem C10_absent_or_null_keys_are_tolerated_witness :
    (∃ e1, opsClientDefaultErrorResponse.zero.UnmarshalJSON
        (some (JsonValue.object [("message", JsonValue.str "boom")])) = Outcome.ok e1 ∧
      e1.Errors = []) ∧
    (∃ e1, opsClientUnauthorizedErrorResponse.zero.UnmarshalJSON
        (some (JsonValue.object [("message", JsonValue.str "boom")])) = Outcome.ok e1 ∧
      e1.Code = 0) ∧
    (∃ e1, teamClientDefaultErrorResponse.zero.UnmarshalJSON
        (some (JsonValue.object [("message", JsonValue.str "boom")])) = Outcome.ok e1 ∧
      e1.Code = "") ∧
    (∃ e1, teamEnableOpsClientDefaultErrorResponse.zero.UnmarshalJSON
        (some (JsonValue.object [("message", JsonValue.str "boom")])) = Outcome.ok e1) ∧
    (∃ e1, userClientDefaultErrorResponse.zero.UnmarshalJSON
        (some (JsonValue.object [("message", JsonValue.str "boom")])) = Outcome.ok e1 ∧
      e1.Status = 0 ∧ e1.ErrorMessages = []) := by
  have h := C10_absent_or_null_keys_are_tolerated [("message", JsonValue.str "boom")]
  refine ⟨?_, ?_, ?_, ?_, ?_⟩
  · obtain ⟨e1, h1, h2⟩ := h.1 opsClientDefaultErrorResponse.zero (by decide)
    exact ⟨e1, h1, h2 (by decide)⟩
  · obtain ⟨e1, h1, h2, -⟩ :=
      h.2.1 opsClientUnauthorizedErrorResponse.zero (by decide) (by decide)
    exact ⟨e1, h1, h2 (by decide)⟩
  · obtain ⟨e1, h1, h2, -⟩ := h.2.2.1 teamClientDefaultErrorResponse.zero (by decide) (by decide)
    exact ⟨e1, h1, h2 (by decide)⟩
  · obtain ⟨e1, h1, -⟩ := h.2.2.2.1 teamEnableOpsClientDefaultErrorResponse.zero (by decide)
    exact ⟨e1, h1⟩
  · obtain ⟨e1, h1, h2, h3, -⟩ :=
      h.2.2.2.2 userClientDefaultErrorResponse.zero (by decide) (by decide)
    exact ⟨e1, h1, h2, h3 (by decide)⟩

/-- Claim C11, evaluated on the code at items that lack a key. The ops decoder
panics on the payload whose `errors` array holds one object with only
`code` = 404 (the assertion `itemMap["title"].(string)` meets the nil
interface), and on the payload whose item holds only `title` = `gone`
(the assertion `itemMap["code"].(float64)` meets the nil interface); it
returns no decoded entry for either. -/
theorem C11_item_without_title_or_code_panics :
    opsClientDefaultErrorResponse.zero.UnmarshalJSON
        (some (JsonValue.object
          [("errors", JsonValue.array [JsonValue.object [("code", JsonValue.number 404)]])]))
      = Outcome.panic "interface conversion: value is not string" ∧
    opsClientDefaultErrorResponse.zero.UnmarshalJSON
        (some (JsonValue.object
          [("errors", JsonValue.array [JsonValue.object [("title", JsonValue.str "gone")]])]))
      = Outcome.panic "interface conversion: value is not float64" := by
  constructor <;> decide

/-- Claim C12, evaluated on the code. For every number `n`, every list of
strings `messages` and every value `errors`, the user decoder panics on the
object with the members `status` = `n`, `errorMessages` = `messages` and
`errors` = `errors`, whatever the decoder held before: the assertion
`v["status"].(int32)` meets a `float64`. No field is set. -/
theorem C12_numeric_status_panics (e : userClientDefaultErrorResponse) (n : Int)
    (messages : List String) (errors : JsonValue) :
    e.UnmarshalJSON
        (some (JsonValue.object
          [("status", JsonValue.number n),
           ("errorMessages", JsonValue.array (messages.map JsonValue.str)),
           ("errors", errors)]))
      = Outcome.panic "interface conversion: value is not int32" := by
  have hs : mapIndex [("status", JsonValue.number n),
      ("errorMessages", JsonValue.array (messages.map JsonValue.str)),
      ("errors", errors)] "status" = JsonValue.number n := by
    simp [mapIndex]
  simp [userClientDefaultErrorResponse.UnmarshalJSON, unmarshalToMap, hs, JsonValue.notNil,
    assertInt32, bind, Outcome.bind]

/-- Claim C13. For all strings `c` and `m`, the object with the string members
`code` = `c` and `message` = `m` decodes into a zero team decoder without
error, the decoder then holds `c` and `m`, and its `Error()` is
`Code: ` followed by `c`, then `, Message: `, then `m`; so the rendering
contains `c` and contains `m`. -/
theorem C13_team_decoder_renders_code_and_message (c m : String) :
    teamClientDefaultErrorResponse.zero.UnmarshalJSON
        (some (JsonValue.object [("code", JsonValue.str c), ("message", JsonValue.str m)]))
      = Outcome.ok ⟨c, m⟩ ∧
    (teamClientDefaultErrorResponse.mk c m).Error = "Code: " ++ c ++ ", Message: " ++ m ∧
    (∃ before after : String, (teamClientDefaultErrorResponse.mk c m).Error = before ++ c ++ after) ∧
    (∃ before after : String, (teamClientDefaultErrorResponse.mk c m).Error = before ++ m ++ after) := by
  refine ⟨?_, rfl, ⟨"Code: ", ", Message: " ++ m, ?_⟩, ⟨"Code: " ++ c ++ ", Message: ", "", ?_⟩⟩
  · have hc : mapIndex [("code", JsonValue.str c), ("message", JsonValue.str m)] "code"
        = JsonValue.str c := by simp [mapIndex]
    have hm : mapIndex [("code", JsonValue.str c), ("message", JsonValue.str m)] "message"
        = JsonValue.str m := by simp [mapIndex]
    simp [teamClientDefaultErrorResponse.UnmarshalJSON, unmarshalToMap, hc, hm,
      JsonValue.notNil, assertString, bind, Outcome.bind, pure,
      teamClientDefaultErrorResponse.zero]
  · simp [teamClientDefaultErrorResponse.Error, String.append_assoc]
  · simp [teamClientDefaultErrorResponse.Error]

/-- Claim C20. On a `Response` that holds no reply `Discard` returns nil,
leaves the `Response` as it was and calls `Close` on no stream. On a
`Response` holding a reply whose stream closes without error `Discard`
calls `Close` on that stream once, returns nil, and the `Response` no
longer holds the reply. After a `Discard` that returned nil a further
`Discard` returns nil, leaves the `Response` unchanged and calls `Close`
on no stream, so the released stream is not closed a second time. -/
theorem C20_discard_is_idempotent (native : NativeResponse) (errorBody : Option Bytes)
    (receiver : Response) :
    (Response.mk none errorBody).Discard = (Response.mk none errorBody, none, none) ∧
    (native.Body.closeErr = none →
      (Response.mk (some native) errorBody).Discard =
        (Response.mk none errorBody,
          some { native.Body with closed := native.Body.closed + 1 }, none)) ∧
    (receiver.Discard.2.2 = none →
      receiver.Discard.1.Discard = (receiver.Discard.1, none, none)) := by
  refine ⟨rfl, ?_, ?_⟩
  · intro h
    simp [Response.Discard, BodyStream.Close, h]
  · intro h
    rcases receiver with ⟨_ | held, eb⟩
    · rfl
    · rcases hc : held.Body.closeErr with _ | e
      · simp [Response.Discard, BodyStream.Close, hc]
      · simp [Response.Discard, BodyStream.Close, hc] at h

/-- Witness for C20: a 200 reply whose stream closes without error is
closed once by the first `Discard`, which releases it, and the second
`Discard` closes nothing and changes nothing. -/
theorem C20_discard_is_idempotent_witness :
    (Response.mk (some ⟨200, "GET", ⟨[1], none, none, 0⟩⟩) none).Discard
        = (Response.mk none none, some ⟨[1], none, none, 1⟩, none) ∧
    (Response.mk (some ⟨200, "GET", ⟨[1], none, none, 0⟩⟩) none).Discard.1.Discard
        = ((Response.mk (some ⟨200, "GET", ⟨[1], none, none, 0⟩⟩) none).Discard.1, none, none) :=
  ⟨(C20_discard_is_idempotent ⟨200, "GET", ⟨[1], none, none, 0⟩⟩ none
      (Response.mk (some ⟨200, "GET", ⟨[1], none, none, 0⟩⟩) none)).2.1 rfl,
   (C20_discard_is_idempotent ⟨200, "GET", ⟨[1], none, none, 0⟩⟩ none
      (Response.mk (some ⟨200, "GET", ⟨[1], none, none, 0⟩⟩) none)).2.2 rfl⟩

/-- Replacing the entries of a key in a header list that has one puts the
replacement first among the entries of that key. -/
theorem find_replaced_same (k : String) (x : List String) (l : Header)
    (hany : (l.any fun kv => kv.1 == k) = true) :
    (l.map fun kv => if kv.1 == k then (k, x) else kv).find? (fun kv => kv.1 == k)
      = some (k, x) := by
  induction l with
  | nil => simp at hany
  | cons kv rest ih =>
    rw [List.map_cons]
    by_cases hkv : kv.1 = k
    · have hb : (kv.1 == k) = true := by simpa using hkv
      simp only [hb, if_true, List.find?_cons, beq_self_eq_true]
    · have hb : (kv.1 == k) = false := by simpa using hkv
      have hrest : (rest.any fun kv => kv.1 == k) = true := by simpa [hkv] using hany
      simp only [hb, List.find?_cons, Bool.false_eq_true, if_false]
      exact ih hrest

/-- Replacing the entries of one key leaves the first entry of every other
key as it was. -/
theorem find_replaced_other (k k2 : String) (x : List String) (hk : k2 ≠ k) (l : Header) :
    (l.map fun kv => if kv.1 == k then (k, x) else kv).find? (fun kv => kv.1 == k2)
      = l.find? (fun kv => kv.1 == k2) := by
  induction l with
  | nil => rfl
  | cons kv rest ih =>
    rw [List.map_cons]
    by_cases hkv : kv.1 = k
    · have hb : (kv.1 == k) = true := by simpa using hkv
      have h1 : (k == k2) = false := by simpa using fun h => hk h.symm
      have h2 : (kv.1 == k2) = false := by
        simp only [beq_eq_false_iff_ne, ne_eq]
        intro h
        exact hk (h ▸ hkv)
      simp only [hb, if_true, List.find?_cons, h1, h2]
      exact ih
    · have hb : (kv.1 == k) = false := by simpa using hkv
      simp only [hb, Bool.false_eq_true, if_false, List.find?_cons]
      rw [ih]

/-- After `Header.Set`, the values under a key with the same canonical form
are the single value set. -/
theorem header_values_set_same (h : Header) (key key2 value : String)
    (hk : CanonicalMIMEHeaderKey key2 = CanonicalMIMEHeaderKey key) :
    (h.Set key value).Values key2 = [value] := by
  unfold Header.Values Header.Set
  rw [hk]
  by_cases hany : (h.any fun kv => kv.1 == CanonicalMIMEHeaderKey key) = true
  · simp only [hany, if_true]
    rw [find_replaced_same _ _ h hany]
  · have hnone : h.find? (fun kv => kv.1 == CanonicalMIMEHeaderKey key) = none := by
      rw [List.find?_eq_none]
      intro x hx hx2
      exact hany (List.any_eq_true.mpr ⟨x, hx, hx2⟩)
    simp only [hany, Bool.false_eq_true, if_false]
    rw [List.find?_append, hnone]
    simp

/-- `Header.Set` leaves the values under every key of another canonical form
as they were. -/
theorem header_values_set_other (h : Header) (key key2 value : String)
    (hk : CanonicalMIMEHeaderKey key2 ≠ CanonicalMIMEHeaderKey key) :
    (h.Set key value).Values key2 = h.Values key2 := by
  unfold Header.Values Header.Set
  by_cases hany : (h.any fun kv => kv.1 == CanonicalMIMEHeaderKey key) = true
  · simp only [hany, if_true]
    rw [find_replaced_other _ _ _ hk h]
  · simp only [hany, Bool.false_eq_true, if_false]
    rw [List.find?_append]
    have h1 : (CanonicalMIMEHeaderKey key == CanonicalMIMEHeaderKey key2) = false := by
      simpa using fun h => hk h.symm
    simp only [List.find?_cons, h1, List.find?_nil, Option.or_none]

/-- Each authentication setter is `Header.Set` on `Authorization` with the
value of the call, and touches nothing else of the request. -/
theorem applyAuth_eq {T : Type} (base64 : String → String) (r : Request T) (call : AuthCall) :
    r.applyAuth base64 call = { r with innerRequest := { r.innerRequest with
      Header := r.innerRequest.Header.Set "Authorization" (call.headerValue base64) } } := by
  cases call <;> rfl

/-- A run of authentication calls changes no header of another canonical
key and nothing outside the headers. -/
theorem applyAuth_foldl_frame {T : Type} (base64 : String → String) (calls : List AuthCall) :
    ∀ r : Request T,
      (∀ key, CanonicalMIMEHeaderKey key ≠ "Authorization" →
        (calls.foldl (Request.applyAuth base64) r).innerRequest.Header.Values key
          = r.innerRequest.Header.Values key) ∧
      (calls.foldl (Request.applyAuth base64) r).innerRequest.Method = r.innerRequest.Method ∧
      (calls.foldl (Request.applyAuth base64) r).innerRequest.URL = r.innerRequest.URL ∧
      (calls.foldl (Request.applyAuth base64) r).innerRequest.body = r.innerRequest.body ∧
      (calls.foldl (Request.applyAuth base64) r).parseBodyObject = r.parseBodyObject ∧
      (calls.foldl (Request.applyAuth base64) r).response = r.response := by
  induction calls with
  | nil => intro r; exact ⟨fun _ _ => rfl, rfl, rfl, rfl, rfl, rfl⟩
  | cons call rest ih =>
    intro r
    obtain ⟨h1, h2, h3, h4, h5, h6⟩ := ih (r.applyAuth base64 call)
    rw [List.foldl_cons]
    refine ⟨?_, ?_, ?_, ?_, ?_, ?_⟩
    · intro key hkey
      rw [h1 key hkey, applyAuth_eq]
      exact header_values_set_other _ "Authorization" key _ hkey
    · rw [h2, applyAuth_eq]
    · rw [h3, applyAuth_eq]
    · rw [h4, applyAuth_eq]
    · rw [h5, applyAuth_eq]
    · rw [h6, applyAuth_eq]

/-- Claim C18. After any run of `SetBasicAuth`, `SetBearerAuth` and
`SetOAuth2Auth` calls that ends with the call `last`, the `Authorization`
header holds exactly one value, the one of `last`: `Bearer ` and the token,
`OAuth2 ` and the token, or `Basic ` and the base64 form of
`username:password`. Every header of another canonical key holds the
values it held before, and method, URL, body, decode target and response
are unchanged. -/
theorem C18_last_auth_call_wins {T : Type} (base64 : String → String) (r : Request T)
    (calls : List AuthCall) (last : AuthCall) :
    ((calls ++ [last]).foldl (Request.applyAuth base64) r).innerRequest.Header.Values
        "Authorization" = [last.headerValue base64] ∧
    (∀ token, AuthCall.headerValue base64 (AuthCall.bearer token) = "Bearer " ++ token) ∧
    (∀ token, AuthCall.headerValue base64 (AuthCall.oauth2 token) = "OAuth2 " ++ token) ∧
    (∀ username password, AuthCall.headerValue base64 (AuthCall.basic username password)
      = "Basic " ++ base64 (username ++ ":" ++ password)) ∧
    (∀ key, CanonicalMIMEHeaderKey key ≠ "Authorization" →
      ((calls ++ [last]).foldl (Request.applyAuth base64) r).innerRequest.Header.Values key
        = r.innerRequest.Header.Values key) ∧
    ((calls ++ [last]).foldl (Request.applyAuth base64) r).innerRequest.Method
      = r.innerRequest.Method ∧
    ((calls ++ [last]).foldl (Request.applyAuth base64) r).innerRequest.URL
      = r.innerRequest.URL ∧
    ((calls ++ [last]).foldl (Request.applyAuth base64) r).innerRequest.body
      = r.innerRequest.body := by
  obtain ⟨h1, h2, h3, h4, -, -⟩ := applyAuth_foldl_frame base64 (calls ++ [last]) r
  refine ⟨?_, fun _ => rfl, fun _ => rfl, fun _ _ => rfl, h1, h2, h3, h4⟩
  rw [List.foldl_append, List.foldl_cons, List.foldl_nil, applyAuth_eq]
  exact header_values_set_same _ "Authorization" "Authorization" _ rfl

/-- Witness for C18: basic, then OAuth2, then bearer on a fresh request;
the header is the bearer value and `Content-Type` keeps its value. -/
theorem C18_last_auth_call_wins_witness :
    (([AuthCall.basic "u" "p", AuthCall.oauth2 "t1"] ++ [AuthCall.bearer "t2"]).foldl
        (Request.applyAuth fun text => text)
        (NewRequest (HttpClient.mk ⟨false, none, false⟩ [] : HttpClient Unit) 1 :
          Request Unit × HttpClient Unit).1).innerRequest.Header.Values "Content-Type"
      = (NewRequest (HttpClient.mk ⟨false, none, false⟩ [] : HttpClient Unit) 1 :
          Request Unit × HttpClient Unit).1.innerRequest.Header.Values "Content-Type" :=
  (C18_last_auth_call_wins (fun text => text)
    (NewRequest (HttpClient.mk ⟨false, none, false⟩ [] : HttpClient Unit) 1 :
      Request Unit × HttpClient Unit).1
    [AuthCall.basic "u" "p", AuthCall.oauth2 "t1"] (AuthCall.bearer "t2")).2.2.2.2.1
    "Content-Type" (by decide)

/-- Every byte is the byte of its number. -/
theorem byte_ofNat_toNat (c : UInt8) : UInt8.ofNat c.toNat = c := by
  cases c with
  | mk v =>
    apply UInt8.ext
    simp [UInt8.ofNat, UInt8.toNat]

/-- A property that holds for the 256 byte values holds for every byte. -/
theorem byte_cases (P : UInt8 → Prop) (h : ∀ n, n < 256 → P (UInt8.ofNat n)) (c : UInt8) : P c := by
  have := h c.toNat (UInt8.toNat_lt c)
  rwa [byte_ofNat_toNat] at this

set_option maxRecDepth 100000 in
/-- The three shapes of an escaped byte, and what each unescapes to. -/
theorem escapeByte_shape (c : UInt8) :
    (c = 32 ∧ escapeByte c = [43]) ∨
    (c ≠ 37 ∧ c ≠ 43 ∧ escapeByte c = [c]) ∨
    (escapeByte c = [37, upperhex (c >>> 4), upperhex (c &&& 15)] ∧
      (ishex (upperhex (c >>> 4)) && ishex (upperhex (c &&& 15))) = true ∧
      unhex (upperhex (c >>> 4)) <<< 4 ||| unhex (upperhex (c &&& 15)) = c) := by
  revert c
  apply byte_cases
  decide

set_option maxRecDepth 100000 in
/-- An escaped byte holds no `&`, no `=` and no `;`. -/
theorem escapeByte_clean (c : UInt8) :
    ∀ x ∈ escapeByte c, x ≠ 38 ∧ x ≠ 61 ∧ x ≠ 59 := by
  revert c
  apply byte_cases
  decide

/-- Unescaping steps over a byte that is neither `%` nor `+`. -/
theorem unescape_cons_plain (c : UInt8) (rest : Bytes) (h1 : c ≠ 37) (h2 : c ≠ 43) :
    QueryUnescape (c :: rest) = (QueryUnescape rest).map fun tail => c :: tail := by
  cases rest with
  | nil => simp [QueryUnescape, h1, h2]
  | cons a rest =>
    rw [QueryUnescape.eq_def]
    simp [h1, h2]

/-- Unescaping turns `+` into a space. -/
theorem unescape_cons_plus (rest : Bytes) :
    QueryUnescape (43 :: rest) = (QueryUnescape rest).map fun tail => 32 :: tail := by
  cases rest with
  | nil => simp [QueryUnescape]
  | cons a rest =>
    rw [QueryUnescape.eq_def]
    simp

/-- Unescaping turns `%` and two hex digits into the byte they name. -/
theorem unescape_cons_percent (a b : UInt8) (rest : Bytes)
    (h : (ishex a && ishex b) = true) :
    QueryUnescape (37 :: a :: b :: rest)
      = (QueryUnescape rest).map fun tail => (unhex a <<< 4 ||| unhex b) :: tail := by
  simp [QueryUnescape, h]

/-- Unescaping after one escaped byte. -/
theorem unescape_escapeByte_append (c : UInt8) (rest : Bytes) :
    QueryUnescape (escapeByte c ++ rest) = (QueryUnescape rest).map fun tail => c :: tail := by
  rcases escapeByte_shape c with ⟨hc, he⟩ | ⟨h1, h2, he⟩ | ⟨he, hhex, hval⟩
  · rw [he, hc]; exact unescape_cons_plus rest
  · rw [he]; exact unescape_cons_plain c rest h1 h2
  · rw [he]
    have := unescape_cons_percent _ _ rest hhex
    rw [hval] at this
    exact this

/-- Unescaping undoes escaping. -/
theorem unescape_escape (s : Bytes) : QueryUnescape (QueryEscape s) = some s := by
  induction s with
  | nil => rfl
  | cons c rest ih =>
    have : QueryEscape (c :: rest) = escapeByte c ++ QueryEscape rest := by
      simp [QueryEscape]
    rw [this, unescape_escapeByte_append, ih]
    rfl

/-- An escaped text holds no `&`, no `=` and no `;`. -/
theorem escape_clean (s : Bytes) : ∀ x ∈ QueryEscape s, x ≠ 38 ∧ x ≠ 61 ∧ x ≠ 59 := by
  intro x hx
  simp only [QueryEscape, List.mem_flatMap] at hx
  obtain ⟨c, -, hc⟩ := hx
  exact escapeByte_clean c x hc

/-- Cutting at the first separator of a text whose head part has none. -/
theorem cutAt_append (sep : UInt8) (a b : Bytes) (ha : ∀ x ∈ a, x ≠ sep) :
    cutAt sep (a ++ sep :: b) = (a, b) := by
  induction a with
  | nil => simp [cutAt]
  | cons c rest ih =>
    have hc : c ≠ sep := ha c (List.mem_cons_self _ _)
    have hrest : ∀ x ∈ rest, x ≠ sep := fun x hx => ha x (List.mem_cons_of_mem _ hx)
    simp [cutAt, hc, ih hrest]

/-- A text without the separator is its own single piece. -/
theorem splitOn_clean (sep : UInt8) (a : Bytes) (ha : ∀ x ∈ a, x ≠ sep) :
    splitOn sep a = [a] := by
  induction a with
  | nil => rfl
  | cons c rest ih =>
    have hc : c ≠ sep := ha c (List.mem_cons_self _ _)
    have hrest : ∀ x ∈ rest, x ≠ sep := fun x hx => ha x (List.mem_cons_of_mem _ hx)
    simp [splitOn, hc, ih hrest]

/-- Splitting after a first piece that holds no separator. -/
theorem splitOn_append (sep : UInt8) (a rest : Bytes) (ha : ∀ x ∈ a, x ≠ sep) :
    splitOn sep (a ++ sep :: rest) = a :: splitOn sep rest := by
  induction a with
  | nil => simp [splitOn]
  | cons c tail ih =>
    have hc : c ≠ sep := ha c (List.mem_cons_self _ _)
    have htail : ∀ x ∈ tail, x ≠ sep := fun x hx => ha x (List.mem_cons_of_mem _ hx)
    simp [splitOn, hc, ih htail]

/-- Splitting the `&`-join of pieces without `&` gives the pieces back. -/
theorem splitOn_joinAmp (piece : Bytes) (pieces : List Bytes)
    (h : ∀ p ∈ piece :: pieces, ∀ x ∈ p, x ≠ 38) :
    splitOn 38 (joinAmp (piece :: pieces)) = piece :: pieces := by
  induction pieces generalizing piece with
  | nil =>
    exact splitOn_clean 38 piece (h piece (List.mem_cons_self _ _))
  | cons next rest ih =>
    have hp : ∀ x ∈ piece, x ≠ 38 := h piece (List.mem_cons_self _ _)
    have hrest : ∀ p ∈ next :: rest, ∀ x ∈ p, x ≠ 38 :=
      fun p hp2 => h p (List.mem_cons_of_mem _ hp2)
    have : joinAmp (piece :: next :: rest) = piece ++ 38 :: joinAmp (next :: rest) := by
      simp [joinAmp]
    rw [this, splitOn_append 38 piece _ hp, ih next hrest]

/-- `Has` tells whether the key is among the keys. -/
theorem has_iff_mem_keys (v : Values) (key : Bytes) : v.Has key = true ↔ key ∈ v.keys := by
  simp only [Values.Has, Values.keys, List.any_eq_true, List.mem_map, beq_iff_eq]

/-- An absent key indexes to the nil slice. -/
theorem values_of_not_mem (v : Values) (key : Bytes) (h : key ∉ v.keys) :
    v.values key = [] := by
  have hnone : v.find? (fun kv => kv.1 == key) = none := by
    rw [List.find?_eq_none]
    intro kv hkv hb
    apply h
    simp only [Values.keys, List.mem_map]
    exact ⟨kv, hkv, by simpa using hb⟩
  simp [Values.values, hnone]

/-- A key of a well-formed map indexes to a non-empty slice. -/
theorem values_ne_nil_of_mem (v : Values) (hv : v.WF) (key : Bytes) (h : key ∈ v.keys) :
    v.values key ≠ [] := by
  simp only [Values.keys, List.mem_map] at h
  obtain ⟨kv, hkv, rfl⟩ := h
  have hsome : (v.find? fun e => e.1 == kv.1).isSome = true := by
    rw [List.find?_isSome]
    exact ⟨kv, hkv, by simp⟩
  obtain ⟨found, hfound⟩ := Option.isSome_iff_exists.mp hsome
  have hmem : found ∈ v := List.mem_of_find?_eq_some hfound
  simp only [Values.values, hfound]
  exact hv.2 found hmem

/-- In a well-formed map the keys are the keys that index to a value. -/
theorem mem_keys_iff_values_ne_nil (v : Values) (hv : v.WF) (key : Bytes) :
    key ∈ v.keys ↔ v.values key ≠ [] := by
  constructor
  · exact values_ne_nil_of_mem v hv key
  · intro h
    by_contra hk
    exact h (values_of_not_mem v key hk)

/-- Indexing after rewriting the entries without touching their keys. -/
theorem values_map (f : Bytes × List Bytes → Bytes × List Bytes) (hf : ∀ kv, (f kv).1 = kv.1)
    (v : Values) (key : Bytes) :
    Values.values (v.map f) key
      = match v.find? fun kv => kv.1 == key with
        | some kv => (f kv).2
        | none => [] := by
  induction v with
  | nil => rfl
  | cons kv rest ih =>
    simp only [Values.values] at ih ⊢
    rw [List.map_cons]
    by_cases hk : kv.1 = key
    · have h1 : (kv.1 == key) = true := by simpa using hk
      have h2 : ((f kv).1 == key) = true := by rw [hf]; exact h1
      simp only [List.find?_cons, h1, h2]
    · have h1 : (kv.1 == key) = false := by simpa using hk
      have h2 : ((f kv).1 == key) = false := by rw [hf]; exact h1
      simp only [List.find?_cons, h1, h2]
      exact ih

/-- Rewriting the entries without touching their keys keeps the keys. -/
theorem keys_map (f : Bytes × List Bytes → Bytes × List Bytes) (hf : ∀ kv, (f kv).1 = kv.1)
    (v : Values) : Values.keys (v.map f) = v.keys := by
  simp only [Values.keys, List.map_map]
  apply List.map_congr_left
  intro kv _
  exact hf kv

/-- Indexing after appending an entry for a new key. -/
theorem values_append_new (v : Values) (key key2 : Bytes) (vs : List Bytes)
    (h : key ∉ v.keys) :
    Values.values (v ++ [(key, vs)]) key2 = if key2 = key then vs else v.values key2 := by
  simp only [Values.values, List.find?_append]
  by_cases hk : key2 = key
  · subst hk
    have hnone : v.find? (fun kv => kv.1 == key2) = none := by
      rw [List.find?_eq_none]
      intro kv hkv hb
      apply h
      simp only [Values.keys, List.mem_map]
      exact ⟨kv, hkv, by simpa using hb⟩
    simp [hnone]
  · have h1 : (key == key2) = false := by simpa using fun h => hk h.symm
    simp only [List.find?_cons, h1, List.find?_nil, Option.or_none, hk, if_false]

/-- Indexing after `Set`. -/
theorem values_set (v : Values) (key value key2 : Bytes) :
    (v.Set key value).values key2 = if key2 = key then [value] else v.values key2 := by
  unfold Values.Set
  by_cases hhas : v.Has key = true
  · simp only [hhas, if_true]
    rw [values_map _ (by intro kv; by_cases h : kv.1 = key <;> simp [h])]
    by_cases hk : key2 = key
    · subst hk
      have hsome : (v.find? fun e => e.1 == key2).isSome = true := by
        rw [List.find?_isSome]
        simpa [Values.Has] using hhas
      obtain ⟨found, hfound⟩ := Option.isSome_iff_exists.mp hsome
      have hkey : found.1 = key2 := by simpa using List.find?_some hfound
      simp [hfound, hkey]
    · simp only [hk, if_false, Values.values]
      cases hfind : v.find? (fun kv => kv.1 == key2) with
      | none => rfl
      | some found =>
        have hkey : found.1 = key2 := by simpa using List.find?_some hfind
        have : ¬ found.1 = key := fun h => hk (hkey ▸ h)
        simp [this]
  · have hnot : key ∉ v.keys := fun h => hhas ((has_iff_mem_keys v key).mpr h)
    simp only [hhas, Bool.false_eq_true, if_false]
    exact values_append_new v key key2 [value] hnot

/-- Indexing after `Add`. -/
theorem values_add (v : Values) (key value key2 : Bytes) :
    (v.Add key value).values key2
      = if key2 = key then v.values key ++ [value] else v.values key2 := by
  unfold Values.Add
  by_cases hhas : v.Has key = true
  · simp only [hhas, if_true]
    rw [values_map _ (by intro kv; by_cases h : kv.1 = key <;> simp [h])]
    by_cases hk : key2 = key
    · subst hk
      have hsome : (v.find? fun e => e.1 == key2).isSome = true := by
        rw [List.find?_isSome]
        simpa [Values.Has] using hhas
      obtain ⟨found, hfound⟩ := Option.isSome_iff_exists.mp hsome
      have hkey : found.1 = key2 := by simpa using List.find?_some hfound
      simp [hfound, hkey, Values.values]
    · simp only [hk, if_false, Values.values]
      cases hfind : v.find? (fun kv => kv.1 == key2) with
      | none => rfl
      | some found =>
        have hkey : found.1 = key2 := by simpa using List.find?_some hfind
        have : ¬ found.1 = key := fun h => hk (hkey ▸ h)
        simp [this]
  · have hnot : key ∉ v.keys := fun h => hhas ((has_iff_mem_keys v key).mpr h)
    simp only [hhas, Bool.false_eq_true, if_false]
    rw [values_append_new v key key2 [value] hnot, values_of_not_mem v key hnot]
    rfl

/-- Indexing after `Del`. -/
theorem values_del (v : Values) (key key2 : Bytes) :
    (v.Del key).values key2 = if key2 = key then [] else v.values key2 := by
  induction v with
  | nil => simp [Values.Del, Values.values]
  | cons kv rest ih =>
    simp only [Values.Del, Values.values] at ih ⊢
    by_cases hk : kv.1 = key
    · have h1 : (kv.1 == key) = true := by simpa using hk
      simp only [List.filter_cons, h1, Bool.not_true, Bool.false_eq_true, if_false]
      rw [ih]
      by_cases hk2 : key2 = key
      · simp [hk2]
      · have h2 : (kv.1 == key2) = false := by
          simp only [beq_eq_false_iff_ne, ne_eq]
          intro h
          exact hk2 (h ▸ hk)
        simp only [hk2, if_false, List.find?_cons, h2]
    · have h1 : (kv.1 == key) = false := by simpa using hk
      simp only [List.filter_cons, h1, Bool.not_false, if_true]
      by_cases hk2 : kv.1 = key2
      · have h2 : (kv.1 == key2) = true := by simpa using hk2
        have : ¬ key2 = key := fun h => hk (hk2 ▸ h)
        simp only [List.find?_cons, h2, this, if_false]
      · have h2 : (kv.1 == key2) = false := by simpa using hk2
        simp only [List.find?_cons, h2]
        exact ih

/-- `Set` keeps a map well formed. -/
theorem wf_set (v : Values) (hv : v.WF) (key value : Bytes) : (v.Set key value).WF := by
  unfold Values.Set
  by_cases hhas : v.Has key = true
  · simp only [hhas, if_true]
    refine ⟨?_, ?_⟩
    · rw [keys_map _ (by intro kv; by_cases h : kv.1 = key <;> simp [h])]
      exact hv.1
    · intro kv hkv
      simp only [List.mem_map] at hkv
      obtain ⟨old, hold, rfl⟩ := hkv
      by_cases h : old.1 = key
      · simp [h]
      · simp only [beq_iff_eq, h, if_false]
        exact hv.2 old hold
  · have hnot : key ∉ v.keys := fun h => hhas ((has_iff_mem_keys v key).mpr h)
    simp only [hhas, Bool.false_eq_true, if_false]
    refine ⟨?_, ?_⟩
    · simp only [Values.keys, List.map_append, List.map_cons, List.map_nil]
      rw [List.nodup_append]
      refine ⟨hv.1, List.nodup_singleton _, ?_⟩
      intro a ha hb
      simp only [List.mem_singleton] at hb
      subst hb
      exact hnot ha
    · intro kv hkv
      simp only [List.mem_append, List.mem_singleton] at hkv
      rcases hkv with hkv | rfl
      · exact hv.2 kv hkv
      · simp

/-- `Add` keeps a map well formed. -/
theorem wf_add (v : Values) (hv : v.WF) (key value : Bytes) : (v.Add key value).WF := by
  unfold Values.Add
  by_cases hhas : v.Has key = true
  · simp only [hhas, if_true]
    refine ⟨?_, ?_⟩
    · rw [keys_map _ (by intro kv; by_cases h : kv.1 = key <;> simp [h])]
      exact hv.1
    · intro kv hkv
      simp only [List.mem_map] at hkv
      obtain ⟨old, hold, rfl⟩ := hkv
      by_cases h : old.1 = key
      · simp [h]
      · simp only [beq_iff_eq, h, if_false]
        exact hv.2 old hold
  · have hnot : key ∉ v.keys := fun h => hhas ((has_iff_mem_keys v key).mpr h)
    simp only [hhas, Bool.false_eq_true, if_false]
    refine ⟨?_, ?_⟩
    · simp only [Values.keys, List.map_append, List.map_cons, List.map_nil]
      rw [List.nodup_append]
      refine ⟨hv.1, List.nodup_singleton _, ?_⟩
      intro a ha hb
      simp only [List.mem_singleton] at hb
      subst hb
      exact hnot ha
    · intro kv hkv
      simp only [List.mem_append, List.mem_singleton] at hkv
      rcases hkv with hkv | rfl
      · exact hv.2 kv hkv
      · simp

/-- `Del` keeps a map well formed. -/
theorem wf_del (v : Values) (hv : v.WF) (key : Bytes) : (v.Del key).WF := by
  refine ⟨?_, ?_⟩
  · exact List.Nodup.sublist (List.Sublist.map _ (List.filter_sublist v)) hv.1
  · intro kv hkv
    exact hv.2 kv (List.mem_of_mem_filter hkv)

/-- One turn of the parse loop keeps the map well formed. -/
theorem wf_parsePiece (m : Values) (hm : m.WF) (piece : Bytes) : (parsePiece m piece).WF := by
  unfold parsePiece
  split_ifs
  · exact hm
  · exact hm
  · cases QueryUnescape (cutAt 61 piece).1 with
    | none => exact hm
    | some key =>
      cases QueryUnescape (cutAt 61 piece).2 with
      | none => exact hm
      | some value => exact wf_add m hm key value

/-- What `ParseQuery` returns is well formed. -/
theorem wf_parseQuery (query : Bytes) : (ParseQuery query).WF := by
  unfold ParseQuery
  have h : ∀ (pieces : List Bytes) (m : Values), m.WF → (pieces.foldl parsePiece m).WF := by
    intro pieces
    induction pieces with
    | nil => intro m hm; exact hm
    | cons piece rest ih => intro m hm; exact ih _ (wf_parsePiece m hm piece)
  exact h _ [] ⟨List.nodup_nil, by simp⟩

/-- One turn of the parse loop on an encoded `key=value` piece adds the
pair. -/
theorem parsePiece_encoded (m : Values) (key value : Bytes) :
    parsePiece m (QueryEscape key ++ [61] ++ QueryEscape value) = m.Add key value := by
  have hsemi : (QueryEscape key ++ [61] ++ QueryEscape value).contains 59 = false := by
    rw [Bool.eq_false_iff]
    intro hc
    simp only [List.contains_eq_any_beq, List.any_eq_true, beq_iff_eq, List.mem_append,
      List.mem_singleton] at hc
    obtain ⟨x, hc, rfl⟩ := hc
    rcases hc with (hc | hc) | hc
    · exact (escape_clean key 59 hc).2.2 rfl
    · exact absurd hc (by decide)
    · exact (escape_clean value 59 hc).2.2 rfl
  have hne : ¬ (QueryEscape key ++ [61] ++ QueryEscape value) = [] := by simp
  have hcut : cutAt 61 (QueryEscape key ++ [61] ++ QueryEscape value)
      = (QueryEscape key, QueryEscape value) := by
    rw [List.append_assoc]
    exact cutAt_append 61 _ _ (fun x hx => (escape_clean key x hx).2.1)
  unfold parsePiece
  rw [hsemi, hcut]
  simp only [Bool.false_eq_true, if_false, hne, unescape_escape]

/-- The parse loop over the pieces of one key adds its values in order. -/
theorem foldl_parsePiece_encodeKey (key : Bytes) (vs : List Bytes) :
    ∀ m : Values, (encodeKey key vs).foldl parsePiece m = vs.foldl (fun acc x => acc.Add key x) m := by
  induction vs with
  | nil => intro m; rfl
  | cons x rest ih =>
    intro m
    simp only [encodeKey, List.map_cons, List.foldl_cons] at ih ⊢
    rw [parsePiece_encoded]
    exact ih _

/-- The parse loop over the pieces of a list of keys. -/
theorem foldl_parsePiece_keys (f : Bytes → List Bytes) (ks : List Bytes) :
    ∀ m : Values, (ks.flatMap fun key => encodeKey key (f key)).foldl parsePiece m
      = ks.foldl (fun acc key => (f key).foldl (fun a x => a.Add key x) acc) m := by
  induction ks with
  | nil => intro m; rfl
  | cons key rest ih =>
    intro m
    simp only [List.flatMap_cons, List.foldl_append, List.foldl_cons]
    rw [foldl_parsePiece_encodeKey, ih]

/-- Every piece that `Encode` writes is free of `&`. -/
theorem encodeKey_clean (key : Bytes) (vs : List Bytes) :
    ∀ p ∈ encodeKey key vs, ∀ x ∈ p, x ≠ 38 := by
  intro p hp x hx
  simp only [encodeKey, List.mem_map] at hp
  obtain ⟨value, -, rfl⟩ := hp
  simp only [List.mem_append, List.mem_singleton] at hx
  rcases hx with (hx | hx) | hx
  · exact (escape_clean key x hx).1
  · rw [hx]; decide
  · exact (escape_clean value x hx).1

/-- Parsing the `&`-join of pieces free of `&` runs the loop over the
pieces. -/
theorem parseQuery_joinAmp (pieces : List Bytes) (h : ∀ p ∈ pieces, ∀ x ∈ p, x ≠ 38) :
    ParseQuery (joinAmp pieces) = pieces.foldl parsePiece [] := by
  cases pieces with
  | nil => rfl
  | cons piece rest =>
    unfold ParseQuery
    rw [splitOn_joinAmp piece rest h]

/-- Adding a value under the key of the last entry extends that entry. -/
theorem add_last (acc : Values) (key : Bytes) (before : List Bytes) (x : Bytes)
    (h : key ∉ acc.keys) :
    Values.Add (acc ++ [(key, before)]) key x = acc ++ [(key, before ++ [x])] := by
  have hhas : Values.Has (acc ++ [(key, before)]) key = true := by
    simp [Values.Has]
  have hacc : acc.map (fun kv => if kv.1 == key then (key, kv.2 ++ [x]) else kv) = acc := by
    conv_rhs => rw [← List.map_id acc]
    apply List.map_congr_left
    intro kv hkv
    have : ¬ kv.1 = key := by
      intro hk
      apply h
      simp only [Values.keys, List.mem_map]
      exact ⟨kv, hkv, hk⟩
    simp [this]
  unfold Values.Add
  simp only [hhas, if_true, List.map_append, List.map_cons, List.map_nil, hacc, beq_self_eq_true]

/-- Adding the values of a new key one by one appends its entry. -/
theorem foldl_add_new (acc : Values) (key : Bytes) (vs : List Bytes) (h : key ∉ acc.keys)
    (hvs : vs ≠ []) :
    vs.foldl (fun a x => a.Add key x) acc = acc ++ [(key, vs)] := by
  have hstep : ∀ (rest before : List Bytes),
      rest.foldl (fun a x => a.Add key x) (acc ++ [(key, before)])
        = acc ++ [(key, before ++ rest)] := by
    intro rest
    induction rest with
    | nil => intro before; simp
    | cons x tail ih =>
      intro before
      rw [List.foldl_cons, add_last acc key before x h, ih]
      simp
  cases vs with
  | nil => exact absurd rfl hvs
  | cons x rest =>
    have hfirst : acc.Add key x = acc ++ [(key, [x])] := by
      have hhas : ¬ acc.Has key = true := fun hh => h ((has_iff_mem_keys acc key).mp hh)
      simp [Values.Add, hhas]
    rw [List.foldl_cons, hfirst, hstep]
    simp

/-- Adding the values of a list of new, distinct keys appends their
entries in order. -/
theorem foldl_add_keys (f : Bytes → List Bytes) (ks : List Bytes) :
    ∀ acc : Values, ks.Nodup → (∀ key ∈ ks, key ∉ acc.keys) → (∀ key ∈ ks, f key ≠ []) →
      ks.foldl (fun a key => (f key).foldl (fun b x => b.Add key x) a) acc
        = acc ++ ks.map fun key => (key, f key) := by
  induction ks with
  | nil => intro acc _ _ _; simp
  | cons key rest ih =>
    intro acc hnd hnew hne
    have hkey : key ∉ acc.keys := hnew key (List.mem_cons_self _ _)
    rw [List.foldl_cons, foldl_add_new acc key (f key) hkey (hne key (List.mem_cons_self _ _))]
    rw [ih _ (List.nodup_cons.mp hnd).2 ?_ (fun k hk => hne k (List.mem_cons_of_mem _ hk))]
    · simp
    · intro k hk hmem
      simp only [Values.keys, List.map_append, List.map_cons, List.map_nil, List.mem_append,
        List.mem_singleton] at hmem
      rcases hmem with hmem | rfl
      · exact hnew k (List.mem_cons_of_mem _ hk) hmem
      · exact (List.nodup_cons.mp hnd).1 hk

/-- The numbers of two byte texts agree only if the texts agree. -/
theorem map_toNat_injective (a b : Bytes) (h : a.map UInt8.toNat = b.map UInt8.toNat) : a = b := by
  induction a generalizing b with
  | nil =>
    cases b with
    | nil => rfl
    | cons y ys => simp at h
  | cons x xs ih =>
    cases b with
    | nil => simp at h
    | cons y ys =>
      simp only [List.map_cons, List.cons.injEq] at h
      have hxy : x = y := by
        rw [← byte_ofNat_toNat x, ← byte_ofNat_toNat y, h.1]
      rw [hxy, ih ys h.2]

/-- The order of Go strings is total. -/
theorem keyLE_total : IsTotal Bytes keyLE :=
  ⟨fun a b => le_total (a.map UInt8.toNat) (b.map UInt8.toNat)⟩

/-- The order of Go strings is transitive. -/
theorem keyLE_trans : IsTrans Bytes keyLE :=
  ⟨fun a _ c hab hbc =>
    (le_trans hab hbc : a.map UInt8.toNat ≤ c.map UInt8.toNat)⟩

/-- Two Go strings that are below each other are equal. -/
theorem keyLE_antisymm : IsAntisymm Bytes keyLE :=
  ⟨fun a b hab hba =>
    map_toNat_injective a b
      (le_antisymm (hab : a.map UInt8.toNat ≤ b.map UInt8.toNat)
        (hba : b.map UInt8.toNat ≤ a.map UInt8.toNat))⟩

/-- The sorted keys are the keys in another order. -/
theorem sortedKeys_perm (v : Values) : v.sortedKeys.Perm v.keys :=
  List.perm_insertionSort keyLE _

/-- Membership in the sorted keys. -/
theorem mem_sortedKeys (v : Values) (key : Bytes) : key ∈ v.sortedKeys ↔ key ∈ v.keys :=
  (sortedKeys_perm v).mem_iff

/-- Parsing what `Encode` writes for a well-formed map gives the map in the
order of its sorted keys. -/
theorem parseQuery_encode (v : Values) (hv : v.WF) : ParseQuery v.Encode = v.canonical := by
  unfold Values.Encode
  rw [parseQuery_joinAmp]
  · rw [foldl_parsePiece_keys v.values v.sortedKeys []]
    rw [foldl_add_keys v.values v.sortedKeys [] ((sortedKeys_perm v).nodup_iff.mpr hv.1)
      (by intro key _ h; simp [Values.keys] at h)
      (by intro key hk; exact values_ne_nil_of_mem v hv key ((mem_sortedKeys v key).mp hk))]
    simp [Values.canonical]
  · intro p hp
    simp only [List.mem_flatMap] at hp
    obtain ⟨key, -, hp⟩ := hp
    exact encodeKey_clean key _ p hp

/-- Indexing a list of entries built from a list of keys. -/
theorem values_map_keys (f : Bytes → List Bytes) (ks : List Bytes) (key : Bytes) :
    Values.values (ks.map fun k => (k, f k)) key = if key ∈ ks then f key else [] := by
  induction ks with
  | nil => simp [Values.values]
  | cons k rest ih =>
    simp only [Values.values] at ih ⊢
    by_cases hk : k = key
    · subst hk
      simp [List.find?_cons]
    · have h1 : (k == key) = false := by simpa using hk
      have h2 : ¬ key = k := fun h => hk h.symm
      simp only [List.map_cons, List.find?_cons, h1, List.mem_cons, h2, false_or]
      exact ih

/-- The map in sorted order indexes as the map does. -/
theorem values_canonical (v : Values) (key : Bytes) : v.canonical.values key = v.values key := by
  unfold Values.canonical
  rw [values_map_keys]
  by_cases hk : key ∈ v.sortedKeys
  · simp [hk]
  · have : key ∉ v.keys := fun h => hk ((mem_sortedKeys v key).mpr h)
    simp [hk, values_of_not_mem v key this]

/-- A query read back indexes as the map it was encoded from. -/
theorem values_parseQuery_encode (v : Values) (hv : v.WF) (key : Bytes) :
    (ParseQuery v.Encode).values key = v.values key := by
  rw [parseQuery_encode v hv, values_canonical]

/-- Two well-formed maps that index alike have the same sorted keys. -/
theorem sortedKeys_congr (v w : Values) (hv : v.WF) (hw : w.WF)
    (h : ∀ key, v.values key = w.values key) : v.sortedKeys = w.sortedKeys := by
  have hperm : v.keys.Perm w.keys := by
    rw [List.perm_ext_iff_of_nodup hv.1 hw.1]
    intro key
    rw [mem_keys_iff_values_ne_nil v hv, mem_keys_iff_values_ne_nil w hw, h key]
  haveI := keyLE_total
  haveI := keyLE_trans
  haveI := keyLE_antisymm
  have hsorted : ∀ u : Values, List.Sorted keyLE u.sortedKeys :=
    fun u => List.sorted_insertionSort keyLE _
  exact List.eq_of_perm_of_sorted
    (((sortedKeys_perm v).trans hperm).trans (sortedKeys_perm w).symm) (hsorted v) (hsorted w)

/-- Two well-formed maps that index alike encode alike. -/
theorem encode_congr (v w : Values) (hv : v.WF) (hw : w.WF)
    (h : ∀ key, v.values key = w.values key) : v.Encode = w.Encode := by
  unfold Values.Encode
  rw [sortedKeys_congr v w hv hw h]
  congr 1
  apply List.flatMap_congr
  intro key _
  rw [h key]

/-- The raw query that `SetQueryParam` leaves. -/
theorem setQueryParam_rawQuery {T : Type} (r : Request T) (param value : Bytes) :
    (r.SetQueryParam param value).innerRequest.URL.RawQuery
      = ((ParseQuery r.innerRequest.URL.RawQuery).setOrDel param value).Encode := by
  unfold Request.SetQueryParam Values.setOrDel URL.Query
  rfl

/-- `SetQueryParam` changes the raw query and nothing else. -/
theorem setQueryParam_eq {T : Type} (r : Request T) (param value : Bytes) :
    r.SetQueryParam param value
      = { r with innerRequest := { r.innerRequest with URL := { r.innerRequest.URL with
          RawQuery := ((ParseQuery r.innerRequest.URL.RawQuery).setOrDel param value).Encode } } } := by
  unfold Request.SetQueryParam Values.setOrDel URL.Query
  rfl

/-- The map `SetQueryParam` encodes is well formed when the map it starts
from is. -/
theorem wf_setOrDel (m : Values) (hm : m.WF) (param value : Bytes) :
    (m.setOrDel param value).WF := by
  unfold Values.setOrDel
  split_ifs
  · exact wf_del m hm param
  · exact wf_set m hm param value

/-- Indexing the map `SetQueryParam` encodes. -/
theorem values_setOrDel (m : Values) (param value key : Bytes) :
    (m.setOrDel param value).values key
      = if key = param then (if value = [] then [] else [value]) else m.values key := by
  unfold Values.setOrDel
  by_cases hv : value = []
  · simp only [hv, if_true]
    exact values_del m param key
  · simp only [hv, if_false]
    exact values_set m param value key

/-- Maps that index alike lead `SetQueryParam` to the same raw query. -/
theorem encode_setOrDel_congr (m w : Values) (hm : m.WF) (hw : w.WF)
    (h : ∀ key, m.values key = w.values key) (param value : Bytes) :
    (m.setOrDel param value).Encode = (w.setOrDel param value).Encode := by
  apply encode_congr _ _ (wf_setOrDel m hm param value) (wf_setOrDel w hw param value)
  intro key
  rw [values_setOrDel, values_setOrDel, h key]

/-- The query of a request after `SetQueryParam`, key by key. -/
theorem query_values_setQueryParam {T : Type} (r : Request T) (param value key : Bytes) :
    (r.SetQueryParam param value).innerRequest.URL.Query.values key
      = if key = param then (if value = [] then [] else [value])
        else r.innerRequest.URL.Query.values key := by
  unfold URL.Query
  rw [setQueryParam_rawQuery,
    values_parseQuery_encode _ (wf_setOrDel _ (wf_parseQuery _) param value), values_setOrDel]

/-- The raw query after two `SetQueryParam` calls is the encoding of the
map of the request after both changes. -/
theorem rawQuery_two_calls {T : Type} (r : Request T) (k1 v1 k2 v2 : Bytes) :
    ((r.SetQueryParam k1 v1).SetQueryParam k2 v2).innerRequest.URL.RawQuery
      = (((ParseQuery r.innerRequest.URL.RawQuery).setOrDel k1 v1).setOrDel k2 v2).Encode := by
  rw [setQueryParam_rawQuery, setQueryParam_rawQuery]
  apply encode_setOrDel_congr _ _ (wf_parseQuery _) (wf_setOrDel _ (wf_parseQuery _) k1 v1)
  intro key
  exact values_parseQuery_encode _ (wf_setOrDel _ (wf_parseQuery _) k1 v1) key

/-- Two requests that differ in the raw query at most are equal when their
raw queries are. -/
theorem request_eq_of_rawQuery {T : Type} (r : Request T) (q1 q2 : Bytes) (h : q1 = q2) :
    ({ r with innerRequest := { r.innerRequest with URL := { r.innerRequest.URL with
        RawQuery := q1 } } } : Request T)
      = { r with innerRequest := { r.innerRequest with URL := { r.innerRequest.URL with
        RawQuery := q2 } } } := by
  rw [h]

/-- Two `SetQueryParam` calls leave the request as the start request with
the raw query replaced. -/
theorem setQueryParam_twice_eq {T : Type} (r : Request T) (k1 v1 k2 v2 : Bytes) :
    (r.SetQueryParam k1 v1).SetQueryParam k2 v2
      = { r with innerRequest := { r.innerRequest with URL := { r.innerRequest.URL with
          RawQuery :=
            (((ParseQuery r.innerRequest.URL.RawQuery).setOrDel k1 v1).setOrDel k2 v2).Encode } } } := by
  have h := rawQuery_two_calls r k1 v1 k2 v2
  rw [setQueryParam_eq (r.SetQueryParam k1 v1) k2 v2] at h ⊢
  simp only at h
  rw [h]
  rw [setQueryParam_eq r k1 v1]

/-- `SetQueryParam` calls on distinct keys commute. -/
theorem setQueryParam_comm {T : Type} (r : Request T) (k1 v1 k2 v2 : Bytes) (hk : k1 ≠ k2) :
    (r.SetQueryParam k1 v1).SetQueryParam k2 v2 = (r.SetQueryParam k2 v2).SetQueryParam k1 v1 := by
  rw [setQueryParam_twice_eq, setQueryParam_twice_eq]
  apply request_eq_of_rawQuery
  apply encode_congr
  · exact wf_setOrDel _ (wf_setOrDel _ (wf_parseQuery _) k1 v1) k2 v2
  · exact wf_setOrDel _ (wf_setOrDel _ (wf_parseQuery _) k2 v2) k1 v1
  · intro key
    simp only [values_setOrDel]
    by_cases h1 : key = k1
    · have h2 : ¬ key = k2 := fun h => hk (h1 ▸ h)
      simp [h1, h2, hk]
    · simp [h1]

/-- A second `SetQueryParam` on the same key overrides the first. -/
theorem setQueryParam_same_key {T : Type} (r : Request T) (k v1 v2 : Bytes) :
    (r.SetQueryParam k v1).SetQueryParam k v2 = r.SetQueryParam k v2 := by
  rw [setQueryParam_twice_eq, setQueryParam_eq r k v2]
  apply request_eq_of_rawQuery
  apply encode_congr
  · exact wf_setOrDel _ (wf_setOrDel _ (wf_parseQuery _) k v1) k v2
  · exact wf_setOrDel _ (wf_parseQuery _) k v2
  · intro key
    simp only [values_setOrDel]
    by_cases h1 : key = k <;> simp [h1]

/-- Claim C14. After `SetQueryParam(k, v)` followed by `SetQueryParam(k, "")`
the query of the request URL has no parameter `k` (`Has` is false and the
values under `k` are none), every other parameter holds the values it held
in the query of the request before the two calls, scheme, host and path
are unchanged, and the request is the one that `SetQueryParam(k, "")`
alone leaves. For a non-empty `v` the query between the two calls holds
`k` with the single value `v`. -/
theorem C14_empty_value_removes_the_param {T : Type} (r : Request T) (k v : Bytes) :
    (v ≠ [] → (r.SetQueryParam k v).innerRequest.URL.Query.values k = [v]) ∧
    ((r.SetQueryParam k v).SetQueryParam k []).innerRequest.URL.Query.Has k = false ∧
    ((r.SetQueryParam k v).SetQueryParam k []).innerRequest.URL.Query.values k = [] ∧
    (∀ key, key ≠ k →
      ((r.SetQueryParam k v).SetQueryParam k []).innerRequest.URL.Query.values key
        = r.innerRequest.URL.Query.values key) ∧
    (r.SetQueryParam k v).SetQueryParam k [] = r.SetQueryParam k [] ∧
    ((r.SetQueryParam k v).SetQueryParam k []).innerRequest.URL.Scheme
      = r.innerRequest.URL.Scheme ∧
    ((r.SetQueryParam k v).SetQueryParam k []).innerRequest.URL.Host
      = r.innerRequest.URL.Host ∧
    ((r.SetQueryParam k v).SetQueryParam k []).innerRequest.URL.Path
      = r.innerRequest.URL.Path := by
  have hvals : ((r.SetQueryParam k v).SetQueryParam k []).innerRequest.URL.Query.values k = [] := by
    rw [query_values_setQueryParam]
    simp
  refine ⟨?_, ?_, hvals, ?_, setQueryParam_same_key r k v [], ?_, ?_, ?_⟩
  · intro hv
    rw [query_values_setQueryParam]
    simp [hv]
  · rw [Bool.eq_false_iff]
    intro hhas
    have hmem := (has_iff_mem_keys _ k).mp hhas
    exact values_ne_nil_of_mem _ (wf_parseQuery _) k hmem hvals
  · intro key hkey
    rw [query_values_setQueryParam, query_values_setQueryParam]
    simp [hkey]
  · rw [setQueryParam_twice_eq]
  · rw [setQueryParam_twice_eq]
  · rw [setQueryParam_twice_eq]

/-- Witness for C14: on the query `a=1&k=old`, setting `k` to `v` and then
to the empty value; `a` keeps its value. -/
theorem C14_empty_value_removes_the_param_witness :
    ((((Request.mk { retryablehttpNewRequest with
          URL := { retryablehttpNewRequest.URL with RawQuery := bytesOfString "a=1&k=old" } }
        (none : Option Unit) none).SetQueryParam (bytesOfString "k")
          (bytesOfString "v")).SetQueryParam (bytesOfString "k")
          []).innerRequest.URL.Query.values (bytesOfString "a"))
      = (Request.mk { retryablehttpNewRequest with
          URL := { retryablehttpNewRequest.URL with RawQuery := bytesOfString "a=1&k=old" } }
        (none : Option Unit) none).innerRequest.URL.Query.values (bytesOfString "a") :=
  (C14_empty_value_removes_the_param
    (Request.mk { retryablehttpNewRequest with
        URL := { retryablehttpNewRequest.URL with RawQuery := bytesOfString "a=1&k=old" } }
      (none : Option Unit) none) (bytesOfString "k") (bytesOfString "v")).2.2.2.1
    (bytesOfString "a") (by decide)

/-- Claim C15. Last write wins for a repeated key. `SetQueryParam(k, v1)` then
`SetQueryParam(k, v2)` with a non-empty `v2` leaves `k` with the single
value `v2` in the query, and the request that `SetQueryParam(k, v2)` alone
leaves. `SetHeader(key, w1)` then `SetHeader(key, w2)` leaves the header
`key` with the single value `w2`. A request from `NewRequest` holds
`application/json` under `Content-Type`, and `SetHeader("Content-Type", w)`
replaces it by the single value `w`. -/
theorem C15_last_write_wins {σ T : Type} (r : Request T) (k v1 v2 : Bytes)
    (key w1 w2 w : String) (client : HttpClient σ) (newReq : RequestRef) (hv2 : v2 ≠ []) :
    ((r.SetQueryParam k v1).SetQueryParam k v2).innerRequest.URL.Query.values k = [v2] ∧
    (r.SetQueryParam k v1).SetQueryParam k v2 = r.SetQueryParam k v2 ∧
    ((r.SetHeader key w1).SetHeader key w2).innerRequest.Header.Values key = [w2] ∧
    (NewRequest client newReq : Request T × HttpClient σ).1.innerRequest.Header.Values
        "Content-Type" = ["application/json"] ∧
    ((NewRequest client newReq : Request T × HttpClient σ).1.SetHeader "Content-Type"
        w).innerRequest.Header.Values "Content-Type" = [w] := by
  refine ⟨?_, setQueryParam_same_key r k v1 v2, ?_, ?_, ?_⟩
  · rw [query_values_setQueryParam]
    simp [hv2]
  · exact header_values_set_same _ key key w2 rfl
  · exact header_values_set_same ([] : Header) "Content-Type" "Content-Type"
      "application/json" rfl
  · exact header_values_set_same
      (NewRequest client newReq : Request T × HttpClient σ).1.innerRequest.Header
      "Content-Type" "Content-Type" w rfl

/-- Witness for C15: `k` set to `1` and then to `2` on a fresh request. -/
theorem C15_last_write_wins_witness :
    (((NewRequest (HttpClient.mk ⟨false, none, false⟩ [] : HttpClient Unit) 1 :
        Request Unit × HttpClient Unit).1.SetQueryParam (bytesOfString "k")
        (bytesOfString "1")).SetQueryParam (bytesOfString "k")
        (bytesOfString "2")).innerRequest.URL.Query.values (bytesOfString "k")
      = [bytesOfString "2"] :=
  (C15_last_write_wins
    (NewRequest (HttpClient.mk ⟨false, none, false⟩ [] : HttpClient Unit) 1 :
      Request Unit × HttpClient Unit).1
    (bytesOfString "k") (bytesOfString "1") (bytesOfString "2") "Accept" "a" "b" "text/plain"
    (HttpClient.mk ⟨false, none, false⟩ [] : HttpClient Unit) 1 (by decide)).1

/-- Claim C16. `SetQueryParam` calls on distinct keys commute: for `k1` other
than `k2` and any values, also empty ones, both orders leave the same
request and so the same raw query. Hence `SetQueryParams` leaves the same
request, and the same raw query, for every order in which the `range` loop
visits the entries of a map (entries with distinct keys, listed in any two
orders). -/
theorem C16_set_query_param_commutes {T : Type} (r : Request T) (k1 v1 k2 v2 : Bytes)
    (params1 params2 : List (Bytes × Bytes)) (hk : k1 ≠ k2)
    (hkeys : (params1.map fun kv => kv.1).Nodup) (hperm : params1.Perm params2) :
    ((r.SetQueryParam k1 v1).SetQueryParam k2 v2).innerRequest.URL.RawQuery
      = ((r.SetQueryParam k2 v2).SetQueryParam k1 v1).innerRequest.URL.RawQuery ∧
    (r.SetQueryParam k1 v1).SetQueryParam k2 v2 = (r.SetQueryParam k2 v2).SetQueryParam k1 v1 ∧
    (r.SetQueryParams params1).innerRequest.URL.RawQuery
      = (r.SetQueryParams params2).innerRequest.URL.RawQuery ∧
    r.SetQueryParams params1 = r.SetQueryParams params2 := by
  have hcomm := setQueryParam_comm r k1 v1 k2 v2 hk
  have hall : r.SetQueryParams params1 = r.SetQueryParams params2 := by
    unfold Request.SetQueryParams
    apply List.Perm.foldl_eq' hperm
    intro x hx y hy z
    by_cases hxy : x = y
    · rw [hxy]
    · have hne : x.1 ≠ y.1 := by
        intro h
        exact hxy (List.inj_on_of_nodup_map hkeys hx hy h)
      exact setQueryParam_comm z x.1 x.2 y.1 y.2 hne
  exact ⟨by rw [hcomm], hcomm, by rw [hall], hall⟩

/-- Witness for C16: `a=1` and `b=2` set in both orders on a fresh
request. -/
theorem C16_set_query_param_commutes_witness :
    ((Request.mk retryablehttpNewRequest (none : Option Unit) none).SetQueryParams
        [(bytesOfString "a", bytesOfString "1"), (bytesOfString "b", bytesOfString "2")])
      = (Request.mk retryablehttpNewRequest (none : Option Unit) none).SetQueryParams
        [(bytesOfString "b", bytesOfString "2"), (bytesOfString "a", bytesOfString "1")] :=
  (C16_set_query_param_commutes
    (Request.mk retryablehttpNewRequest (none : Option Unit) none)
    (bytesOfString "a") (bytesOfString "1") (bytesOfString "b") (bytesOfString "2")
    [(bytesOfString "a", bytesOfString "1"), (bytesOfString "b", bytesOfString "2")]
    [(bytesOfString "b", bytesOfString "2"), (bytesOfString "a", bytesOfString "1")]
    (by decide) (by decide) (List.Perm.swap _ _ _)).2.2.2

set_option maxRecDepth 100000 in
/-- The two shapes of a byte escaped for a path, and what each unescapes
to; neither holds a slash that was not there. -/
theorem escapePathByte_shape (c : UInt8) :
    (c ≠ 37 ∧ escapePathByte c = [c]) ∨
    (c ≠ 47 ∧ c ≠ 46 ∧ escapePathByte c = [37, upperhex (c >>> 4), upperhex (c &&& 15)] ∧
      (ishex (upperhex (c >>> 4)) && ishex (upperhex (c &&& 15))) = true ∧
      unhex (upperhex (c >>> 4)) <<< 4 ||| unhex (upperhex (c &&& 15)) = c ∧
      upperhex (c >>> 4) ≠ 47 ∧ upperhex (c &&& 15) ≠ 47) := by
  revert c
  apply byte_cases
  decide

theorem escapePath_nil : escapePath [] = [] := rfl

theorem escapePath_cons (c : UInt8) (rest : Bytes) :
    escapePath (c :: rest) = escapePathByte c ++ escapePath rest := by
  simp [escapePath]

theorem escapePath_append (a b : Bytes) : escapePath (a ++ b) = escapePath a ++ escapePath b := by
  simp [escapePath]

/-- Unescaping a path steps over a byte that is not `%`. -/
theorem unescapePath_cons_plain (c : UInt8) (rest : Bytes) (h : c ≠ 37) :
    unescapePath (c :: rest) = (unescapePath rest).map fun tail => c :: tail := by
  cases rest with
  | nil => simp [unescapePath, h]
  | cons a rest =>
    rw [unescapePath.eq_def]
    simp [h]

/-- Unescaping a path turns `%` and two hex digits into the byte they name. -/
theorem unescapePath_cons_percent (a b : UInt8) (rest : Bytes)
    (h : (ishex a && ishex b) = true) :
    unescapePath (37 :: a :: b :: rest)
      = (unescapePath rest).map fun tail => (unhex a <<< 4 ||| unhex b) :: tail := by
  simp [unescapePath, h]

theorem unescapePath_escapeByte_append (c : UInt8) (rest : Bytes) :
    unescapePath (escapePathByte c ++ rest) = (unescapePath rest).map fun tail => c :: tail := by
  rcases escapePathByte_shape c with ⟨h1, he⟩ | ⟨_, _, he, hhex, hval, _, _⟩
  · rw [he]; exact unescapePath_cons_plain c rest h1
  · rw [he]
    have := unescapePath_cons_percent _ _ rest hhex
    rw [hval] at this
    exact this

/-- Unescaping a path undoes the escaping of a prefix. -/
theorem unescapePath_escape_append (a rest : Bytes) :
    unescapePath (escapePath a ++ rest) = (unescapePath rest).map fun tail => a ++ tail := by
  induction a with
  | nil => simp [escapePath]
  | cons c a ih =>
    rw [escapePath_cons, List.append_assoc, unescapePath_escapeByte_append, ih]
    cases unescapePath rest <;> simp

/-- A text without `%` unescapes to itself. -/
theorem unescapePath_plain (t : Bytes) (h : 37 ∉ t) : unescapePath t = some t := by
  induction t with
  | nil => rfl
  | cons c rest ih =>
    have hc : c ≠ 37 := fun e => h (e ▸ List.mem_cons_self _ _)
    have hrest : 37 ∉ rest := fun hm => h (List.mem_cons_of_mem _ hm)
    rw [unescapePath_cons_plain c rest hc, ih hrest]
    rfl

theorem joinSlash_cons (e : Bytes) (rest : List Bytes) (h : rest ≠ []) :
    joinSlash (e :: rest) = e ++ [47] ++ joinSlash rest := by
  cases rest with
  | nil => exact absurd rfl h
  | cons x xs => rfl

theorem joinSlash_append (a b : List Bytes) (ha : a ≠ []) (hb : b ≠ []) :
    joinSlash (a ++ b) = joinSlash a ++ [47] ++ joinSlash b := by
  induction a with
  | nil => exact absurd rfl ha
  | cons e rest ih =>
    cases rest with
    | nil =>
      rw [List.singleton_append, joinSlash_cons e b hb]
      rfl
    | cons x xs =>
      have h1 : joinSlash ((e :: x :: xs) ++ b) = e ++ [47] ++ joinSlash ((x :: xs) ++ b) :=
        joinSlash_cons e _ (by simp)
      rw [h1, ih (by simp), joinSlash_cons e (x :: xs) (by simp)]
      simp [List.append_assoc]

theorem escapePath_joinSlash (es : List Bytes) :
    escapePath (joinSlash es) = joinSlash (es.map escapePath) := by
  induction es with
  | nil => rfl
  | cons e rest ih =>
    cases rest with
    | nil => rfl
    | cons x xs =>
      rw [joinSlash_cons e (x :: xs) (by simp), escapePath_append, escapePath_append, ih]
      have : escapePath [47] = [47] := by decide
      rw [this]
      rfl

/-- The copying loop of `path.Clean` copies an element up to the end. -/
theorem cleanLoop_copy_end (rooted : Bool) (e : Bytes) (h : 47 ∉ e) :
    ∀ (out : Bytes) (dotdot : Nat), cleanLoop rooted true e out dotdot = out ++ e := by
  induction e with
  | nil => intro out dotdot; simp [cleanLoop]
  | cons c rest ih =>
    intro out dotdot
    have hc : c ≠ 47 := fun e => h (e ▸ List.mem_cons_self _ _)
    have hrest : 47 ∉ rest := fun hm => h (List.mem_cons_of_mem _ hm)
    rw [cleanLoop, if_neg hc, ih hrest]
    simp

/-- The copying loop of `path.Clean` copies an element up to the next slash
and the main loop steps over that slash. -/
theorem cleanLoop_copy_slash (rooted : Bool) (e rest : Bytes) (h : 47 ∉ e) :
    ∀ (out : Bytes) (dotdot : Nat),
      cleanLoop rooted true (e ++ 47 :: rest) out dotdot
        = cleanLoop rooted false rest (out ++ e) dotdot := by
  induction e with
  | nil => intro out dotdot; simp [cleanLoop]
  | cons c tail ih =>
    intro out dotdot
    have hc : c ≠ 47 := fun e => h (e ▸ List.mem_cons_self _ _)
    have htail : 47 ∉ tail := fun hm => h (List.mem_cons_of_mem _ hm)
    rw [List.cons_append, cleanLoop, if_neg hc, ih htail]
    simp

/-- On a plain element the main loop of `path.Clean`, for a rooted path,
writes a slash unless the output is the leading slash, and starts to copy
the element. -/
theorem cleanLoop_plain_start (c : UInt8) (e tail out : Bytes) (dotdot : Nat)
    (hplain : plainElement (c :: e)) (htail : tail = [] ∨ tail.head? = some 47) :
    cleanLoop true false (c :: e ++ tail) out dotdot
      = cleanLoop true true (e ++ tail)
          ((if out.length != 1 then out ++ [47] else out) ++ [c]) dotdot := by
  obtain ⟨_, hslash, hdot, hdotdot⟩ := hplain
  have hc : c ≠ 47 := fun h => hslash (h ▸ List.mem_cons_self _ _)
  cases e with
  | nil =>
    have hc46 : c ≠ 46 := fun h => hdot (by rw [h])
    cases tail with
    | nil => simp [cleanLoop, hc, hc46]
    | cons d rest =>
      have hd : d = 47 := by
        rcases htail with h | h
        · exact absurd h (by simp)
        · simpa using h
      subst hd
      simp [cleanLoop, hc, hc46]
  | cons d e2 =>
    have hd : d ≠ 47 := fun h => hslash (h ▸ List.mem_cons_of_mem _ (List.mem_cons_self _ _))
    have hnot : ¬ (c = 46 ∧ d = 46 ∧ (e2 ++ tail = [] ∨ (e2 ++ tail).head? = some 47)) := by
      rintro ⟨h1, h2, h3⟩
      subst h1 h2
      cases e2 with
      | nil => exact hdotdot rfl
      | cons x xs =>
        have hx : x ≠ 47 := fun h =>
          hslash (h ▸ List.mem_cons_of_mem _ (List.mem_cons_of_mem _ (List.mem_cons_self _ _)))
        rcases h3 with h | h
        · simp at h
        · simp at h
          exact hx h
    simp only [List.cons_append]
    conv_lhs => rw [cleanLoop]
    rw [if_neg hc, if_neg (fun h => hd h.2), if_neg hnot]
    simp

/-- The loop of `path.Clean`, for a rooted path, over plain elements joined
with slashes: they are written as they are, after a slash unless the
output is the leading slash. -/
theorem cleanLoop_plain_elements (es : List Bytes) :
    es ≠ [] → (∀ e ∈ es, plainElement e) → ∀ (out : Bytes) (dotdot : Nat),
      cleanLoop true false (joinSlash es) out dotdot
        = (if out.length != 1 then out ++ [47] else out) ++ joinSlash es := by
  induction es with
  | nil => intro h; exact absurd rfl h
  | cons e rest ih =>
    intro _ hall out dotdot
    have he : plainElement e := hall e (List.mem_cons_self _ _)
    have hrest : ∀ x ∈ rest, plainElement x := fun x hx => hall x (List.mem_cons_of_mem _ hx)
    cases e with
    | nil => exact absurd rfl he.1
    | cons c e1 =>
      have hslash : 47 ∉ e1 := fun hm => he.2.1 (List.mem_cons_of_mem _ hm)
      cases rest with
      | nil =>
        have h := cleanLoop_plain_start c e1 [] out dotdot he (Or.inl rfl)
        simp only [List.append_nil] at h
        rw [joinSlash, h, cleanLoop_copy_end true e1 hslash]
        simp
      | cons x xs =>
        have h := cleanLoop_plain_start c e1 (47 :: joinSlash (x :: xs)) out dotdot he
          (Or.inr rfl)
        rw [joinSlash_cons (c :: e1) (x :: xs) (by simp)]
        have hshape : (c :: e1) ++ [47] ++ joinSlash (x :: xs)
            = c :: e1 ++ 47 :: joinSlash (x :: xs) := by simp
        rw [hshape, h, cleanLoop_copy_slash true e1 _ hslash, ih (by simp) hrest]
        have hlen : (((if out.length != 1 then out ++ [47] else out) ++ [c]) ++ e1).length ≠ 1 := by
          split_ifs with hl
          · simp only [List.length_append, List.length_singleton]
            omega
          · simp only [bne_iff_ne, ne_eq, not_not] at hl
            simp only [List.length_append, List.length_singleton, hl]
            omega
        have hb : ((((if out.length != 1 then out ++ [47] else out) ++ [c]) ++ e1).length != 1)
            = true := by simpa using hlen
        rw [if_pos hb]
        simp

theorem escapePathByte_ne_nil (c : UInt8) : escapePathByte c ≠ [] := by
  rcases escapePathByte_shape c with ⟨_, he⟩ | ⟨_, _, he, _⟩ <;> rw [he] <;> simp

theorem unescapePath_escapePath (e : Bytes) : unescapePath (escapePath e) = some e := by
  have h := unescapePath_escape_append e []
  simpa [unescapePath] using h

/-- A plain path element stays plain when it is escaped. -/
theorem plainElement_escapePath (e : Bytes) (h : plainElement e) :
    plainElement (escapePath e) := by
  obtain ⟨hne, hslash, hdot, hdotdot⟩ := h
  refine ⟨?_, ?_, ?_, ?_⟩
  · cases e with
    | nil => exact absurd rfl hne
    | cons c rest =>
      rw [escapePath_cons]
      intro h
      exact escapePathByte_ne_nil c (List.append_eq_nil.mp h).1
  · clear hne hdot hdotdot
    induction e with
    | nil => simp [escapePath]
    | cons c rest ih =>
      have hc : c ≠ 47 := fun h => hslash (h ▸ List.mem_cons_self _ _)
      have hrest : 47 ∉ rest := fun hm => hslash (List.mem_cons_of_mem _ hm)
      rw [escapePath_cons, List.mem_append]
      rintro (hm | hm)
      · rcases escapePathByte_shape c with ⟨_, he⟩ | ⟨_, _, he, _, _, h1, h2⟩
        · rw [he] at hm
          simp only [List.mem_singleton] at hm
          exact hc hm.symm
        · rw [he] at hm
          simp only [List.mem_cons, List.mem_singleton, List.not_mem_nil, or_false] at hm
          rcases hm with hm | hm | hm
          · exact absurd hm (by decide)
          · exact h1 hm.symm
          · exact h2 hm.symm
      · exact ih hrest hm
  · intro h
    have h1 := unescapePath_escapePath e
    rw [h] at h1
    exact hdot (Option.some.inj h1).symm
  · intro h
    have h1 := unescapePath_escapePath e
    rw [h] at h1
    exact hdotdot (Option.some.inj h1).symm

/-- The main loop of `path.Clean` steps over a slash. -/
theorem cleanLoop_slash (rooted : Bool) (rest out : Bytes) (dotdot : Nat) :
    cleanLoop rooted false (47 :: rest) out dotdot = cleanLoop rooted false rest out dotdot := by
  cases rest with
  | nil => simp [cleanLoop]
  | cons d rest => conv_lhs => rw [cleanLoop]; simp

theorem joinSlash_ne_nil (es : List Bytes) (hne : es ≠ []) (h : ∀ e ∈ es, e ≠ []) :
    joinSlash es ≠ [] := by
  cases es with
  | nil => exact absurd rfl hne
  | cons e rest =>
    have he := h e (List.mem_cons_self _ _)
    cases rest with
    | nil => exact he
    | cons x xs =>
      rw [joinSlash_cons e (x :: xs) (by simp)]
      simp [he]

theorem not_mem_joinSlash (b : UInt8) (hb : b ≠ 47) (es : List Bytes) (h : ∀ e ∈ es, b ∉ e) :
    b ∉ joinSlash es := by
  induction es with
  | nil => simp [joinSlash]
  | cons e rest ih =>
    have he := h e (List.mem_cons_self _ _)
    have hrest : ∀ x ∈ rest, b ∉ x := fun x hx => h x (List.mem_cons_of_mem _ hx)
    cases rest with
    | nil => exact he
    | cons x xs =>
      rw [joinSlash_cons e (x :: xs) (by simp)]
      simp only [List.mem_append, List.mem_singleton, not_or]
      exact ⟨⟨he, hb⟩, ih hrest⟩

theorem getLast_joinSlash (es : List Bytes) (hne : es ≠ [])
    (h : ∀ e ∈ es, e ≠ [] ∧ 47 ∉ e) : (joinSlash es).getLast? ≠ some 47 := by
  induction es with
  | nil => exact absurd rfl hne
  | cons e rest ih =>
    have he := h e (List.mem_cons_self _ _)
    have hrest : ∀ x ∈ rest, x ≠ [] ∧ 47 ∉ x := fun x hx => h x (List.mem_cons_of_mem _ hx)
    cases rest with
    | nil =>
      intro hl
      have hmem : (47 : UInt8) ∈ e := List.mem_of_getLast?_eq_some hl
      exact he.2 hmem
    | cons x xs =>
      rw [joinSlash_cons e (x :: xs) (by simp)]
      have hj := joinSlash_ne_nil (x :: xs) (by simp) (fun y hy => (hrest y hy).1)
      rw [List.getLast?_append_of_ne_nil _ hj]
      exact ih (by simp) hrest

/-- What `path.Clean` makes of a slash, plain elements joined with slashes,
one more slash and further plain elements: the elements joined with
slashes after the leading slash. -/
theorem clean_rooted_plain (first second : List Bytes) (hsecond : second ≠ [])
    (h1 : ∀ e ∈ first, plainElement e) (h2 : ∀ e ∈ second, plainElement e) :
    path.Clean (47 :: joinSlash first ++ [47] ++ joinSlash second)
      = 47 :: joinSlash (first ++ second) := by
  have hloop : cleanLoop true false (joinSlash first ++ [47] ++ joinSlash second) [47] 1
      = 47 :: joinSlash (first ++ second) := by
    cases first with
    | nil =>
      have h := cleanLoop_plain_elements second hsecond h2 [47] 1
      simp only [joinSlash, List.nil_append, List.singleton_append]
      rw [cleanLoop_slash, h]
      rfl
    | cons x xs =>
      rw [← joinSlash_append (x :: xs) second (by simp) hsecond]
      have hall : ∀ e ∈ (x :: xs) ++ second, plainElement e := by
        intro e he
        rcases List.mem_append.mp he with h | h
        · exact h1 e h
        · exact h2 e h
      rw [cleanLoop_plain_elements _ (by simp) hall [47] 1]
      rfl
  unfold path.Clean
  simp only [List.cons_append, List.head?_cons, List.drop_succ_cons, List.drop_zero,
    if_true, reduceCtorEq, if_false]
  rw [hloop]
  simp

/-- Method `URL.JoinPath` on a URL without `RawPath` whose path is empty, or
a slash followed by plain elements joined with slashes, and an element
made of plain elements without `%` joined with slashes. -/
theorem joinPath_plain (u : URL) (base seg : List Bytes)
    (hbase : ∀ e ∈ base, plainElement e) (hne : seg ≠ [])
    (hseg : ∀ e ∈ seg, plainElement e ∧ 37 ∉ e) (hraw : u.RawPath = []) :
    (u.Path = [] → (u.JoinPath (joinSlash seg)).Path = joinSlash seg) ∧
    (u.Path = 47 :: joinSlash base →
      (u.JoinPath (joinSlash seg)).Path = 47 :: joinSlash (base ++ seg)) := by
  have hplain : ∀ e ∈ seg, plainElement e := fun e he => (hseg e he).1
  have hlast : (joinSlash seg).getLast? ≠ some 47 :=
    getLast_joinSlash seg hne fun e he => ⟨(hseg e he).1.1, (hseg e he).1.2.1⟩
  have hpct : 37 ∉ joinSlash seg :=
    not_mem_joinSlash 37 (by decide) seg fun e he => (hseg e he).2
  have hsne : joinSlash seg ≠ [] := joinSlash_ne_nil seg hne fun e he => (hseg e he).1.1
  constructor
  · intro hpath
    have hesc : u.EscapedPath = [] := by
      simp [URL.EscapedPath, hraw, hpath, escapePath]
    have hjoin : path.Join [[47], joinSlash seg] = 47 :: joinSlash seg := by
      have hc := clean_rooted_plain [] seg hne (by simp) hplain
      simp only [joinSlash, List.nil_append, List.append_nil] at hc
      simp only [path.Join, List.map_cons, List.map_nil, List.length_singleton, List.sum_cons,
        List.sum_nil, List.foldl_cons, List.foldl_nil]
      rw [if_neg (by omega)]
      simpa using hc
    simp only [URL.JoinPath, hesc, List.head?_nil, ne_eq, reduceCtorEq, not_false_eq_true,
      if_true, hjoin, List.drop_succ_cons, List.drop_zero]
    rw [if_neg (fun h => hlast h.1)]
    simp [URL.setPath, unescapePath_plain _ hpct]
  · intro hpath
    have hesc : u.EscapedPath = 47 :: joinSlash (base.map escapePath) := by
      have h42 : ¬ ((47 : UInt8) :: joinSlash base = [42]) := by
        intro h
        have := (List.cons.inj h).1
        exact absurd this (by decide)
      have h47 : escapePathByte 47 = [47] := by decide
      simp only [URL.EscapedPath, hraw, ne_eq, not_true_eq_false, false_and, if_false, hpath,
        h42, escapePath_cons, h47, escapePath_joinSlash, List.singleton_append]
    have hbase2 : ∀ e ∈ base.map escapePath, plainElement e := by
      intro e he
      obtain ⟨x, hx, rfl⟩ := List.mem_map.mp he
      exact plainElement_escapePath x (hbase x hx)
    have hjoin : path.Join [47 :: joinSlash (base.map escapePath), joinSlash seg]
        = 47 :: joinSlash (base.map escapePath ++ seg) := by
      have hc := clean_rooted_plain (base.map escapePath) seg hne hbase2 hplain
      simp only [path.Join, List.map_cons, List.map_nil, List.length_cons, List.sum_cons,
        List.sum_nil, List.foldl_cons, List.foldl_nil]
      rw [if_neg (by omega)]
      simpa using hc
    have hun : unescapePath (47 :: joinSlash (base.map escapePath ++ seg))
        = some (47 :: joinSlash (base ++ seg)) := by
      cases base with
      | nil =>
        simp only [List.map_nil, List.nil_append]
        exact unescapePath_plain _ (by
          simp only [List.mem_cons, not_or]
          exact ⟨by decide, hpct⟩)
      | cons x xs =>
        rw [List.map_cons, joinSlash_append _ seg (by simp) hne,
          joinSlash_append (x :: xs) seg (by simp) hne, ← List.map_cons, ← escapePath_joinSlash]
        have h47 : (47 : UInt8) :: (escapePath (joinSlash (x :: xs)) ++ [47] ++ joinSlash seg)
            = escapePath (47 :: joinSlash (x :: xs)) ++ ([47] ++ joinSlash seg) := by
          have : escapePathByte 47 = [47] := by decide
          simp [escapePath_cons, this]
        rw [h47, unescapePath_escape_append, unescapePath_plain ([47] ++ joinSlash seg) (by
          simp only [List.singleton_append, List.mem_cons, not_or]
          exact ⟨by decide, hpct⟩)]
        simp
    simp only [URL.JoinPath, hesc, List.head?_cons, ne_eq, not_true_eq_false, if_false, hjoin]
    rw [if_neg (fun h => hlast h.1)]
    simp [URL.setPath, hun]

/-- Method `URL.setPath` changes `Path` and `RawPath` only. -/
theorem setPath_frame (u : URL) (p : Bytes) :
    (u.setPath p).RawQuery = u.RawQuery ∧ (u.setPath p).Scheme = u.Scheme ∧
      (u.setPath p).Host = u.Host := by
  unfold URL.setPath
  cases unescapePath p <;> exact ⟨rfl, rfl, rfl⟩

theorem byte_lt_iff (a b : UInt8) : a < b ↔ a.toNat < b.toNat := by
  simp [UInt8.lt_def, BitVec.lt_def, UInt8.toNat]

theorem byte_le_iff (a b : UInt8) : a ≤ b ↔ a.toNat ≤ b.toNat := by
  simp [UInt8.le_def, BitVec.le_def, UInt8.toNat]

theorem byte_eq_iff (a b : UInt8) : a = b ↔ a.toNat = b.toNat := by
  constructor
  · intro h; rw [h]
  · intro h
    rw [← byte_ofNat_toNat a, ← byte_ofNat_toNat b, h]

set_option maxRecDepth 100000 in
/-- The bounds of the second byte, as numbers. -/
theorem accept_toNat (p0 : UInt8) :
    (acceptLo p0).toNat = (if p0.toNat = 224 then 160 else if p0.toNat = 240 then 144 else 128) ∧
    (acceptHi p0).toNat = (if p0.toNat = 237 then 159 else if p0.toNat = 244 then 143 else 191) := by
  revert p0
  apply byte_cases
  decide

/-- The rune `utf8.DecodeRune` reads depends on the first four bytes only. -/
theorem decodeRune_take4 (p : Bytes) : utf8.DecodeRune (p.take 4) = utf8.DecodeRune p := by
  rcases p with _ | ⟨a, _ | ⟨b, _ | ⟨c, _ | ⟨d, _ | ⟨e, t⟩⟩⟩⟩⟩ <;> rfl

/-- What `utf8.DecodeRune` reads when it does not report an invalid byte at
a byte from 0x80 on: a sequence of two to four bytes, all from 0x80 on,
which `utf8.EncodeRune` writes again for the rune, and which decodes to
the same rune whatever follows it. -/
theorem decodeRune_valid (b : UInt8) (rest : Bytes) (hb : ¬ b < 0x80)
    (hv : ¬ ((utf8.DecodeRune (b :: rest)).1 = RuneError ∧ (utf8.DecodeRune (b :: rest)).2 = 1)) :
    ∃ (b1 : UInt8) (more tail : Bytes),
      rest = b1 :: more ++ tail ∧
      (utf8.DecodeRune (b :: rest)).2 = (b :: b1 :: more).length ∧
      (b :: rest).take (utf8.DecodeRune (b :: rest)).2 = b :: b1 :: more ∧
      (b :: rest).drop (utf8.DecodeRune (b :: rest)).2 = tail ∧
      utf8.EncodeRune (utf8.DecodeRune (b :: rest)).1 = b :: b1 :: more ∧
      (∀ x ∈ b :: b1 :: more, ¬ x < 0x80) ∧
      ∀ other : Bytes,
        utf8.DecodeRune (b :: b1 :: more ++ other) = utf8.DecodeRune (b :: rest) := by
  have hbN : 128 ≤ b.toNat := by
    have := (byte_lt_iff b 0x80).not.mp hb
    simpa using this
  by_cases h1 : b < 0xC2 ∨ 0xF4 < b
  · exact absurd (by simp [utf8.DecodeRune, hb, h1]) hv
  have h1N : 194 ≤ b.toNat ∧ b.toNat ≤ 244 := by
    have ha := (byte_lt_iff b 0xC2).not.mp (fun h => h1 (Or.inl h))
    have hc := (byte_lt_iff 0xF4 b).not.mp (fun h => h1 (Or.inr h))
    constructor
    · simpa using ha
    · simpa using hc
  cases rest with
  | nil => exact absurd (by simp [utf8.DecodeRune, hb, h1]) hv
  | cons b1 rest1 =>
    by_cases h2 : b1 < acceptLo b ∨ acceptHi b < b1
    · exact absurd (by simp [utf8.DecodeRune, hb, h1, h2]) hv
    have h2N : (acceptLo b).toNat ≤ b1.toNat ∧ b1.toNat ≤ (acceptHi b).toNat := by
      have ha := (byte_lt_iff b1 (acceptLo b)).not.mp (fun h => h2 (Or.inl h))
      have hc := (byte_lt_iff (acceptHi b) b1).not.mp (fun h => h2 (Or.inr h))
      omega
    obtain ⟨hlo, hhi⟩ := accept_toNat b
    have hb1N : 128 ≤ b1.toNat ∧ b1.toNat ≤ 191 := by
      rw [hlo, hhi] at h2N
      split_ifs at h2N <;> omega
    have hb1 : ¬ b1 < 0x80 := by
      intro h
      have h80 := (byte_lt_iff b1 0x80).mp h
      have e80 : (0x80 : UInt8).toNat = 128 := rfl
      omega
    by_cases h3 : b < 0xE0
    · have h3N : b.toNat < 224 := by
        have := (byte_lt_iff b 0xE0).mp h3
        simpa using this
      have hD : ∀ other : Bytes,
          utf8.DecodeRune (b :: b1 :: other) = (b.toNat % 32 * 64 + b1.toNat % 64, 2) := by
        intro other
        simp [utf8.DecodeRune, hb, h1, h2, h3]
      refine ⟨b1, [], rest1, rfl, ?_, ?_, ?_, ?_, ?_, ?_⟩
      · rw [hD]; rfl
      · rw [hD]; rfl
      · rw [hD]; rfl
      · rw [hD]
        have e1 : ¬ (b.toNat % 32 * 64 + b1.toNat % 64 ≤ 0x7F) := by omega
        have e2 : b.toNat % 32 * 64 + b1.toNat % 64 ≤ 0x7FF := by omega
        simp only [utf8.EncodeRune, if_neg e1, if_pos e2]
        have f1 : 0xC0 + (b.toNat % 32 * 64 + b1.toNat % 64) / 64 = b.toNat := by omega
        have f2 : 0x80 + (b.toNat % 32 * 64 + b1.toNat % 64) % 64 = b1.toNat := by omega
        rw [f1, f2, byte_ofNat_toNat, byte_ofNat_toNat]
      · intro x hx
        simp only [List.mem_cons, List.mem_singleton, List.not_mem_nil, or_false] at hx
        rcases hx with rfl | rfl
        · exact hb
        · exact hb1
      · intro other
        rw [hD]
        exact hD other
    · have h3N : 224 ≤ b.toNat := by
        have := (byte_lt_iff b 0xE0).not.mp h3
        simpa using this
      cases rest1 with
      | nil => exact absurd (by simp [utf8.DecodeRune, hb, h1, h2, h3]) hv
      | cons b2 rest2 =>
        by_cases h4 : b2 < 0x80 ∨ 0xBF < b2
        · exact absurd (by simp [utf8.DecodeRune, hb, h1, h2, h3, h4]) hv
        have hb2N : 128 ≤ b2.toNat ∧ b2.toNat ≤ 191 := by
          have ha := (byte_lt_iff b2 0x80).not.mp (fun h => h4 (Or.inl h))
          have hc := (byte_lt_iff 0xBF b2).not.mp (fun h => h4 (Or.inr h))
          constructor
          · simpa using ha
          · simpa using hc
        have hb2 : ¬ b2 < 0x80 := fun h => h4 (Or.inl h)
        by_cases h5 : b < 0xF0
        · have h5N : b.toNat < 240 := by
            have := (byte_lt_iff b 0xF0).mp h5
            simpa using this
          have hD : ∀ other : Bytes,
              utf8.DecodeRune (b :: b1 :: b2 :: other)
                = (b.toNat % 16 * 4096 + b1.toNat % 64 * 64 + b2.toNat % 64, 3) := by
            intro other
            simp [utf8.DecodeRune, hb, h1, h2, h3, h4, h5]
          refine ⟨b1, [b2], rest2, rfl, ?_, ?_, ?_, ?_, ?_, ?_⟩
          · rw [hD]; rfl
          · rw [hD]; rfl
          · rw [hD]; rfl
          · rw [hD]
            rw [hlo, hhi] at h2N
            have e1 : ¬ (b.toNat % 16 * 4096 + b1.toNat % 64 * 64 + b2.toNat % 64 ≤ 0x7F) := by
              split_ifs at h2N <;> omega
            have e2 : ¬ (b.toNat % 16 * 4096 + b1.toNat % 64 * 64 + b2.toNat % 64 ≤ 0x7FF) := by
              split_ifs at h2N <;> omega
            have e3 : ¬ (b.toNat % 16 * 4096 + b1.toNat % 64 * 64 + b2.toNat % 64 > 0x10FFFF ∨
                (0xD800 ≤ b.toNat % 16 * 4096 + b1.toNat % 64 * 64 + b2.toNat % 64 ∧
                  b.toNat % 16 * 4096 + b1.toNat % 64 * 64 + b2.toNat % 64 ≤ 0xDFFF)) := by
              split_ifs at h2N <;> omega
            have e4 : b.toNat % 16 * 4096 + b1.toNat % 64 * 64 + b2.toNat % 64 ≤ 0xFFFF := by
              omega
            simp only [utf8.EncodeRune, if_neg e1, if_neg e2, if_neg e3, if_pos e4]
            have f1 : 0xE0 + (b.toNat % 16 * 4096 + b1.toNat % 64 * 64 + b2.toNat % 64) / 4096
                = b.toNat := by omega
            have f2 : 0x80 + (b.toNat % 16 * 4096 + b1.toNat % 64 * 64 + b2.toNat % 64) / 64 % 64
                = b1.toNat := by omega
            have f3 : 0x80 + (b.toNat % 16 * 4096 + b1.toNat % 64 * 64 + b2.toNat % 64) % 64
                = b2.toNat := by omega
            rw [f1, f2, f3, byte_ofNat_toNat, byte_ofNat_toNat, byte_ofNat_toNat]
          · intro x hx
            simp only [List.mem_cons, List.mem_singleton, List.not_mem_nil, or_false] at hx
            rcases hx with rfl | rfl | rfl
            · exact hb
            · exact hb1
            · exact hb2
          · intro other
            rw [hD]
            exact hD other
        · have h5N : 240 ≤ b.toNat := by
            have := (byte_lt_iff b 0xF0).not.mp h5
            simpa using this
          cases rest2 with
          | nil => exact absurd (by simp [utf8.DecodeRune, hb, h1, h2, h3, h4, h5]) hv
          | cons b3 rest3 =>
            by_cases h6 : b3 < 0x80 ∨ 0xBF < b3
            · exact absurd (by simp [utf8.DecodeRune, hb, h1, h2, h3, h4, h5, h6]) hv
            have hb3N : 128 ≤ b3.toNat ∧ b3.toNat ≤ 191 := by
              have ha := (byte_lt_iff b3 0x80).not.mp (fun h => h6 (Or.inl h))
              have hc := (byte_lt_iff 0xBF b3).not.mp (fun h => h6 (Or.inr h))
              constructor
              · simpa using ha
              · simpa using hc
            have hb3 : ¬ b3 < 0x80 := fun h => h6 (Or.inl h)
            have hD : ∀ other : Bytes,
                utf8.DecodeRune (b :: b1 :: b2 :: b3 :: other)
                  = (b.toNat % 8 * 262144 + b1.toNat % 64 * 4096 + b2.toNat % 64 * 64
                      + b3.toNat % 64, 4) := by
              intro other
              simp [utf8.DecodeRune, hb, h1, h2, h3, h4, h5, h6]
            refine ⟨b1, [b2, b3], rest3, rfl, ?_, ?_, ?_, ?_, ?_, ?_⟩
            · rw [hD]; rfl
            · rw [hD]; rfl
            · rw [hD]; rfl
            · rw [hD]
              rw [hlo, hhi] at h2N
              have e1 : ¬ (b.toNat % 8 * 262144 + b1.toNat % 64 * 4096 + b2.toNat % 64 * 64
                  + b3.toNat % 64 ≤ 0x7F) := by
                split_ifs at h2N <;> omega
              have e2 : ¬ (b.toNat % 8 * 262144 + b1.toNat % 64 * 4096 + b2.toNat % 64 * 64
                  + b3.toNat % 64 ≤ 0x7FF) := by
                split_ifs at h2N <;> omega
              have e3 : ¬ (b.toNat % 8 * 262144 + b1.toNat % 64 * 4096 + b2.toNat % 64 * 64
                    + b3.toNat % 64 > 0x10FFFF ∨
                  (0xD800 ≤ b.toNat % 8 * 262144 + b1.toNat % 64 * 4096 + b2.toNat % 64 * 64
                      + b3.toNat % 64 ∧
                    b.toNat % 8 * 262144 + b1.toNat % 64 * 4096 + b2.toNat % 64 * 64
                      + b3.toNat % 64 ≤ 0xDFFF)) := by
                split_ifs at h2N <;> omega
              have e4 : ¬ (b.toNat % 8 * 262144 + b1.toNat % 64 * 4096 + b2.toNat % 64 * 64
                  + b3.toNat % 64 ≤ 0xFFFF) := by
                split_ifs at h2N <;> omega
              simp only [utf8.EncodeRune, if_neg e1, if_neg e2, if_neg e3, if_neg e4]
              have f1 : 0xF0 + (b.toNat % 8 * 262144 + b1.toNat % 64 * 4096 + b2.toNat % 64 * 64
                  + b3.toNat % 64) / 262144 = b.toNat := by omega
              have f2 : 0x80 + (b.toNat % 8 * 262144 + b1.toNat % 64 * 4096 + b2.toNat % 64 * 64
                  + b3.toNat % 64) / 4096 % 64 = b1.toNat := by omega
              have f3 : 0x80 + (b.toNat % 8 * 262144 + b1.toNat % 64 * 4096 + b2.toNat % 64 * 64
                  + b3.toNat % 64) / 64 % 64 = b2.toNat := by omega
              have f4 : 0x80 + (b.toNat % 8 * 262144 + b1.toNat % 64 * 4096 + b2.toNat % 64 * 64
                  + b3.toNat % 64) % 64 = b3.toNat := by omega
              rw [f1, f2, f3, f4, byte_ofNat_toNat, byte_ofNat_toNat, byte_ofNat_toNat,
                byte_ofNat_toNat]
            · intro x hx
              simp only [List.mem_cons, List.mem_singleton, List.not_mem_nil, or_false] at hx
              rcases hx with rfl | rfl | rfl | rfl
              · exact hb
              · exact hb1
              · exact hb2
              · exact hb3
            · intro other
              rw [hD]
              exact hD other
set_option maxRecDepth 100000 in
/-- A byte that `appendString` writes as it is is neither a quote, a
backslash nor a control character. -/
theorem htmlSafe_facts (b : UInt8) : htmlSafe b = true → b ≠ 34 ∧ b ≠ 92 ∧ ¬ b < 32 := by
  revert b
  apply byte_cases
  decide

set_option maxRecDepth 100000 in
/-- The escape `\u00XX` of a byte below 0x80 names that byte. -/
theorem getu4_lowerhex (b : UInt8) : b < 0x80 →
    getu4 [92, 117, 48, 48, lowerhex (b >>> 4), lowerhex (b &&& 15)] = some b.toNat ∧
      b.toNat ≤ 0x7F := by
  revert b
  apply byte_cases
  decide

theorem getu4_cons (a b c d : UInt8) (r : Nat) (tail : Bytes)
    (h : getu4 [92, 117, a, b, c, d] = some r) :
    getu4 (92 :: 117 :: a :: b :: c :: d :: tail) = some r := h

theorem prepend_some (bytes text tail : Bytes) :
    prepend bytes (some (text, tail)) = some (bytes ++ text, tail) := rfl

/-- The decoder reads a `\uXXXX` escape that names a rune outside the
surrogates as the bytes of that rune. -/
theorem unquoteLoop_u4 (a b c d : UInt8) (r : Nat) (fuel : Nat) (tail : Bytes)
    (hu : getu4 [92, 117, a, b, c, d] = some r) (hsur : ¬ (0xD800 ≤ r ∧ r < 0xE000)) :
    unquoteLoop (fuel + 1) ([92, 117, a, b, c, d] ++ tail)
      = prepend (utf8.EncodeRune r) (unquoteLoop fuel tail) := by
  have hg := getu4_cons a b c d r tail hu
  show unquoteLoop (fuel + 1) (92 :: 117 :: a :: b :: c :: d :: tail) = _
  simp only [unquoteLoop]
  rw [hg]
  simp [hsur]

set_option maxRecDepth 100000 in
/-- What `appendString` writes for a byte below 0x80 is not empty. -/
theorem asciiPiece_length (b : UInt8) :
    1 ≤ (if htmlSafe b then [b] else escapeAscii b).length := by
  revert b
  apply byte_cases
  decide

/-- The decoder reads what `appendString` wrote for a byte below 0x80 as
that byte. -/
theorem unquoteLoop_ascii (b : UInt8) (hb : b < 0x80) (fuel : Nat) (tail : Bytes) :
    unquoteLoop (fuel + 1) ((if htmlSafe b then [b] else escapeAscii b) ++ tail)
      = prepend [b] (unquoteLoop fuel tail) := by
  by_cases hs : htmlSafe b = true
  · obtain ⟨h34, h92, h32⟩ := htmlSafe_facts b hs
    simp [hs, unquoteLoop, h34, h92, h32, hb]
  · simp only [hs, if_false, Bool.false_eq_true]
    by_cases h1 : b = 92
    · subst h1; simp [escapeAscii, unquoteLoop]
    by_cases h2 : b = 34
    · subst h2; simp [escapeAscii, unquoteLoop]
    by_cases h3 : b = 8
    · subst h3; simp [escapeAscii, unquoteLoop]
    by_cases h4 : b = 12
    · subst h4; simp [escapeAscii, unquoteLoop]
    by_cases h5 : b = 10
    · subst h5; simp [escapeAscii, unquoteLoop]
    by_cases h6 : b = 13
    · subst h6; simp [escapeAscii, unquoteLoop]
    by_cases h7 : b = 9
    · subst h7; simp [escapeAscii, unquoteLoop]
    obtain ⟨hu, hN⟩ := getu4_lowerhex b hb
    have he : escapeAscii b = [92, 117, 48, 48, lowerhex (b >>> 4), lowerhex (b &&& 15)] := by
      simp [escapeAscii, h1, h2, h3, h4, h5, h6, h7]
    have henc : utf8.EncodeRune b.toNat = [b] := by
      simp only [utf8.EncodeRune, if_pos hN, byte_ofNat_toNat]
    rw [he, unquoteLoop_u4 _ _ _ _ b.toNat fuel tail hu (by omega), henc]

/-- The decoder reads a valid sequence of bytes from 0x80 on as it is. -/
theorem unquoteLoop_rune (b : UInt8) (rest : Bytes) (hb : ¬ b < 0x80)
    (hv : ¬ ((utf8.DecodeRune (b :: rest)).1 = RuneError ∧ (utf8.DecodeRune (b :: rest)).2 = 1))
    (fuel : Nat) (tail : Bytes) :
    unquoteLoop (fuel + 1) ((b :: rest).take (utf8.DecodeRune (b :: rest)).2 ++ tail)
      = prepend ((b :: rest).take (utf8.DecodeRune (b :: rest)).2) (unquoteLoop fuel tail) := by
  obtain ⟨b1, more, tl, _, hsize, htake, _, henc, _, hdec⟩ := decodeRune_valid b rest hb hv
  have hbN : 128 ≤ b.toNat := by
    have := (byte_lt_iff b 0x80).not.mp hb
    have e80 : (0x80 : UInt8).toNat = 128 := rfl
    omega
  have h34 : b ≠ 34 := by
    intro h; rw [h] at hbN; exact absurd hbN (by decide)
  have h92 : b ≠ 92 := by
    intro h; rw [h] at hbN; exact absurd hbN (by decide)
  have h32 : ¬ b < 32 := by
    intro h
    have := (byte_lt_iff b 32).mp h
    have e32 : (32 : UInt8).toNat = 32 := rfl
    omega
  rw [htake]
  show unquoteLoop (fuel + 1) (b :: (b1 :: more ++ tail)) = _
  have hd : utf8.DecodeRune (b :: (b1 :: more ++ tail)) = utf8.DecodeRune (b :: rest) := hdec tail
  have hdrop : (b :: (b1 :: more ++ tail)).drop (b :: b1 :: more).length = tail := by
    have : b :: (b1 :: more ++ tail) = (b :: b1 :: more) ++ tail := rfl
    rw [this, List.drop_left]
  simp only [unquoteLoop]
  rw [if_neg h34, if_neg h92, if_neg h32, if_neg hb, hd, henc, hsize, hdrop]

theorem encodeRune_runeError : utf8.EncodeRune RuneError = [0xEF, 0xBF, 0xBD] := by decide

/-- The decoder reads back what `appendString` wrote, with every invalid
byte of the source turned into U+FFFD. -/
theorem unquoteLoop_appendStringLoop (n : Nat) :
    ∀ (src : Bytes), src.length ≤ n → ∀ (fuel : Nat) (tail : Bytes),
      (appendStringLoop n src).length < fuel →
      unquoteLoop fuel (appendStringLoop n src ++ 34 :: tail) = some (coerceLoop n src, tail) := by
  induction n with
  | zero =>
    intro src _ fuel tail hfuel
    obtain ⟨f, rfl⟩ : ∃ f, fuel = f + 1 := ⟨fuel - 1, by omega⟩
    simp [appendStringLoop, coerceLoop, unquoteLoop]
  | succ n ih =>
    intro src hlen fuel tail hfuel
    obtain ⟨f, rfl⟩ : ∃ f, fuel = f + 1 := ⟨fuel - 1, by omega⟩
    cases src with
    | nil => simp [appendStringLoop, coerceLoop, unquoteLoop]
    | cons b rest =>
      have hrest : rest.length ≤ n := by simpa using hlen
      by_cases hb : b < 0x80
      · have henc : appendStringLoop (n + 1) (b :: rest)
            = (if htmlSafe b then [b] else escapeAscii b) ++ appendStringLoop n rest := by
          simp [appendStringLoop, hb]
        have hpiece := asciiPiece_length b
        rw [henc] at hfuel ⊢
        rw [List.append_assoc, unquoteLoop_ascii b hb,
          ih rest hrest f tail (by simp only [List.length_append, List.length_cons, List.length_nil] at hfuel; omega)]
        simp [prepend_some, coerceLoop, hb]
      · have h4 : utf8.DecodeRune ((b :: rest).take 4) = utf8.DecodeRune (b :: rest) :=
          decodeRune_take4 _
        by_cases hv : (utf8.DecodeRune (b :: rest)).1 = RuneError
            ∧ (utf8.DecodeRune (b :: rest)).2 = 1
        · have henc : appendStringLoop (n + 1) (b :: rest)
              = [92, 117, 102, 102, 102, 100] ++ appendStringLoop n rest := by
            simp only [appendStringLoop, hb, if_false, h4, hv, and_self, if_true]
          have hco : coerceLoop (n + 1) (b :: rest) = [0xEF, 0xBF, 0xBD] ++ coerceLoop n rest := by
            simp only [coerceLoop, hb, if_false, hv, and_self, if_true]
          rw [henc] at hfuel ⊢
          rw [List.append_assoc,
            unquoteLoop_u4 102 102 102 100 RuneError f _ (by decide) (by decide),
            ih rest hrest f tail (by simp only [List.length_append, List.length_cons, List.length_nil] at hfuel; omega),
            prepend_some, hco, encodeRune_runeError]
        · obtain ⟨b1, more, tl, hrest2, hsize, htake, hdrop, hencr, _, _⟩ :=
            decodeRune_valid b rest hb hv
          have htl : tl.length ≤ n := by
            rw [hrest2] at hrest
            simp only [List.length_cons, List.length_append] at hrest
            omega
          have hco : coerceLoop (n + 1) (b :: rest) = (b :: b1 :: more) ++ coerceLoop n tl := by
            simp only [coerceLoop, hb, if_false, hv, htake, hdrop]
          by_cases hls : (utf8.DecodeRune (b :: rest)).1 = 0x2028
              ∨ (utf8.DecodeRune (b :: rest)).1 = 0x2029
          · have henc : appendStringLoop (n + 1) (b :: rest)
                = [92, 117, 50, 48, 50,
                    lowerhex (UInt8.ofNat ((utf8.DecodeRune (b :: rest)).1 % 16))]
                  ++ appendStringLoop n tl := by
              simp only [appendStringLoop, hb, if_false, h4, hv, hls, if_true, hdrop]
            have hu : getu4 [92, 117, 50, 48, 50,
                lowerhex (UInt8.ofNat ((utf8.DecodeRune (b :: rest)).1 % 16))]
                  = some (utf8.DecodeRune (b :: rest)).1 := by
              rcases hls with h | h <;> rw [h] <;> decide
            have hsur : ¬ (0xD800 ≤ (utf8.DecodeRune (b :: rest)).1
                ∧ (utf8.DecodeRune (b :: rest)).1 < 0xE000) := by
              rcases hls with h | h <;> rw [h] <;> decide
            rw [henc] at hfuel ⊢
            rw [List.append_assoc, unquoteLoop_u4 _ _ _ _ _ f _ hu hsur,
              ih tl htl f tail (by simp only [List.length_append, List.length_cons, List.length_nil] at hfuel; omega),
              prepend_some, hco, hencr]
          · have henc : appendStringLoop (n + 1) (b :: rest)
                = (b :: rest).take (utf8.DecodeRune (b :: rest)).2 ++ appendStringLoop n tl := by
              simp only [appendStringLoop, hb, if_false, h4, hv, hls, hdrop]
            rw [henc] at hfuel ⊢
            rw [List.append_assoc, unquoteLoop_rune b rest hb hv,
              ih tl htl f tail (by
                rw [htake] at hfuel
                simp only [List.length_append, List.length_cons] at hfuel; omega),
              prepend_some, hco, htake]

/-- Coercing valid UTF-8 changes nothing. -/
theorem coerceLoop_valid (n : Nat) :
    ∀ (src : Bytes), src.length ≤ n → utf8.validLoop n src = true → coerceLoop n src = src := by
  induction n with
  | zero =>
    intro src hlen _
    have : src = [] := List.length_eq_zero.mp (by omega)
    subst this; rfl
  | succ n ih =>
    intro src hlen hvalid
    cases src with
    | nil => rfl
    | cons b rest =>
      have hrest : rest.length ≤ n := by simpa using hlen
      by_cases hb : b < 0x80
      · simp only [utf8.validLoop, hb, if_true] at hvalid
        simp only [coerceLoop, hb, if_true, ih rest hrest hvalid]
      · by_cases hv : (utf8.DecodeRune (b :: rest)).1 = RuneError
            ∧ (utf8.DecodeRune (b :: rest)).2 = 1
        · simp [utf8.validLoop, hb, hv] at hvalid
        · obtain ⟨b1, more, tl, hrest2, hsize, htake, hdrop, _, _, _⟩ :=
            decodeRune_valid b rest hb hv
          have htl : tl.length ≤ n := by
            rw [hrest2] at hrest
            simp only [List.length_cons, List.length_append] at hrest
            omega
          simp only [utf8.validLoop, hb, if_false, hv, hdrop] at hvalid
          simp only [coerceLoop, hb, if_false, hv, hdrop, ih tl htl hvalid]
          rw [← hdrop, List.take_append_drop]

/-- Function `utf8.Valid` and `coerceUTF8`: valid UTF-8 is left as it is. -/
theorem coerceUTF8_valid (p : Bytes) (h : utf8.Valid p = true) : coerceUTF8 p = p :=
  coerceLoop_valid p.length p (Nat.le_refl _) h

/-- The decoder reads the string literal `appendString` wrote as the
source coerced to valid UTF-8. -/
theorem unquote_appendString (src tail : Bytes) :
    unquote (appendStringLoop src.length src ++ 34 :: tail) = some (coerceUTF8 src, tail) := by
  unfold unquote
  exact unquoteLoop_appendStringLoop src.length src (Nat.le_refl _) _ tail
    (by simp only [List.length_append, List.length_cons]; omega)
/-- A key made of ASCII letters is read back as it is. -/
theorem unquote_key (key tail : Bytes) (hk : appendStringLoop key.length key = key)
    (hc : coerceUTF8 key = key) : unquote (key ++ 34 :: tail) = some (key, tail) := by
  have h := unquote_appendString key tail
  rwa [hk, hc] at h

/-- The decoder reads a string literal that `appendString` wrote. -/
theorem parseValue_appendString (fuel : Nat) (src tail : Bytes) :
    parseValue (fuel + 1) (34 :: (appendStringLoop src.length src ++ 34 :: tail))
      = some (JsonDoc.str (coerceUTF8 src), tail) := by
  simp [parseValue, skipSpace, unquote_appendString]

/-- The decoder reads a boolean literal that `json.Marshal` wrote. -/
theorem parseValue_bool (fuel : Nat) (e : Bool) (tail : Bytes) :
    parseValue (fuel + 1) (bytesOfString (if e then "true" else "false") ++ tail)
      = some (JsonDoc.bool e, tail) := by
  cases e
  · have h : bytesOfString "false" = [102, 97, 108, 115, 101] := by decide
    simp [h, parseValue, skipSpace, afterLiteral]
  · have h : bytesOfString "true" = [116, 114, 117, 101] := by decide
    simp [h, parseValue, skipSpace, afterLiteral]

/-- One member of an object that is followed by a comma and a further
member. -/
theorem parseMembers_more (fuel : Nat) (rest key rest2 more : Bytes) (value : JsonDoc)
    (hkey : unquote rest = some (key, 58 :: rest2))
    (hval : parseValue (fuel + 1) rest2 = some (value, 44 :: 34 :: more)) :
    parseMembers (fuel + 2) (34 :: rest)
      = (parseMembers (fuel + 1) (34 :: more)).map fun r => ((key, value) :: r.1, r.2) := by
  simp [parseMembers, hkey, skipSpace, hval]

/-- The last member of an object. -/
theorem parseMembers_last (fuel : Nat) (rest key rest2 tail : Bytes) (value : JsonDoc)
    (hkey : unquote rest = some (key, 58 :: rest2))
    (hval : parseValue (fuel + 1) rest2 = some (value, 125 :: tail)) :
    parseMembers (fuel + 2) (34 :: rest) = some ([(key, value)], tail) := by
  simp [parseMembers, hkey, skipSpace, hval]

/-- An object that starts with a member right after its opening brace. -/
theorem parseValue_object (fuel : Nat) (rest : Bytes) :
    parseValue (fuel + 1) (123 :: 34 :: rest)
      = (parseMembers fuel (34 :: rest)).map fun r => (JsonDoc.object r.1, r.2) := by
  simp [parseValue, skipSpace]

/-- The document `json.Marshal` writes for a schedule, member by member. -/
theorem marshal_members (s : dto.Schedule) :
    dto.Schedule.Marshal s
      = 123 :: 34 ::
        ([105, 100] ++ 34 :: 58 :: 34 :: (appendStringLoop s.Id.length s.Id ++ 34 :: 44 :: 34 ::
        ([110, 97, 109, 101] ++ 34 :: 58 :: 34 :: (appendStringLoop s.Name.length s.Name ++ 34
        :: 44 :: 34 :: ([100, 101, 115, 99, 114, 105, 112, 116, 105, 111, 110] ++ 34 :: 58 :: 34
        :: (appendStringLoop s.Description.length s.Description ++ 34 :: 44 :: 34 :: ([116, 105,
        109, 101, 122, 111, 110, 101] ++ 34 :: 58 :: 34 :: (appendStringLoop s.Timezone.length
        s.Timezone ++ 34 :: 44 :: 34 :: ([101, 110, 97, 98, 108, 101, 100] ++ 34 :: 58 ::
        (bytesOfString (if s.Enabled then "true" else "false") ++ 44 :: 34 :: ([116, 101, 97,
        109, 73, 100] ++ 34 :: 58 :: 34 :: (appendStringLoop s.TeamId.length s.TeamId ++ 34 ::
        125 :: [])))))))))))) := by
  have h1 : bytesOfString "\x7b\"id\":" = [123, 34, 105, 100, 34, 58] := by decide
  have h2 : bytesOfString ",\"name\":" = [44, 34, 110, 97, 109, 101, 34, 58] := by decide
  have h3 : bytesOfString ",\"description\":"
      = [44, 34, 100, 101, 115, 99, 114, 105, 112, 116, 105, 111, 110, 34, 58] := by decide
  have h4 : bytesOfString ",\"timezone\":"
      = [44, 34, 116, 105, 109, 101, 122, 111, 110, 101, 34, 58] := by decide
  have h5 : bytesOfString ",\"enabled\":"
      = [44, 34, 101, 110, 97, 98, 108, 101, 100, 34, 58] := by decide
  have h6 : bytesOfString ",\"teamId\":" = [44, 34, 116, 101, 97, 109, 73, 100, 34, 58] := by decide
  have h7 : bytesOfString "\x7d" = [125] := by decide
  simp only [dto.Schedule.Marshal, appendString, h1, h2, h3, h4, h5, h6, h7, List.append_assoc,
    List.cons_append, List.nil_append]

/-- The schedule with every string field coerced to valid UTF-8. -/
theorem parseValue_marshal (fuel : Nat) (s : dto.Schedule) :
    parseValue (fuel + 8) (dto.Schedule.Marshal s)
      = some (JsonDoc.object
          [([105, 100], JsonDoc.str (coerceUTF8 s.Id)),
           ([110, 97, 109, 101], JsonDoc.str (coerceUTF8 s.Name)),
           ([100, 101, 115, 99, 114, 105, 112, 116, 105, 111, 110],
             JsonDoc.str (coerceUTF8 s.Description)),
           ([116, 105, 109, 101, 122, 111, 110, 101], JsonDoc.str (coerceUTF8 s.Timezone)),
           ([101, 110, 97, 98, 108, 101, 100], JsonDoc.bool s.Enabled),
           ([116, 101, 97, 109, 73, 100], JsonDoc.str (coerceUTF8 s.TeamId))], []) := by
  rw [marshal_members]
  have m6 := parseMembers_last fuel _ _ _ _ _
    (unquote_key [116, 101, 97, 109, 73, 100]
      (58 :: 34 :: (appendStringLoop s.TeamId.length s.TeamId ++ 34 :: 125 :: []))
      (by decide) (by decide))
    (parseValue_appendString fuel s.TeamId [125])
  have m5 := parseMembers_more (fuel + 1) _ _ _ _ _
    (unquote_key [101, 110, 97, 98, 108, 101, 100]
      (58 :: (bytesOfString (if s.Enabled then "true" else "false") ++ 44 :: 34 :: ([116, 101,
      97, 109, 73, 100] ++ 34 :: 58 :: 34 :: (appendStringLoop s.TeamId.length s.TeamId ++ 34 ::
      125 :: []))))
      (by decide) (by decide))
    (parseValue_bool (fuel + 1) s.Enabled _)
  rw [m6] at m5
  have m4 := parseMembers_more (fuel + 2) _ _ _ _ _
    (unquote_key [116, 105, 109, 101, 122, 111, 110, 101]
      (58 :: 34 :: (appendStringLoop s.Timezone.length s.Timezone ++ 34 :: 44 :: 34 :: ([101,
      110, 97, 98, 108, 101, 100] ++ 34 :: 58 :: (bytesOfString (if s.Enabled then "true" else
      "false") ++ 44 :: 34 :: ([116, 101, 97, 109, 73, 100] ++ 34 :: 58 :: 34 ::
      (appendStringLoop s.TeamId.length s.TeamId ++ 34 :: 125 :: []))))))
      (by decide) (by decide))
    (parseValue_appendString (fuel + 2) s.Timezone _)
  rw [m5] at m4
  have m3 := parseMembers_more (fuel + 3) _ _ _ _ _
    (unquote_key [100, 101, 115, 99, 114, 105, 112, 116, 105, 111, 110]
      (58 :: 34 :: (appendStringLoop s.Description.length s.Description ++ 34 :: 44 :: 34 ::
      ([116, 105, 109, 101, 122, 111, 110, 101] ++ 34 :: 58 :: 34 :: (appendStringLoop
      s.Timezone.length s.Timezone ++ 34 :: 44 :: 34 :: ([101, 110, 97, 98, 108, 101, 100] ++ 34
      :: 58 :: (bytesOfString (if s.Enabled then "true" else "false") ++ 44 :: 34 :: ([116, 101,
      97, 109, 73, 100] ++ 34 :: 58 :: 34 :: (appendStringLoop s.TeamId.length s.TeamId ++ 34 ::
      125 :: []))))))))
      (by decide) (by decide))
    (parseValue_appendString (fuel + 3) s.Description _)
  rw [m4] at m3
  have m2 := parseMembers_more (fuel + 4) _ _ _ _ _
    (unquote_key [110, 97, 109, 101]
      (58 :: 34 :: (appendStringLoop s.Name.length s.Name ++ 34 :: 44 :: 34 :: ([100, 101, 115,
      99, 114, 105, 112, 116, 105, 111, 110] ++ 34 :: 58 :: 34 :: (appendStringLoop
      s.Description.length s.Description ++ 34 :: 44 :: 34 :: ([116, 105, 109, 101, 122, 111,
      110, 101] ++ 34 :: 58 :: 34 :: (appendStringLoop s.Timezone.length s.Timezone ++ 34 :: 44
      :: 34 :: ([101, 110, 97, 98, 108, 101, 100] ++ 34 :: 58 :: (bytesOfString (if s.Enabled
      then "true" else "false") ++ 44 :: 34 :: ([116, 101, 97, 109, 73, 100] ++ 34 :: 58 :: 34
      :: (appendStringLoop s.TeamId.length s.TeamId ++ 34 :: 125 :: []))))))))))
      (by decide) (by decide))
    (parseValue_appendString (fuel + 4) s.Name _)
  rw [m3] at m2
  have m1 := parseMembers_more (fuel + 5) _ _ _ _ _
    (unquote_key [105, 100]
      (58 :: 34 :: (appendStringLoop s.Id.length s.Id ++ 34 :: 44 :: 34 :: ([110, 97, 109, 101]
      ++ 34 :: 58 :: 34 :: (appendStringLoop s.Name.length s.Name ++ 34 :: 44 :: 34 :: ([100,
      101, 115, 99, 114, 105, 112, 116, 105, 111, 110] ++ 34 :: 58 :: 34 :: (appendStringLoop
      s.Description.length s.Description ++ 34 :: 44 :: 34 :: ([116, 105, 109, 101, 122, 111,
      110, 101] ++ 34 :: 58 :: 34 :: (appendStringLoop s.Timezone.length s.Timezone ++ 34 :: 44
      :: 34 :: ([101, 110, 97, 98, 108, 101, 100] ++ 34 :: 58 :: (bytesOfString (if s.Enabled
      then "true" else "false") ++ 44 :: 34 :: ([116, 101, 97, 109, 73, 100] ++ 34 :: 58 :: 34
      :: (appendStringLoop s.TeamId.length s.TeamId ++ 34 :: 125 :: []))))))))))))
      (by decide) (by decide))
    (parseValue_appendString (fuel + 5) s.Id _)
  rw [m2] at m1
  rw [parseValue_object, m1]
  rfl

/-- The document `json.Marshal` writes for a schedule has at least seven
bytes. -/
theorem marshal_length (s : dto.Schedule) : 7 ≤ (dto.Schedule.Marshal s).length := by
  rw [marshal_members]
  simp only [List.length_cons, List.length_append]
  omega

/-- The call `json.Unmarshal` on the document `json.Marshal` wrote for a
schedule gives the schedule with every string field coerced to valid
UTF-8, whatever the target held, and no error. -/
theorem unmarshal_marshal (s t : dto.Schedule) :
    dto.Schedule.Unmarshal (dto.Schedule.Marshal s) t
      = ({ Id := coerceUTF8 s.Id, Name := coerceUTF8 s.Name,
           Description := coerceUTF8 s.Description, Timezone := coerceUTF8 s.Timezone,
           Enabled := s.Enabled, TeamId := coerceUTF8 s.TeamId }, none) := by
  obtain ⟨k, hk⟩ : ∃ k, (dto.Schedule.Marshal s).length + 1 = k + 8 :=
    ⟨(dto.Schedule.Marshal s).length - 7, by have := marshal_length s; omega⟩
  have h1 : dto.Schedule.fieldFor [105, 100] = some "id" := by decide
  have h2 : dto.Schedule.fieldFor [110, 97, 109, 101] = some "name" := by decide
  have h3 : dto.Schedule.fieldFor [100, 101, 115, 99, 114, 105, 112, 116, 105, 111, 110]
      = some "description" := by decide
  have h4 : dto.Schedule.fieldFor [116, 105, 109, 101, 122, 111, 110, 101]
      = some "timezone" := by decide
  have h5 : dto.Schedule.fieldFor [101, 110, 97, 98, 108, 101, 100] = some "enabled" := by decide
  have h6 : dto.Schedule.fieldFor [116, 101, 97, 109, 73, 100] = some "teamId" := by decide
  simp [dto.Schedule.Unmarshal, parseDocument, hk, parseValue_marshal, skipSpace,
    dto.Schedule.setFields, dto.Schedule.setField, h1, h2, h3, h4, h5, h6]
/-- Claim C19, counterexample. The schedule whose name is the single byte
0xFF, which is not valid UTF-8: `json.Marshal` writes the name as the
escape of U+FFFD, and decoding the document into a zero `dto.Schedule`
gives the name as the three bytes of U+FFFD, so the decoded value is not
the schedule that was encoded. The same through `SetBody` and the response
handler on a 200 reply that carries the request body. -/
theorem C19_invalid_utf8_name_is_not_read_back :
    utf8.Valid [0xFF] = false ∧
    dto.Schedule.Marshal ⟨[55], [0xFF], [], [85, 84, 67], true, [116, 49]⟩
      = bytesOfString ("\x7b\"id\":\"7\",\"name\":\"\\ufffd\",\"description\":\"\","
          ++ "\"timezone\":\"UTC\",\"enabled\":true,\"teamId\":\"t1\"\x7d") ∧
    dto.Schedule.Unmarshal
        (dto.Schedule.Marshal ⟨[55], [0xFF], [], [85, 84, 67], true, [116, 49]⟩)
        dto.Schedule.zero
      = (⟨[55], [0xEF, 0xBF, 0xBD], [], [85, 84, 67], true, [116, 49]⟩, none) ∧
    (dto.Schedule.Unmarshal
        (dto.Schedule.Marshal ⟨[55], [0xFF], [], [85, 84, 67], true, [116, 49]⟩)
        dto.Schedule.zero).1
      ≠ ⟨[55], [0xFF], [], [85, 84, 67], true, [116, 49]⟩ ∧
    ((((Request.mk retryablehttpNewRequest none none).SetBody
          (fun v => Except.ok (dto.Schedule.Marshal v))
          (dto.Schedule.mk [55] [0xFF] [] [85, 84, 67] true [116, 49])).SetBodyParseObject
        (some dto.Schedule.zero)).responseHandler dto.Schedule.Unmarshal
        (some ⟨200, "POST",
          ⟨dto.Schedule.Marshal ⟨[55], [0xFF], [], [85, 84, 67], true, [116, 49]⟩,
            none, none, 0⟩⟩)).1.parseBodyObject
      = some ⟨[55], [0xEF, 0xBF, 0xBD], [], [85, 84, 67], true, [116, 49]⟩ := by
  have hdec := unmarshal_marshal ⟨[55], [0xFF], [], [85, 84, 67], true, [116, 49]⟩
    dto.Schedule.zero
  have hco : coerceUTF8 [0xFF] = [0xEF, 0xBF, 0xBD] := by decide
  have h1 : coerceUTF8 [55] = [55] := by decide
  have h2 : coerceUTF8 [] = [] := by decide
  have h3 : coerceUTF8 [85, 84, 67] = [85, 84, 67] := by decide
  have h4 : coerceUTF8 [116, 49] = [116, 49] := by decide
  simp only [hco, h1, h2, h3, h4] at hdec
  have hok : (Response.mk (some ⟨200, "POST",
      ⟨dto.Schedule.Marshal ⟨[55], [0xFF], [], [85, 84, 67], true, [116, 49]⟩,
        none, none, 0⟩⟩) none).IsError = false := rfl
  refine ⟨by decide, by decide, hdec, ?_, ?_⟩
  · rw [hdec]
    decide
  · simp [Request.responseHandler, hok, Request.SetBodyParseObject, parseBody, Response.Body,
      BodyStream.ReadAll, hdec]

/-- Claim C19, amended. For every `dto.Schedule` `s`, decoding the document
`json.Marshal` writes for `s` into a zero `dto.Schedule` succeeds and gives
`s` with every string field coerced to valid UTF-8 (each byte that starts
no valid sequence replaced by U+FFFD); the field `enabled` is the one of
`s`. When the five string fields of `s` are valid UTF-8 the decoded value
is `s` in every field, and a request whose body was set with `SetBody(s)`
and whose decode target is a zero `dto.Schedule`, answered by a 200 reply
that carries the request body, ends with a nil handler error and the
target equal to `s`. -/
theorem C19_valid_utf8_schedule_round_trip (s : dto.Schedule) (r : Request dto.Schedule) :
    dto.Schedule.Unmarshal (dto.Schedule.Marshal s) dto.Schedule.zero
      = ({ Id := coerceUTF8 s.Id, Name := coerceUTF8 s.Name,
           Description := coerceUTF8 s.Description, Timezone := coerceUTF8 s.Timezone,
           Enabled := s.Enabled, TeamId := coerceUTF8 s.TeamId }, none) ∧
    (utf8.Valid s.Id = true → utf8.Valid s.Name = true → utf8.Valid s.Description = true →
      utf8.Valid s.Timezone = true → utf8.Valid s.TeamId = true →
      dto.Schedule.Unmarshal (dto.Schedule.Marshal s) dto.Schedule.zero = (s, none) ∧
      (r.SetBody (fun v => Except.ok (dto.Schedule.Marshal v)) s).innerRequest.body
        = dto.Schedule.Marshal s ∧
      (((r.SetBody (fun v => Except.ok (dto.Schedule.Marshal v)) s).SetBodyParseObject
          (some dto.Schedule.zero)).responseHandler dto.Schedule.Unmarshal
          (some ⟨200, "POST",
            ⟨(r.SetBody (fun v => Except.ok (dto.Schedule.Marshal v)) s).innerRequest.body,
              none, none, 0⟩⟩)).2 = none ∧
      (((r.SetBody (fun v => Except.ok (dto.Schedule.Marshal v)) s).SetBodyParseObject
          (some dto.Schedule.zero)).responseHandler dto.Schedule.Unmarshal
          (some ⟨200, "POST",
            ⟨(r.SetBody (fun v => Except.ok (dto.Schedule.Marshal v)) s).innerRequest.body,
              none, none, 0⟩⟩)).1.parseBodyObject = some s) := by
  refine ⟨unmarshal_marshal s _, ?_⟩
  intro hId hName hDescription hTimezone hTeamId
  have hdec : dto.Schedule.Unmarshal (dto.Schedule.Marshal s) dto.Schedule.zero = (s, none) := by
    rw [unmarshal_marshal, coerceUTF8_valid _ hId, coerceUTF8_valid _ hName,
      coerceUTF8_valid _ hDescription, coerceUTF8_valid _ hTimezone, coerceUTF8_valid _ hTeamId]
  have hbody : (r.SetBody (fun v => Except.ok (dto.Schedule.Marshal v)) s).innerRequest.body
      = dto.Schedule.Marshal s := rfl
  have hok : (Response.mk (some ⟨200, "POST", ⟨dto.Schedule.Marshal s, none, none, 0⟩⟩)
      none).IsError = false := rfl
  refine ⟨hdec, hbody, ?_, ?_⟩
  · rw [hbody]
    simp [Request.responseHandler, hok, Request.SetBodyParseObject, parseBody, Response.Body,
      BodyStream.ReadAll, hdec]
  · rw [hbody]
    simp [Request.responseHandler, hok, Request.SetBodyParseObject, parseBody, Response.Body,
      BodyStream.ReadAll, hdec]

/-- Witness for the amended C19: a schedule whose name holds a two byte
rune and a `<`, which `json.Marshal` writes as an escape. -/
theorem C19_valid_utf8_schedule_round_trip_witness :
    dto.Schedule.Unmarshal
        (dto.Schedule.Marshal ⟨bytesOfString "7", [90, 111, 0xC3, 0xAB, 60],
          bytesOfString "on \"call\"", bytesOfString "UTC", true, bytesOfString "team-1"⟩)
        dto.Schedule.zero
      = (⟨bytesOfString "7", [90, 111, 0xC3, 0xAB, 60], bytesOfString "on \"call\"",
          bytesOfString "UTC", true, bytesOfString "team-1"⟩, none) :=
  ((C19_valid_utf8_schedule_round_trip
    ⟨bytesOfString "7", [90, 111, 0xC3, 0xAB, 60], bytesOfString "on \"call\"",
      bytesOfString "UTC", true, bytesOfString "team-1"⟩
    (Request.mk retryablehttpNewRequest none none)).2
    (by decide) (by decide) (by decide) (by decide) (by decide)).1

/-- Claim C21. For a `Response` holding a reply whose body stream is open and
still has the non-empty bytes `b` to deliver, the first `Body()` returns `b`
(with the read error of the stream, if it has one) and leaves the stream
closed once; a second `Body()` on the same `Response` returns no bytes, so
not `b` again, together with the error of a read on a closed body. -/
theorem C21_body_is_single_read (native : NativeResponse) (errorBody : Option Bytes)
    (hopen : native.Body.closed = 0) (hne : native.Body.data ≠ []) :
    (Response.mk (some native) errorBody).Body.2.1 = native.Body.data ∧
    (Response.mk (some native) errorBody).Body.2.2 = native.Body.readErr ∧
    (Response.mk (some native) errorBody).Body.1.closeCount = some 1 ∧
    (Response.mk (some native) errorBody).Body.1.Body.2.1 = [] ∧
    (Response.mk (some native) errorBody).Body.1.Body.2.1 ≠ native.Body.data ∧
    (Response.mk (some native) errorBody).Body.1.Body.2.2 = some errReadOnClosedResBody := by
  have h1 : (Response.mk (some native) errorBody).Body
      = (⟨some { native with Body := { native.Body with data := [], closed := 1 } }, errorBody⟩,
          native.Body.data, native.Body.readErr) := by
    simp [Response.Body, BodyStream.ReadAll, BodyStream.Close, hopen]
  have h2 : (Response.mk (some { native with Body := { native.Body with data := [], closed := 1 } })
      errorBody).Body.2 = ([], some errReadOnClosedResBody) := by
    simp [Response.Body, BodyStream.ReadAll, BodyStream.Close]
  rw [h1]
  refine ⟨rfl, rfl, rfl, ?_, ?_, ?_⟩
  · simp only [h2]
  · simp only [h2]
    exact fun h => hne h.symm
  · simp only [h2]

/-- Witness for C21: a 200 reply whose open stream holds the bytes 1, 2. -/
theorem C21_body_is_single_read_witness :
    (Response.mk (some ⟨200, "GET", ⟨[1, 2], none, none, 0⟩⟩) none).Body.2.1 = [1, 2] ∧
    (Response.mk (some ⟨200, "GET", ⟨[1, 2], none, none, 0⟩⟩) none).Body.1.Body.2.1 = [] :=
  ⟨(C21_body_is_single_read ⟨200, "GET", ⟨[1, 2], none, none, 0⟩⟩ none rfl (by decide)).1,
   (C21_body_is_single_read ⟨200, "GET", ⟨[1, 2], none, none, 0⟩⟩ none rfl (by decide)).2.2.2.1⟩

/-- Claim C22. The table of `NewOpsClientErrorMap` has exactly the keys 400,
401, 402, 403, 404, 409, 422 and 429: 401 maps to a zero
`opsClientUnauthorizedErrorResponse`, each of the other seven to a zero
`opsClientDefaultErrorResponse`, and every other status code has no
entry. -/
theorem C22_ops_error_map (code : Int) :
    NewOpsClientErrorMap.map (fun kv => kv.1) = [400, 401, 402, 403, 404, 409, 422, 429] ∧
    NewOpsClientErrorMap.get code =
      (if code = 401 then
        some (HttpErrorResponse.opsUnauthorized opsClientUnauthorizedErrorResponse.zero)
      else if code ∈ [400, 402, 403, 404, 409, 422, 429] then
        some (HttpErrorResponse.opsDefault opsClientDefaultErrorResponse.zero)
      else none) := by
  refine ⟨rfl, ?_⟩
  simp only [ErrorCodeToObjectMap.get, NewOpsClientErrorMap, List.find?_cons, List.find?_nil,
    List.mem_cons, List.mem_singleton, List.not_mem_nil, or_false]
  by_cases h0 : code = 400
  · subst h0; rfl
  by_cases h1 : code = 401
  · subst h1; rfl
  by_cases h2 : code = 402
  · subst h2; rfl
  by_cases h3 : code = 403
  · subst h3; rfl
  by_cases h4 : code = 404
  · subst h4; rfl
  by_cases h5 : code = 409
  · subst h5; rfl
  by_cases h6 : code = 422
  · subst h6; rfl
  by_cases h7 : code = 429
  · subst h7; rfl
  have b0 : ((400 : Int) == code) = false := by simpa using fun h => h0 h.symm
  have b1 : ((401 : Int) == code) = false := by simpa using fun h => h1 h.symm
  have b2 : ((402 : Int) == code) = false := by simpa using fun h => h2 h.symm
  have b3 : ((403 : Int) == code) = false := by simpa using fun h => h3 h.symm
  have b4 : ((404 : Int) == code) = false := by simpa using fun h => h4 h.symm
  have b5 : ((409 : Int) == code) = false := by simpa using fun h => h5 h.symm
  have b6 : ((422 : Int) == code) = false := by simpa using fun h => h6 h.symm
  have b7 : ((429 : Int) == code) = false := by simpa using fun h => h7 h.symm
  simp [b0, b1, b2, b3, b4, b5, b6, b7, h0, h1, h2, h3, h4, h5, h6, h7]

/-- Claim C23. The tables of `NewTeamClientErrorMap` and
`NewTeamEnableOpsClientErrorMap` have the same keys 400, 403, 404, 410, 413,
415 and 422, each mapping to a zero `teamClientDefaultErrorResponse` and to
a zero `teamEnableOpsClientDefaultErrorResponse` respectively; the table of
`NewUserClientErrorMap` has exactly the keys 400, 401 and 429, each mapping
to a zero `userClientDefaultErrorResponse`. Every other status code has no
entry in the respective table. -/
theorem C23_team_and_user_error_maps (code : Int) :
    NewTeamClientErrorMap.map (fun kv => kv.1) = [400, 403, 404, 410, 413, 415, 422] ∧
    NewTeamEnableOpsClientErrorMap.map (fun kv => kv.1) = [400, 403, 404, 410, 413, 415, 422] ∧
    NewUserClientErrorMap.map (fun kv => kv.1) = [400, 401, 429] ∧
    NewTeamClientErrorMap.get code =
      (if code ∈ [400, 403, 404, 410, 413, 415, 422] then
        some (HttpErrorResponse.team teamClientDefaultErrorResponse.zero)
      else none) ∧
    NewTeamEnableOpsClientErrorMap.get code =
      (if code ∈ [400, 403, 404, 410, 413, 415, 422] then
        some (HttpErrorResponse.teamEnableOps teamEnableOpsClientDefaultErrorResponse.zero)
      else none) ∧
    NewUserClientErrorMap.get code =
      (if code ∈ [400, 401, 429] then
        some (HttpErrorResponse.user userClientDefaultErrorResponse.zero)
      else none) := by
  refine ⟨rfl, rfl, rfl, ?_, ?_, ?_⟩
  · simp only [ErrorCodeToObjectMap.get, NewTeamClientErrorMap, List.find?_cons, List.find?_nil,
      List.mem_cons, List.mem_singleton, List.not_mem_nil, or_false]
    by_cases h0 : code = 400
    · subst h0; rfl
    by_cases h1 : code = 403
    · subst h1; rfl
    by_cases h2 : code = 404
    · subst h2; rfl
    by_cases h3 : code = 410
    · subst h3; rfl
    by_cases h4 : code = 413
    · subst h4; rfl
    by_cases h5 : code = 415
    · subst h5; rfl
    by_cases h6 : code = 422
    · subst h6; rfl
    have b0 : ((400 : Int) == code) = false := by simpa using fun h => h0 h.symm
    have b1 : ((403 : Int) == code) = false := by simpa using fun h => h1 h.symm
    have b2 : ((404 : Int) == code) = false := by simpa using fun h => h2 h.symm
    have b3 : ((410 : Int) == code) = false := by simpa using fun h => h3 h.symm
    have b4 : ((413 : Int) == code) = false := by simpa using fun h => h4 h.symm
    have b5 : ((415 : Int) == code) = false := by simpa using fun h => h5 h.symm
    have b6 : ((422 : Int) == code) = false := by simpa using fun h => h6 h.symm
    simp [b0, b1, b2, b3, b4, b5, b6, h0, h1, h2, h3, h4, h5, h6]
  · simp only [ErrorCodeToObjectMap.get, NewTeamEnableOpsClientErrorMap, List.find?_cons, List.find?_nil,
      List.mem_cons, List.mem_singleton, List.not_mem_nil, or_false]
    by_cases h0 : code = 400
    · subst h0; rfl
    by_cases h1 : code = 403
    · subst h1; rfl
    by_cases h2 : code = 404
    · subst h2; rfl
    by_cases h3 : code = 410
    · subst h3; rfl
    by_cases h4 : code = 413
    · subst h4; rfl
    by_cases h5 : code = 415
    · subst h5; rfl
    by_cases h6 : code = 422
    · subst h6; rfl
    have b0 : ((400 : Int) == code) = false := by simpa using fun h => h0 h.symm
    have b1 : ((403 : Int) == code) = false := by simpa using fun h => h1 h.symm
    have b2 : ((404 : Int) == code) = false := by simpa using fun h => h2 h.symm
    have b3 : ((410 : Int) == code) = false := by simpa using fun h => h3 h.symm
    have b4 : ((413 : Int) == code) = false := by simpa using fun h => h4 h.symm
    have b5 : ((415 : Int) == code) = false := by simpa using fun h => h5 h.symm
    have b6 : ((422 : Int) == code) = false := by simpa using fun h => h6 h.symm
    simp [b0, b1, b2, b3, b4, b5, b6, h0, h1, h2, h3, h4, h5, h6]
  · simp only [ErrorCodeToObjectMap.get, NewUserClientErrorMap, List.find?_cons, List.find?_nil,
      List.mem_cons, List.mem_singleton, List.not_mem_nil, or_false]
    by_cases h0 : code = 400
    · subst h0; rfl
    by_cases h1 : code = 401
    · subst h1; rfl
    by_cases h2 : code = 429
    · subst h2; rfl
    have b0 : ((400 : Int) == code) = false := by simpa using fun h => h0 h.symm
    have b1 : ((401 : Int) == code) = false := by simpa using fun h => h1 h.symm
    have b2 : ((429 : Int) == code) = false := by simpa using fun h => h2 h.symm
    simp [b0, b1, b2, h0, h1, h2]

theorem body_statusCode (resp : Response) :
    resp.Body.1.GetStatusCode = resp.GetStatusCode := by
  unfold Response.Body Response.GetStatusCode
  cases h : resp.nativeResponse <;> simp [h]

theorem responseHandler_statusCode {T : Type} (unmarshal : Bytes → T → T × Option Error)
    (r : Request T) (reply : Option NativeResponse) :
    ∃ resp, (r.responseHandler unmarshal reply).1.response = some resp ∧
      resp.GetStatusCode = (Response.mk reply none).GetStatusCode := by
  have hb := body_statusCode (Response.mk reply none)
  unfold Request.responseHandler
  simp only []
  split_ifs with h1 h2
  · unfold parseErrorBody
    rcases hB : (Response.mk reply none).Body with ⟨resp1, body, err⟩
    rw [hB] at hb
    cases err with
    | none => exact ⟨_, rfl, by simpa [Response.GetStatusCode] using hb⟩
    | some e => exact ⟨_, rfl, by simpa [Response.GetStatusCode] using hb⟩
  · cases hp : r.parseBodyObject with
    | none => simp [hp] at h2
    | some target =>
      unfold parseBody
      rcases hB : (Response.mk reply none).Body with ⟨resp1, body, err⟩
      rw [hB] at hb
      cases err with
      | some e => exact ⟨_, rfl, by simpa [Response.GetStatusCode] using hb⟩
      | none =>
        rcases hu : unmarshal body target with ⟨t1, e1⟩
        cases e1 with
        | none => exact ⟨resp1, by simp [hu], by simpa [Response.GetStatusCode] using hb⟩
        | some e => exact ⟨resp1, by simp [hu], by simpa [Response.GetStatusCode] using hb⟩
  · exact ⟨_, rfl, rfl⟩

/-- Claim C25. When the transport hands no reply to the response handler,
`Send` on a fresh request returns a nil `Response` and the transport's
error unchanged, and leaves the request as it was. When the transport
hands replies to the handler, `Send` returns exactly the `Response` that
the handler built over the last reply handed, from the request as the
earlier calls left it: it is non-nil and carries the status code of that
reply; the error is the transport's. -/
theorem C25_send_returns_last_handler_response {T : Type}
    (unmarshal : Bytes → T → T × Option Error) (r : Request T)
    (settle : List (Option Error) → Option NativeResponse × Option Error)
    (hfresh : r.response = none) :
    r.Send unmarshal (transportRun [] settle) = (r, none, (settle []).2) ∧
    ∀ (handed : List (Option NativeResponse)) (last : Option NativeResponse),
      ∃ (before : Request T) (errs : List (Option Error)) (resp : Response),
        (before, errs) = handed.foldl
          (fun acc reply => ((acc.1.responseHandler unmarshal reply).1,
            acc.2 ++ [(acc.1.responseHandler unmarshal reply).2])) (r, []) ∧
        (before.responseHandler unmarshal last).1.response = some resp ∧
        resp.GetStatusCode = (Response.mk last none).GetStatusCode ∧
        r.Send unmarshal (transportRun (handed ++ [last]) settle) =
          ((before.responseHandler unmarshal last).1, some resp,
            (settle (errs ++ [(before.responseHandler unmarshal last).2])).2) := by
  refine ⟨?_, ?_⟩
  · simp [Request.Send, transportRun, hfresh]
  · intro handed last
    rcases hf : handed.foldl
          (fun acc reply => ((acc.1.responseHandler unmarshal reply).1,
            acc.2 ++ [(acc.1.responseHandler unmarshal reply).2])) (r, []) with ⟨before, errs⟩
    obtain ⟨resp, h1, h2⟩ := responseHandler_statusCode unmarshal before last
    refine ⟨before, errs, resp, hf.symm, h1, h2, ?_⟩
    simp only [Request.Send, transportRun, List.foldl_append, List.foldl_cons, List.foldl_nil, hf,
      h1]

theorem C25_send_returns_last_handler_response_witness :
    (NewRequest (HttpClient.mk ⟨false, none, false⟩ ([] : List (RetryFunc Unit))) 0 :
        Request Unit × HttpClient Unit).1.response = none ∧
    ((NewRequest (HttpClient.mk ⟨false, none, false⟩ ([] : List (RetryFunc Unit))) 0 :
        Request Unit × HttpClient Unit).1.Send (fun _ t => (t, none))
      (transportRun [] fun _ => (none, some "dial tcp: connection refused"))).2 =
      (none, some "dial tcp: connection refused") :=
  ⟨rfl, congrArg Prod.snd
    (C25_send_returns_last_handler_response (fun _ t => (t, none)) _
      (fun _ => (none, some "dial tcp: connection refused")) rfl).1⟩
/-- Claim C26. For every request and every URL string that `url.Parse`
accepts, `Url` sets the scheme, host and path of the request URL to those
of the parsed string and leaves the raw query the request had before the
call, so every query parameter reads as before and the query component of
the string itself is not used; nothing else of the request changes. -/
theorem C26_url_keeps_raw_query {T : Type} (parse : String → Option URL) (r : Request T)
    (u : String) (parsed : URL) (hparse : parse u = some parsed) :
    ∃ r1, r.Url parse u = Outcome.ok r1 ∧
      r1.innerRequest.URL.Scheme = parsed.Scheme ∧
      r1.innerRequest.URL.Host = parsed.Host ∧
      r1.innerRequest.URL.Path = parsed.Path ∧
      r1.innerRequest.URL.RawQuery = r.innerRequest.URL.RawQuery ∧
      (∀ key, r1.innerRequest.URL.Query.values key = r.innerRequest.URL.Query.values key) ∧
      r1 = { r with innerRequest := { r.innerRequest with
              URL := { parsed with RawQuery := r.innerRequest.URL.RawQuery } } } := by
  refine ⟨{ r with innerRequest := { r.innerRequest with
      URL := { parsed with RawQuery := r.innerRequest.URL.RawQuery } } }, ?_,
    rfl, rfl, rfl, rfl, fun _ => rfl, rfl⟩
  simp only [Request.Url, hparse]

theorem C26_url_keeps_raw_query_witness :
    ∃ r1, ((((NewRequest (HttpClient.mk ⟨false, none, false⟩ ([] : List (RetryFunc Unit))) 0 :
          Request Unit × HttpClient Unit).1.SetQueryParam (bytesOfString "size")
            (bytesOfString "5")).Url
        (fun _ => some ⟨"https", "api.atlassian.com", bytesOfString "/v1/teams", [], bytesOfString "size=9"⟩)
        "https://api.atlassian.com/v1/teams?size=9") = Outcome.ok r1) ∧
      r1.innerRequest.URL.Scheme = "https" ∧
      r1.innerRequest.URL.Host = "api.atlassian.com" ∧
      r1.innerRequest.URL.Path = bytesOfString "/v1/teams" ∧
      r1.innerRequest.URL.RawQuery = bytesOfString "size=5" := by
  obtain ⟨r1, h, h1, h2, h3, h4, _, _⟩ :=
    C26_url_keeps_raw_query
      (fun _ => some ⟨"https", "api.atlassian.com", bytesOfString "/v1/teams", [], bytesOfString "size=9"⟩)
      ((NewRequest (HttpClient.mk ⟨false, none, false⟩ ([] : List (RetryFunc Unit))) 0 :
          Request Unit × HttpClient Unit).1.SetQueryParam (bytesOfString "size")
            (bytesOfString "5"))
      "https://api.atlassian.com/v1/teams?size=9"
      ⟨"https", "api.atlassian.com", bytesOfString "/v1/teams", [], bytesOfString "size=9"⟩ rfl
  exact ⟨r1, h, h1, h2, h3, h4.trans (by decide)⟩
theorem splitOn_ne_nil (sep : UInt8) (s : Bytes) : splitOn sep s ≠ [] := by
  cases s with
  | nil => simp [splitOn]
  | cons c rest =>
    unfold splitOn
    split_ifs
    · simp
    · cases splitOn sep rest <;> simp

theorem splitOn_cons_inv (sep : UInt8) :
    ∀ (s a : Bytes) (rest : List Bytes), splitOn sep s = a :: rest →
      (∀ x ∈ a, x ≠ sep) ∧
        ((rest = [] ∧ s = a) ∨ ∃ s1, s = a ++ sep :: s1 ∧ splitOn sep s1 = rest) := by
  intro s
  induction s with
  | nil =>
    intro a rest h
    simp only [splitOn, List.cons.injEq] at h
    obtain ⟨rfl, rfl⟩ := h
    exact ⟨by simp, Or.inl ⟨rfl, rfl⟩⟩
  | cons c t ih =>
    intro a rest h
    unfold splitOn at h
    split_ifs at h with hc
    · simp only [List.cons.injEq] at h
      obtain ⟨rfl, rfl⟩ := h
      exact ⟨by simp, Or.inr ⟨t, by simp [hc], rfl⟩⟩
    · cases hs : splitOn sep t with
      | nil => exact absurd hs (splitOn_ne_nil sep t)
      | cons p ps =>
        rw [hs] at h
        simp only [List.cons.injEq] at h
        obtain ⟨rfl, rfl⟩ := h
        obtain ⟨hp, hrest⟩ := ih p ps hs
        refine ⟨?_, ?_⟩
        · intro x hx
          rcases List.mem_cons.mp hx with rfl | hx
          · exact hc
          · exact hp x hx
        · rcases hrest with ⟨rfl, rfl⟩ | ⟨s1, rfl, h1⟩
          · exact Or.inl ⟨rfl, rfl⟩
          · exact Or.inr ⟨s1, by simp, h1⟩

/-- The texts that split into exactly two pieces at a separator are those
with exactly one occurrence of it, the pieces being the text before and
the text after. -/
theorem splitOn_pair_iff (sep : UInt8) (s a b : Bytes) :
    splitOn sep s = [a, b] ↔
      s = a ++ sep :: b ∧ (∀ x ∈ a, x ≠ sep) ∧ (∀ x ∈ b, x ≠ sep) := by
  constructor
  · intro h
    obtain ⟨ha, hrest⟩ := splitOn_cons_inv sep s a [b] h
    rcases hrest with ⟨h0, _⟩ | ⟨s1, rfl, h1⟩
    · simp at h0
    · obtain ⟨hb, hrest1⟩ := splitOn_cons_inv sep s1 b [] h1
      rcases hrest1 with ⟨_, rfl⟩ | ⟨s2, _, h2⟩
      · exact ⟨rfl, ha, hb⟩
      · exact absurd h2 (splitOn_ne_nil sep s2)
  · rintro ⟨rfl, ha, hb⟩
    rw [splitOn_append sep a b ha, splitOn_clean sep b hb]

/-- Claim C30. `ImportState` accepts the identifier exactly when it is
`a,b` with `a` and `b` non-empty and free of commas, that is when it has
exactly one comma with text on both sides. On acceptance it sets `id` to
`a` and then `schedule_id` to `b` and adds only what the two
`SetAttribute` calls report. On rejection it adds the error
"Unexpected Import Identifier" and leaves the state untouched. -/
theorem C30_import_state_splits_at_one_comma {σ : Type}
    (setAttribute : σ → String → Bytes → σ × Diagnostics) (quote : Bytes → Bytes)
    (ID : Bytes) (resp : ImportStateResponse σ) :
    (∀ a b : Bytes, ID = a ++ 44 :: b → a ≠ [] → b ≠ [] → 44 ∉ a → 44 ∉ b →
        ScheduleRotationResource.ImportState setAttribute quote ID resp =
          { Diagnostics := (resp.Diagnostics.Append (setAttribute resp.State "id" a).2).Append
              (setAttribute (setAttribute resp.State "id" a).1 "schedule_id" b).2,
            State := (setAttribute (setAttribute resp.State "id" a).1 "schedule_id" b).1 }) ∧
    ((¬ ∃ a b : Bytes, ID = a ++ 44 :: b ∧ a ≠ [] ∧ b ≠ [] ∧ 44 ∉ a ∧ 44 ∉ b) →
        ScheduleRotationResource.ImportState setAttribute quote ID resp =
          { Diagnostics := resp.Diagnostics.AddError "Unexpected Import Identifier"
              (bytesOfString "Expected import identifier with format: id,schedule_id. Got: "
                ++ quote ID),
            State := resp.State }) := by
  constructor
  · intro a b hID ha hb hca hcb
    have hs : splitOn 44 ID = [a, b] :=
      (splitOn_pair_iff 44 ID a b).mpr
        ⟨hID, fun x hx h => hca (h ▸ hx), fun x hx h => hcb (h ▸ hx)⟩
    simp [ScheduleRotationResource.ImportState, hs, ha, hb]
  · intro hno
    unfold ScheduleRotationResource.ImportState
    simp only []
    split_ifs with h
    · rfl
    · exfalso
      apply hno
      simp only [bne_iff_ne, ne_eq, Bool.or_eq_true, decide_eq_true_eq, beq_iff_eq, not_or,
        not_not] at h
      obtain ⟨⟨hlen, h0⟩, h1⟩ := h
      match hs : splitOn 44 ID, hlen with
      | [a, b], _ =>
        rw [hs] at h0 h1
        obtain ⟨hID, ha, hb⟩ := (splitOn_pair_iff 44 ID a b).mp hs
        exact ⟨a, b, hID, by simpa using h0, by simpa using h1,
          fun hx => ha 44 hx rfl, fun hx => hb 44 hx rfl⟩

theorem C30_import_state_splits_at_one_comma_witness :
    ScheduleRotationResource.ImportState
        (fun (st : List (String × Bytes)) name value => ((name, value) :: st, []))
        (fun text => text) (bytesOfString "r1,s7") ⟨[], []⟩ =
      ⟨[], [("schedule_id", bytesOfString "s7"), ("id", bytesOfString "r1")]⟩ ∧
    ScheduleRotationResource.ImportState
        (fun (st : List (String × Bytes)) name value => ((name, value) :: st, []))
        (fun text => text) (bytesOfString "r1,") ⟨[], []⟩ =
      ⟨[⟨Severity.error, "Unexpected Import Identifier",
          bytesOfString "Expected import identifier with format: id,schedule_id. Got: r1,"⟩],
        []⟩ :=
  ⟨((C30_import_state_splits_at_one_comma _ _ (bytesOfString "r1,s7") ⟨[], []⟩).1
      (bytesOfString "r1") (bytesOfString "s7") (by decide) (by decide) (by decide) (by decide)
      (by decide)).trans rfl,
    ((C30_import_state_splits_at_one_comma _ _ (bytesOfString "r1,") ⟨[], []⟩).2
      (by
        rintro ⟨a, b, h, ha, hb, hca, hcb⟩
        have hs := (splitOn_pair_iff 44 _ a b).mpr
          ⟨h, fun x hx e => hca (e ▸ hx), fun x hx e => hcb (e ▸ hx)⟩
        have h2 : splitOn 44 (bytesOfString "r1,") = [bytesOfString "r1", []] := by decide
        rw [h2] at hs
        simp only [List.cons.injEq, and_true] at hs
        exact hb hs.2.symm)).trans rfl⟩

theorem mem_addError (diags : Diagnostics) (summary : String) (detail : Bytes) (d : Diagnostic) :
    d ∈ diags.AddError summary detail ↔ d ∈ diags ∨ d = ⟨Severity.error, summary, detail⟩ := by
  simp only [Diagnostics.AddError, Diagnostics.Append, List.foldl_cons, List.foldl_nil]
  split_ifs with h
  · constructor
    · exact Or.inl
    · rintro (h1 | rfl)
      · exact h1
      · simpa using h
  · simp

theorem hasError_addError (diags : Diagnostics) (summary : String) (detail : Bytes) :
    (diags.AddError summary detail).HasError = true := by
  simp only [Diagnostics.HasError, List.any_eq_true]
  exact ⟨_, (mem_addError diags summary detail _).mpr (Or.inr rfl), by simp⟩

theorem isPrefixOf_append_self (p rest : Bytes) : p.isPrefixOf (p ++ rest) = true := by
  simp

theorem isPrefixOf_of_take_ne (n : Nat) (p l rest : Bytes) (hp : n ≤ p.length)
    (hl : n ≤ l.length) (hne : p.take n ≠ l.take n) : p.isPrefixOf (l ++ rest) = false := by
  rw [Bool.eq_false_iff]
  intro h
  rw [List.isPrefixOf_iff_prefix] at h
  obtain ⟨t, ht⟩ := h
  apply hne
  have := congrArg (List.take n) ht
  rwa [List.take_append_of_le_length hp, List.take_append_of_le_length hl] at this

theorem ne_of_take_ne (n : Nat) (l rest q : Bytes) (hl : n ≤ l.length)
    (hne : l.take n ≠ q.take n) : (l ++ rest == q) = false := by
  rw [beq_eq_false_iff_ne]
  intro h
  apply hne
  rw [← h, List.take_append_of_le_length hl]

theorem nilDiagnostic_kind (sev : Severity) (summary : String) :
    ApiIntegrationResource.isNilResponseDiagnostic
        ⟨sev, summary, bytesOfString "Unable to create api integration, got nil response"⟩ = true ∧
      ApiIntegrationResource.isStatusCodeDiagnostic
        ⟨sev, summary, bytesOfString "Unable to create api integration, got nil response"⟩
          = false := by
  constructor
  · simp [ApiIntegrationResource.isNilResponseDiagnostic]
  · rfl

theorem statusBodyDiagnostic_kind (sev : Severity) (summary : String) (a b c : Bytes) :
    ApiIntegrationResource.isNilResponseDiagnostic
        ⟨sev, summary,
          bytesOfString "Unable to create api integration, status code: " ++ a ++ b ++ c⟩ = false ∧
      ApiIntegrationResource.isStatusCodeDiagnostic
        ⟨sev, summary,
          bytesOfString "Unable to create api integration, status code: " ++ a ++ b ++ c⟩
          = true := by
  constructor
  · simp only [ApiIntegrationResource.isNilResponseDiagnostic, List.append_assoc]
    exact ne_of_take_ne 39 _ _ _ (by decide) (by decide)
  · simp only [ApiIntegrationResource.isStatusCodeDiagnostic, List.append_assoc,
      isPrefixOf_append_self, Bool.true_or]

theorem statusDiagnostic_kind (sev : Severity) (summary : String) (a : Bytes) :
    ApiIntegrationResource.isNilResponseDiagnostic
        ⟨sev, summary,
          bytesOfString "Unable to create api integration, got http response: " ++ a⟩ = false ∧
      ApiIntegrationResource.isStatusCodeDiagnostic
        ⟨sev, summary,
          bytesOfString "Unable to create api integration, got http response: " ++ a⟩
          = true := by
  constructor
  · simp only [ApiIntegrationResource.isNilResponseDiagnostic]
    exact ne_of_take_ne 39 _ _ _ (by decide) (by decide)
  · simp only [ApiIntegrationResource.isStatusCodeDiagnostic, isPrefixOf_append_self,
      Bool.or_true]

theorem errDiagnostic_kind (sev : Severity) (summary : String) (a : Bytes) :
    ApiIntegrationResource.isNilResponseDiagnostic
        ⟨sev, summary, bytesOfString "Unable to create api integration, got error: " ++ a⟩
          = false ∧
      ApiIntegrationResource.isStatusCodeDiagnostic
        ⟨sev, summary, bytesOfString "Unable to create api integration, got error: " ++ a⟩
          = false := by
  constructor
  · simp only [ApiIntegrationResource.isNilResponseDiagnostic]
    exact ne_of_take_ne 39 _ _ _ (by decide) (by decide)
  · simp only [ApiIntegrationResource.isStatusCodeDiagnostic, Bool.or_eq_false_iff]
    exact ⟨isPrefixOf_of_take_ne 39 _ _ _ (by decide) (by decide) (by decide),
      isPrefixOf_of_take_ne 39 _ _ _ (by decide) (by decide) (by decide)⟩
/-- The diagnostics after the report block of `Create`: those from before
it, then what the reply branch adds, then what the error branch adds. -/
theorem reportSend_mem (diags : Diagnostics) (httpResp : Option Response) (err : Option Error)
    (p : Diagnostic → Bool) :
    (∃ d ∈ ApiIntegrationResource.reportSend diags httpResp err, p d = true) ↔
      (∃ d ∈ diags, p d = true) ∨
      (httpResp = none ∧ p ⟨Severity.error, "Client Error",
          bytesOfString "Unable to create api integration, got nil response"⟩ = true) ∨
      (∃ resp body, httpResp = some resp ∧ resp.IsError = true ∧ resp.GetErrorBody = some body ∧
        p ⟨Severity.error, "Client Error",
          bytesOfString "Unable to create api integration, status code: "
            ++ bytesOfString (toString resp.GetStatusCode) ++ bytesOfString ". Got response: "
            ++ body⟩ = true) ∨
      (∃ resp, httpResp = some resp ∧ resp.IsError = true ∧ resp.GetErrorBody = none ∧
        p ⟨Severity.error, "Client Error",
          bytesOfString "Unable to create api integration, got http response: "
            ++ bytesOfString (toString resp.GetStatusCode)⟩ = true) ∨
      (∃ e, err = some e ∧ p ⟨Severity.error, "Client Error",
          bytesOfString "Unable to create api integration, got error: " ++ goBytes e⟩ = true) := by
  unfold ApiIntegrationResource.reportSend
  cases httpResp with
  | none =>
    cases err with
    | none =>
      simp only [mem_addError]
      constructor
      · rintro ⟨d, hd | rfl, hp⟩
        · exact Or.inl ⟨d, hd, hp⟩
        · exact Or.inr (Or.inl ⟨trivial, hp⟩)
      · rintro (⟨d, hd, hp⟩ | ⟨_, hp⟩ | ⟨_, _, h, _⟩ | ⟨_, h, _⟩ | ⟨_, h, _⟩)
        · exact ⟨d, Or.inl hd, hp⟩
        · exact ⟨_, Or.inr rfl, hp⟩
        · exact absurd h (by simp)
        · exact absurd h (by simp)
        · exact absurd h (by simp)
    | some e =>
      simp only [mem_addError]
      constructor
      · rintro ⟨d, (hd | rfl) | rfl, hp⟩
        · exact Or.inl ⟨d, hd, hp⟩
        · exact Or.inr (Or.inl ⟨trivial, hp⟩)
        · exact Or.inr (Or.inr (Or.inr (Or.inr ⟨e, rfl, hp⟩)))
      · rintro (⟨d, hd, hp⟩ | ⟨_, hp⟩ | ⟨_, _, h, _⟩ | ⟨_, h, _⟩ | ⟨e1, h, hp⟩)
        · exact ⟨d, Or.inl (Or.inl hd), hp⟩
        · exact ⟨_, Or.inl (Or.inr rfl), hp⟩
        · exact absurd h (by simp)
        · exact absurd h (by simp)
        · cases h
          exact ⟨_, Or.inr rfl, hp⟩
  | some resp =>
    by_cases hE : resp.IsError = true
    · cases hB : resp.GetErrorBody with
      | some body =>
        cases err with
        | none =>
          simp only [hE, if_true, hB, mem_addError]
          constructor
          · rintro ⟨d, hd | rfl, hp⟩
            · exact Or.inl ⟨d, hd, hp⟩
            · exact Or.inr (Or.inr (Or.inl ⟨resp, body, rfl, hE, hB, hp⟩))
          · rintro (⟨d, hd, hp⟩ | ⟨h, _⟩ | ⟨r1, b1, h, _, hb1, hp⟩ | ⟨r1, h, _, hb1, _⟩ | ⟨_, h, _⟩)
            · exact ⟨d, Or.inl hd, hp⟩
            · exact absurd h (by simp)
            · cases h
              rw [hB] at hb1
              cases hb1
              exact ⟨_, Or.inr rfl, hp⟩
            · cases h
              rw [hB] at hb1
              exact absurd hb1 (by simp)
            · exact absurd h (by simp)
        | some e =>
          simp only [hE, if_true, hB, mem_addError]
          constructor
          · rintro ⟨d, (hd | rfl) | rfl, hp⟩
            · exact Or.inl ⟨d, hd, hp⟩
            · exact Or.inr (Or.inr (Or.inl ⟨resp, body, rfl, hE, hB, hp⟩))
            · exact Or.inr (Or.inr (Or.inr (Or.inr ⟨e, rfl, hp⟩)))
          · rintro (⟨d, hd, hp⟩ | ⟨h, _⟩ | ⟨r1, b1, h, _, hb1, hp⟩ | ⟨r1, h, _, hb1, _⟩ |
              ⟨e1, h, hp⟩)
            · exact ⟨d, Or.inl (Or.inl hd), hp⟩
            · exact absurd h (by simp)
            · cases h
              rw [hB] at hb1
              cases hb1
              exact ⟨_, Or.inl (Or.inr rfl), hp⟩
            · cases h
              rw [hB] at hb1
              exact absurd hb1 (by simp)
            · cases h
              exact ⟨_, Or.inr rfl, hp⟩
      | none =>
        cases err with
        | none =>
          simp only [hE, if_true, hB, mem_addError]
          constructor
          · rintro ⟨d, hd | rfl, hp⟩
            · exact Or.inl ⟨d, hd, hp⟩
            · exact Or.inr (Or.inr (Or.inr (Or.inl ⟨resp, rfl, hE, hB, hp⟩)))
          · rintro (⟨d, hd, hp⟩ | ⟨h, _⟩ | ⟨r1, b1, h, _, hb1, _⟩ | ⟨r1, h, _, _, hp⟩ | ⟨_, h, _⟩)
            · exact ⟨d, Or.inl hd, hp⟩
            · exact absurd h (by simp)
            · cases h
              rw [hB] at hb1
              exact absurd hb1 (by simp)
            · cases h
              exact ⟨_, Or.inr rfl, hp⟩
            · exact absurd h (by simp)
        | some e =>
          simp only [hE, if_true, hB, mem_addError]
          constructor
          · rintro ⟨d, (hd | rfl) | rfl, hp⟩
            · exact Or.inl ⟨d, hd, hp⟩
            · exact Or.inr (Or.inr (Or.inr (Or.inl ⟨resp, rfl, hE, hB, hp⟩)))
            · exact Or.inr (Or.inr (Or.inr (Or.inr ⟨e, rfl, hp⟩)))
          · rintro (⟨d, hd, hp⟩ | ⟨h, _⟩ | ⟨r1, b1, h, _, hb1, _⟩ | ⟨r1, h, _, _, hp⟩ |
              ⟨e1, h, hp⟩)
            · exact ⟨d, Or.inl (Or.inl hd), hp⟩
            · exact absurd h (by simp)
            · cases h
              rw [hB] at hb1
              exact absurd hb1 (by simp)
            · cases h
              exact ⟨_, Or.inl (Or.inr rfl), hp⟩
            · cases h
              exact ⟨_, Or.inr rfl, hp⟩
    · cases err with
      | none =>
        simp only [hE, if_false, Bool.false_eq_true]
        constructor
        · exact Or.inl
        · rintro (h | ⟨h, _⟩ | ⟨r1, _, h, hE1, _⟩ | ⟨r1, h, hE1, _⟩ | ⟨_, h, _⟩)
          · exact h
          · exact absurd h (by simp)
          · cases h
            exact absurd hE1 hE
          · cases h
            exact absurd hE1 hE
          · exact absurd h (by simp)
      | some e =>
        simp only [hE, if_false, Bool.false_eq_true, mem_addError]
        constructor
        · rintro ⟨d, hd | rfl, hp⟩
          · exact Or.inl ⟨d, hd, hp⟩
          · exact Or.inr (Or.inr (Or.inr (Or.inr ⟨e, rfl, hp⟩)))
        · rintro (⟨d, hd, hp⟩ | ⟨h, _⟩ | ⟨r1, _, h, hE1, _⟩ | ⟨r1, h, hE1, _⟩ | ⟨e1, h, hp⟩)
          · exact ⟨d, Or.inl hd, hp⟩
          · exact absurd h (by simp)
          · cases h
            exact absurd hE1 hE
          · cases h
            exact absurd hE1 hE
          · cases h
            exact ⟨_, Or.inr rfl, hp⟩
/-- Claim C24. In `ApiIntegrationResource.Create`, whenever `Send` returned
a nil `Response`, a `Response` classified as an error, or a non-nil error,
the diagnostics hold an error after the report block and the method
returns there, without reaching `State.Set`. After the block a
"got nil response" diagnostic is present exactly when one was present
before or the `Response` is nil, and a status-code diagnostic exactly when
one was present before or the `Response` is non-nil and `IsError` holds.
No diagnostic is of both kinds. -/
theorem C24_create_reports_send_failures (finish : Diagnostics → Diagnostics)
    (diags : Diagnostics) (httpResp : Option Response) (err : Option Error) :
    ((httpResp = none ∨ (∃ resp, httpResp = some resp ∧ resp.IsError = true) ∨ err ≠ none) →
      (ApiIntegrationResource.reportSend diags httpResp err).HasError = true ∧
      ApiIntegrationResource.Create finish diags httpResp err =
        ⟨ApiIntegrationResource.reportSend diags httpResp err, false⟩) ∧
    ((∃ d ∈ ApiIntegrationResource.reportSend diags httpResp err,
        ApiIntegrationResource.isNilResponseDiagnostic d = true) ↔
      (∃ d ∈ diags, ApiIntegrationResource.isNilResponseDiagnostic d = true) ∨
        httpResp = none) ∧
    ((∃ d ∈ ApiIntegrationResource.reportSend diags httpResp err,
        ApiIntegrationResource.isStatusCodeDiagnostic d = true) ↔
      (∃ d ∈ diags, ApiIntegrationResource.isStatusCodeDiagnostic d = true) ∨
        ∃ resp, httpResp = some resp ∧ resp.IsError = true) ∧
    ∀ d, ¬ (ApiIntegrationResource.isNilResponseDiagnostic d = true ∧
      ApiIntegrationResource.isStatusCodeDiagnostic d = true) := by
  refine ⟨?_, ?_, ?_, ?_⟩
  · intro h
    have hE : (ApiIntegrationResource.reportSend diags httpResp err).HasError = true := by
      have key := (reportSend_mem diags httpResp err
        (fun d => d.severity == Severity.error)).mpr
      simp only [Diagnostics.HasError, List.any_eq_true]
      apply key
      rcases h with rfl | ⟨resp, rfl, hr⟩ | he
      · exact Or.inr (Or.inl ⟨rfl, rfl⟩)
      · cases hB : resp.GetErrorBody with
        | some body => exact Or.inr (Or.inr (Or.inl ⟨resp, body, rfl, hr, hB, rfl⟩))
        | none => exact Or.inr (Or.inr (Or.inr (Or.inl ⟨resp, rfl, hr, hB, rfl⟩)))
      · cases err with
        | none => exact absurd rfl he
        | some e => exact Or.inr (Or.inr (Or.inr (Or.inr ⟨e, rfl, rfl⟩)))
    exact ⟨hE, by simp only [ApiIntegrationResource.Create, hE, if_true]⟩
  · rw [reportSend_mem]
    simp only [(nilDiagnostic_kind _ _).1, (statusBodyDiagnostic_kind _ _ _ _ _).1,
      (statusDiagnostic_kind _ _ _).1, (errDiagnostic_kind _ _ _).1, and_true, and_false,
      exists_false, or_false, Bool.false_eq_true]
  · rw [reportSend_mem]
    simp only [(nilDiagnostic_kind _ _).2, (statusBodyDiagnostic_kind _ _ _ _ _).2,
      (statusDiagnostic_kind _ _ _).2, (errDiagnostic_kind _ _ _).2, and_true, and_false,
      exists_false, or_false, false_or, Bool.false_eq_true]
    constructor
    · rintro (h | ⟨resp, body, h1, h2, _⟩ | ⟨resp, h1, h2, _⟩)
      · exact Or.inl h
      · exact Or.inr ⟨resp, h1, h2⟩
      · exact Or.inr ⟨resp, h1, h2⟩
    · rintro (h | ⟨resp, h1, h2⟩)
      · exact Or.inl h
      · cases hB : resp.GetErrorBody with
        | some body => exact Or.inr (Or.inl ⟨resp, body, h1, h2, hB⟩)
        | none => exact Or.inr (Or.inr ⟨resp, h1, h2, hB⟩)
  · rintro ⟨sev, summary, detail⟩ ⟨h1, h2⟩
    simp only [ApiIntegrationResource.isNilResponseDiagnostic, beq_iff_eq] at h1
    subst h1
    rw [(nilDiagnostic_kind sev summary).2] at h2
    exact absurd h2 (by simp)

theorem C24_create_reports_send_failures_witness :
    ApiIntegrationResource.Create (fun ds => ds) [] none (some "dial tcp: timeout") =
      ⟨[⟨Severity.error, "Client Error",
            bytesOfString "Unable to create api integration, got nil response"⟩,
          ⟨Severity.error, "Client Error",
            bytesOfString "Unable to create api integration, got error: "
              ++ goBytes "dial tcp: timeout"⟩], false⟩ :=
  ((C24_create_reports_send_failures (fun ds => ds) [] none (some "dial tcp: timeout")).1
    (Or.inl rfl)).2.trans (by decide)

/-- Claim C29, evaluated on the code. When the target path and the checked
path each resolve to one value and no lookup reports a diagnostic, the
validator adds its "Invalid Attribute" error exactly when the target list
is not null and the checked field is known and equal to `checkValue`. The
state of the target list is tested with `IsNull` alone: an unknown target
list next to a checked field equal to `checkValue` gets the error, whose
own text says that the field must be null or unknown. -/
theorem C29_unknown_target_list_is_reported {L : Type}
    (targetField fieldToCheck checkValue : String) (diags : Diagnostics) :
    (∀ (target : TfValue L) (checked : TfValue String),
      listFieldNullIfOtherFieldValidator.ValidateObject targetField fieldToCheck checkValue
          [⟨[], [⟨[], target, []⟩]⟩] [⟨[], [⟨[], checked, []⟩]⟩] diags =
        if target.IsNull = false ∧ checked = TfValue.known checkValue then
          diags.AddError "Invalid Attribute"
            (goBytes ("The field '" ++ targetField ++ "' must be null or unknown if the field '"
              ++ fieldToCheck ++ "' is set to '" ++ checkValue ++ "'"))
        else diags) ∧
    listFieldNullIfOtherFieldValidator.ValidateObject targetField fieldToCheck checkValue
        [⟨[], [⟨[], (TfValue.unknown : TfValue L), []⟩]⟩]
        [⟨[], [⟨[], TfValue.known checkValue, []⟩]⟩] diags =
      diags.AddError "Invalid Attribute"
        (goBytes ("The field '" ++ targetField ++ "' must be null or unknown if the field '"
          ++ fieldToCheck ++ "' is set to '" ++ checkValue ++ "'")) ∧
    (listFieldNullIfOtherFieldValidator.ValidateObject targetField fieldToCheck checkValue
        [⟨[], [⟨[], (TfValue.unknown : TfValue L), []⟩]⟩]
        [⟨[], [⟨[], TfValue.known checkValue, []⟩]⟩] diags).HasError = true := by
  have happ : ∀ ds : Diagnostics, ds.Append [] = ds := fun _ => rfl
  have hgen : ∀ (target : TfValue L) (checked : TfValue String),
      listFieldNullIfOtherFieldValidator.ValidateObject targetField fieldToCheck checkValue
          [⟨[], [⟨[], target, []⟩]⟩] [⟨[], [⟨[], checked, []⟩]⟩] diags =
        if target.IsNull = false ∧ checked = TfValue.known checkValue then
          diags.AddError "Invalid Attribute"
            (goBytes ("The field '" ++ targetField ++ "' must be null or unknown if the field '"
              ++ fieldToCheck ++ "' is set to '" ++ checkValue ++ "'"))
        else diags := by
    intro target checked
    cases target <;> cases checked <;>
      simp [listFieldNullIfOtherFieldValidator.ValidateObject, readTargetPath, readCheckedPath,
        happ, Diagnostics.HasError, TfValue.IsNull, TfValue.IsUnknown, TfValue.ValueString]
  refine ⟨hgen, ?_, ?_⟩
  · rw [hgen]
    simp [TfValue.IsNull]
  · rw [hgen]
    simp [TfValue.IsNull, hasError_addError]
theorem outcome_bind_assoc {α β γ : Type} (x : Outcome α) (f : α → Outcome β)
    (g : β → Outcome γ) : (x.bind f).bind g = x.bind fun a => (f a).bind g := by
  cases x <;> rfl

theorem assignEach_fits {α γ : Type} (f : α → γ) (items : List α) :
    ∀ (pre post : List γ), items.length ≤ post.length →
      assignEach f pre.length items (pre ++ post) =
        Outcome.ok (pre ++ items.map f ++ post.drop items.length) := by
  induction items with
  | nil => intro pre post _; simp [assignEach]
  | cons item rest ih =>
    intro pre post h
    cases post with
    | nil => simp at h
    | cons z post1 =>
      have hlt : pre.length < (pre ++ z :: post1).length := by simp
      have hset : (pre ++ z :: post1).set pre.length (f item) = (pre ++ [f item]) ++ post1 := by
        simp
      have hlen : (pre ++ [f item]).length = pre.length + 1 := by simp
      rw [assignEach, if_pos hlt, hset, ← hlen,
        ih (pre ++ [f item]) post1 (by simpa using h)]
      simp

theorem assignEach_short {α γ : Type} (f : α → γ) (items : List α) :
    ∀ (pre post : List γ), post.length < items.length →
      assignEach f pre.length items (pre ++ post) = Outcome.panic "index out of range" := by
  induction items with
  | nil => intro pre post h; simp at h
  | cons item rest ih =>
    intro pre post h
    cases post with
    | nil => simp [assignEach]
    | cons z post1 =>
      have hlt : pre.length < (pre ++ z :: post1).length := by simp
      have hset : (pre ++ z :: post1).set pre.length (f item) = (pre ++ [f item]) ++ post1 := by
        simp
      have hlen : (pre ++ [f item]).length = pre.length + 1 := by simp
      rw [assignEach, if_pos hlt, hset, ← hlen,
        ih (pre ++ [f item]) post1 (by simpa using h)]

theorem filterMap_some {α β : Type} (f : α → β) (items : List α) :
    List.filterMap (fun x => some (f x)) items = items.map f := by
  induction items with
  | nil => rfl
  | cons x xs ih => simp [List.filterMap_cons, ih]

/-- The slice built by `make([]attr.Value, size)`, the indexed assignments
over `items` and `ListValueMust`: it is a list, the converted items in
order, exactly when `size` is the number of items; otherwise it panics. -/
theorem sized_list {α : Type} (f : α → AttrValue) (size : Int) (items : List α) :
    ((makeAttrValues size).bind fun slice =>
        (assignEach (fun x => some (f x)) 0 items slice).bind ListValueMust) =
      if size = items.length then Outcome.ok (TfValue.known (items.map f))
      else if size < 0 then Outcome.panic "makeslice: len out of range"
      else if size < items.length then Outcome.panic "index out of range"
      else Outcome.panic "invalid memory address or nil pointer dereference" := by
  by_cases hneg : size < 0
  · have hne : size ≠ items.length := by omega
    simp [makeAttrValues, hneg, hne, Outcome.bind]
  · obtain ⟨n, rfl⟩ : ∃ n : Nat, size = n := ⟨size.toNat, by omega⟩
    simp only [makeAttrValues, hneg, if_false, Outcome.bind, Int.toNat_ofNat, Nat.cast_inj,
      Nat.cast_lt]
    by_cases hlt : n < items.length
    · have h := assignEach_short (fun x => some (f x)) items [] (List.replicate n none)
        (by simpa using hlt)
      simp only [List.length_nil, List.nil_append] at h
      rw [h]
      simp [hlt, Nat.ne_of_lt hlt]
    · have h := assignEach_fits (fun x => some (f x)) items [] (List.replicate n none)
        (by simpa using Nat.le_of_not_lt hlt)
      simp only [List.length_nil, List.nil_append] at h
      rw [h]
      by_cases heq : n = items.length
      · subst heq
        simp [ListValueMust, List.filterMap_map, filterMap_some f items]
      · have hpos : 0 < n - items.length := by omega
        simp only [heq, if_false, hlt, ListValueMust]
        rw [if_neg]
        simp only [List.all_eq_true, not_forall]
        refine ⟨none, ?_, by simp⟩
        simp only [List.mem_append, List.drop_replicate, List.mem_replicate]
        exact Or.inr ⟨by omega, trivial⟩

/-- Claim C28, evaluated on the code. `UserDtoToModel` sizes its two slices
by the reported `Size` and fills them by the index of each item. With
more application roles than the reported size the assignment indexes out
of range; with a reported group size above the number of groups the slice
keeps nil entries, on which `ListValueMust` panics. The function completes
exactly when both reported sizes are the numbers of items, and then the
two lists are the converted items in order. -/
theorem C28_reported_size_sizes_the_slices {R G : Type} (roleValue : R → AttrValue)
    (groupValue : G → AttrValue) :
    (∀ role : R, UserDtoToModel roleValue groupValue ⟨⟨0, [role]⟩, ⟨0, []⟩⟩ =
      Outcome.panic "index out of range") ∧
    UserDtoToModel roleValue groupValue ⟨⟨0, []⟩, ⟨3, []⟩⟩ =
      Outcome.panic "invalid memory address or nil pointer dereference" ∧
    ∀ u : dto.UserDto R G,
      ((∃ m, UserDtoToModel roleValue groupValue u = Outcome.ok m) ↔
        (u.ApplicationRoles.Size = u.ApplicationRoles.Items.length ∧
          u.Groups.Size = u.Groups.Items.length)) ∧
      ∀ m, UserDtoToModel roleValue groupValue u = Outcome.ok m →
        m.ApplicationRoles = TfValue.known (u.ApplicationRoles.Items.map roleValue) ∧
        m.Groups = TfValue.known (u.Groups.Items.map groupValue) := by
  have key : ∀ u : dto.UserDto R G, UserDtoToModel roleValue groupValue u =
      (((makeAttrValues u.ApplicationRoles.Size).bind fun slice =>
        (assignEach (fun x => some (roleValue x)) 0 u.ApplicationRoles.Items slice).bind
          ListValueMust).bind fun roles =>
        ((makeAttrValues u.Groups.Size).bind fun slice =>
          (assignEach (fun x => some (groupValue x)) 0 u.Groups.Items slice).bind
            ListValueMust).bind fun groups =>
          Outcome.ok ⟨roles, groups⟩) := by
    intro u
    simp only [UserDtoToModel, bind, pure, outcome_bind_assoc]
  refine ⟨fun role => rfl, rfl, fun u => ?_⟩
  rw [key u, sized_list, sized_list]
  by_cases h1 : u.ApplicationRoles.Size = u.ApplicationRoles.Items.length
  · by_cases h2 : u.Groups.Size = u.Groups.Items.length
    · simp only [h1, h2, if_true, Outcome.bind, and_self, iff_true]
      refine ⟨⟨_, rfl⟩, ?_⟩
      rintro m hm
      cases hm
      exact ⟨rfl, rfl⟩
    · simp only [h1, h2, if_true, if_false, Outcome.bind, and_false, iff_false, true_and]
      split_ifs <;> simp [Outcome.bind]
  · simp only [h1, if_false, false_and, iff_false]
    split_ifs <;> simp [Outcome.bind]

theorem outcome_ok_bind {α β : Type} (a : α) (f : α → Outcome β) :
    (Outcome.ok a).bind f = f a := rfl

theorem assignEach_replicate {α γ : Type} (f : α → γ) (items : List α) (z : γ) :
    assignEach f 0 items (List.replicate items.length z) = Outcome.ok (items.map f) := by
  have h := assignEach_fits f items [] (List.replicate items.length z) (by simp)
  simpa using h

theorem attr_list_of_len {α : Type} (f : α → AttrValue) (items : List α) :
    ((makeAttrValues items.length).bind fun slice =>
        (assignEach (fun x => some (f x)) 0 items slice).bind ListValueMust) =
      Outcome.ok (TfValue.known (items.map f)) := by
  rw [sized_list, if_pos rfl]

theorem attr_list_guarded {α : Type} (f : α → AttrValue) (items : List α) :
    ((makeAttrValues items.length).bind fun slice =>
        (if items.length != 0 then assignEach (fun x => some (f x)) 0 items slice
          else Outcome.ok slice).bind ListValueMust) =
      Outcome.ok (TfValue.known (items.map f)) := by
  cases items with
  | nil => rfl
  | cons x xs =>
    have h : ((x :: xs).length != 0) = true := by simp
    simp only [h, if_true]
    exact attr_list_of_len f (x :: xs)

theorem weekdayRestrictionsValue_eq (restrictions : Option (List dto.WeekdayTimeRestrictionSettings)) :
    weekdayRestrictionsValue restrictions =
      Outcome.ok (AttrValue.list
        (match restrictions with
          | none => TfValue.null
          | some items => TfValue.known (items.map weekdayRestrictionValue))) := by
  cases restrictions with
  | none => rfl
  | some items =>
    have h := attr_list_of_len weekdayRestrictionValue items
    simp only [weekdayRestrictionsValue, bind, pure, ← outcome_bind_assoc] at h ⊢
    rw [h]
    rfl

/-- The model that `RotationDtoToModel` returns on a rotation whose dates
are empty or valid. -/
theorem rotationDtoToModel_ok (validRFC3339 : String → Bool) (scheduleId : String)
    (d : dto.Rotation)
    (hstart : d.StartDate = "" ∨ validRFC3339 d.StartDate = true)
    (hend : d.EndDate = "" ∨ validRFC3339 d.EndDate = true) :
    RotationDtoToModel validRFC3339 scheduleId d = Outcome.ok
      { Id := TfValue.known d.Id, ScheduleId := TfValue.known scheduleId,
        Name := TfValue.known d.Name,
        StartDate := if d.StartDate = "" then TfValue.null else TfValue.known d.StartDate,
        EndDate := if d.EndDate = "" then TfValue.null else TfValue.known d.EndDate,
        Type_ := TfValue.known d.Type_, Length := TfValue.known d.Length,
        Participants :=
          TfValue.known (d.Participants.map fun p => (ResponderInfoDtoToModel p).AsValue),
        TimeRestriction :=
          match d.TimeRestriction with
          | none => TfValue.null
          | some restriction =>
            TfValue.known
              [("type", AttrValue.string (TfValue.known restriction.Type_)),
               ("restriction", timeOfDayRestrictionValue restriction.TimeOfDayRestriction),
               ("restrictions", AttrValue.list
                  (match restriction.WeekAndTimeOfDayRestriction with
                    | none => TfValue.null
                    | some items => TfValue.known (items.map weekdayRestrictionValue)))] } := by
  have hS : (if d.StartDate = "" then Outcome.ok TfValue.null
      else NewRFC3339ValueMust validRFC3339 d.StartDate) =
      Outcome.ok (if d.StartDate = "" then TfValue.null else TfValue.known d.StartDate) := by
    by_cases h : d.StartDate = ""
    · simp only [h, if_true]
    · simp only [h, if_false, NewRFC3339ValueMust, hstart.resolve_left h, if_true]
  have hE : (if d.EndDate = "" then Outcome.ok TfValue.null
      else NewRFC3339ValueMust validRFC3339 d.EndDate) =
      Outcome.ok (if d.EndDate = "" then TfValue.null else TfValue.known d.EndDate) := by
    by_cases h : d.EndDate = ""
    · simp only [h, if_true]
    · simp only [h, if_false, NewRFC3339ValueMust, hend.resolve_left h, if_true]
  have hP := attr_list_guarded (fun p => (ResponderInfoDtoToModel p).AsValue) d.Participants
  unfold RotationDtoToModel
  simp only [bind, pure]
  rw [hS, hE]
  simp only [outcome_ok_bind, ← outcome_bind_assoc] at hP ⊢
  rw [hP]
  cases d.TimeRestriction with
  | none => rfl
  | some restriction =>
    simp only [outcome_ok_bind, weekdayRestrictionsValue_eq]
theorem responderInfo_round_trip (p : dto.ResponderInfo) :
    ResponderInfoModelToDto (ResponderInfoDtoToModel p) = p := by
  rcases p with ⟨id, type⟩
  cases id <;> rfl

theorem readElements_responders (ps : List dto.ResponderInfo) :
    readElements readResponderInfoModel
        (ps.map fun p => (ResponderInfoDtoToModel p).AsValue) =
      some (ps.map ResponderInfoDtoToModel) := by
  induction ps with
  | nil => rfl
  | cons p rest ih =>
    have h : readResponderInfoModel
        [("id", AttrValue.string (ResponderInfoDtoToModel p).Id),
          ("type", AttrValue.string (ResponderInfoDtoToModel p).Type_)] =
        some (ResponderInfoDtoToModel p) := by
      simp [readResponderInfoModel, attrLookup, AttrValue.asString]
    simp only [dataModels.ResponderInfoModel.AsValue] at ih ⊢
    simp only [List.map_cons, readElements, h, ih]

theorem readElements_weekdays (ws : List dto.WeekdayTimeRestrictionSettings) :
    (readElements readWeekdayModel (ws.map weekdayRestrictionValue)).map
        (List.map WeekdayTimeRestrictionSettingsModelToDto) = some ws := by
  induction ws with
  | nil => rfl
  | cons w rest ih =>
    have h : readWeekdayModel
        [("start_day", AttrValue.string (TfValue.known w.StartDay)),
          ("end_day", AttrValue.string (TfValue.known w.EndDay)),
          ("start_hour", AttrValue.int32 (TfValue.known w.StartHour)),
          ("end_hour", AttrValue.int32 (TfValue.known w.EndHour)),
          ("start_min", AttrValue.int32 (TfValue.known w.StartMin)),
          ("end_min", AttrValue.int32 (TfValue.known w.EndMin))] =
        some ⟨TfValue.known w.StartDay, TfValue.known w.EndDay, TfValue.known w.StartHour,
          TfValue.known w.EndHour, TfValue.known w.StartMin, TfValue.known w.EndMin⟩ := by
      simp [readWeekdayModel, attrLookup, AttrValue.asString, AttrValue.asInt32]
    cases hr : readElements readWeekdayModel (rest.map weekdayRestrictionValue) with
    | none => rw [hr] at ih; simp at ih
    | some ms =>
      rw [hr] at ih
      simp only [Option.map_some', Option.some.injEq] at ih
      simp only [List.map_cons, readElements, weekdayRestrictionValue, h]
      rw [show List.map weekdayRestrictionValue rest = rest.map weekdayRestrictionValue from rfl,
        hr]
      simp only [Option.map_some', List.map_cons, ih]
      rfl

theorem timeOfDay_round_trip (t : dto.TimeOfDayTimeRestrictionSettings) :
    TimeOfDayTimeRestrictionSettingsModelToDto
      (objectAs readTimeOfDayModel ⟨TfValue.null, TfValue.null, TfValue.null, TfValue.null⟩
        (TfValue.known
          [("start_hour", AttrValue.int32 (TfValue.known t.StartHour)),
           ("end_hour", AttrValue.int32 (TfValue.known t.EndHour)),
           ("start_min", AttrValue.int32 (TfValue.known t.StartMin)),
           ("end_min", AttrValue.int32 (TfValue.known t.EndMin))])) = t := by
  simp [objectAs, readTimeOfDayModel, attrLookup, AttrValue.asInt32,
    TimeOfDayTimeRestrictionSettingsModelToDto, TfValue.ValueInt32]

/-- The time restriction that `TimeRestrictionModelToDto` reads back from
the object `RotationDtoToModel` builds: the same, except that an empty
list of weekday restrictions comes back as a nil pointer. -/
theorem timeRestriction_round_trip (t : dto.TimeRestriction) :
    TimeRestrictionModelToDto
      (objectAs readTimeRestrictionModel ⟨TfValue.null, TfValue.null, TfValue.null⟩
        (TfValue.known
          [("type", AttrValue.string (TfValue.known t.Type_)),
           ("restriction", timeOfDayRestrictionValue t.TimeOfDayRestriction),
           ("restrictions", AttrValue.list
              (match t.WeekAndTimeOfDayRestriction with
                | none => TfValue.null
                | some items => TfValue.known (items.map weekdayRestrictionValue)))])) =
      Outcome.ok
        { Type_ := t.Type_, TimeOfDayRestriction := t.TimeOfDayRestriction,
          WeekAndTimeOfDayRestriction :=
            if t.WeekAndTimeOfDayRestriction = some [] then none
            else t.WeekAndTimeOfDayRestriction } := by
  rcases t with ⟨type, tod, wk⟩
  have hread : ∀ (r : TfObject) (l : TfList),
      objectAs readTimeRestrictionModel ⟨TfValue.null, TfValue.null, TfValue.null⟩
        (TfValue.known
          [("type", AttrValue.string (TfValue.known type)),
           ("restriction", AttrValue.object r), ("restrictions", AttrValue.list l)]) =
        ⟨TfValue.known type, r, l⟩ := by
    intro r l
    simp [objectAs, readTimeRestrictionModel, attrLookup, AttrValue.asString,
      AttrValue.asObject, AttrValue.asList]
  have htod : ∀ r : TfObject, timeOfDayRestrictionValue tod = AttrValue.object r →
      (if !(r.IsNull || r.IsUnknown) then
        some (TimeOfDayTimeRestrictionSettingsModelToDto
          (objectAs readTimeOfDayModel
            ⟨TfValue.null, TfValue.null, TfValue.null, TfValue.null⟩ r))
      else none) = tod := by
    intro r hr
    cases tod with
    | none =>
      simp only [timeOfDayRestrictionValue, AttrValue.object.injEq] at hr
      subst hr
      rfl
    | some t0 =>
      simp only [timeOfDayRestrictionValue, AttrValue.object.injEq] at hr
      subst hr
      simp only [TfValue.IsNull, TfValue.IsUnknown, Bool.or_self, Bool.not_false, if_true,
        timeOfDay_round_trip]
  obtain ⟨r, hr⟩ : ∃ r, timeOfDayRestrictionValue tod = AttrValue.object r := by
    cases tod with
    | none => exact ⟨_, rfl⟩
    | some t0 => exact ⟨_, rfl⟩
  simp only [hr, hread, TimeRestrictionModelToDto, bind, pure, htod r hr]
  cases wk with
  | none => rfl
  | some items =>
    cases items with
    | nil => rfl
    | cons w rest =>
      have hw := readElements_weekdays (w :: rest)
      cases hre : readElements readWeekdayModel ((w :: rest).map weekdayRestrictionValue) with
      | none => rw [hre] at hw; simp at hw
      | some ms =>
        rw [hre] at hw
        simp only [Option.map_some', Option.some.injEq] at hw
        simp only [TfValue.Elements, List.map_cons, List.length_cons, elementsAs]
        rw [show weekdayRestrictionValue w :: List.map weekdayRestrictionValue rest =
          (w :: rest).map weekdayRestrictionValue from rfl, hre]
        simp only [Option.getD_some, assignEach_replicate, hw, outcome_ok_bind]
        rfl
/-- The rotation that `RotationModelToDto` returns on the model
`RotationDtoToModel` builds from a rotation whose dates are empty or
valid: the same rotation, except that an empty list of weekday
restrictions comes back as a nil pointer. -/
theorem rotation_round_trip_result (validRFC3339 : String → Bool) (scheduleId : String)
    (d : dto.Rotation)
    (hstart : d.StartDate = "" ∨ validRFC3339 d.StartDate = true)
    (hend : d.EndDate = "" ∨ validRFC3339 d.EndDate = true) :
    ∃ m, RotationDtoToModel validRFC3339 scheduleId d = Outcome.ok m ∧
      RotationModelToDto m = Outcome.ok
        { d with TimeRestriction := d.TimeRestriction.map fun t =>
            { t with WeekAndTimeOfDayRestriction :=
                if t.WeekAndTimeOfDayRestriction = some [] then none
                else t.WeekAndTimeOfDayRestriction } } := by
  refine ⟨_, rotationDtoToModel_ok validRFC3339 scheduleId d hstart hend, ?_⟩
  rcases d with ⟨rid, name, startDate, endDate, type, length, participants, restriction⟩
  have hS : (if startDate = "" then TfValue.null else TfValue.known startDate).ValueString
      = startDate := by
    by_cases h : startDate = ""
    · simp only [h, if_true]; rfl
    · simp only [h, if_false]; rfl
  have hE : (if endDate = "" then TfValue.null else TfValue.known endDate).ValueString
      = endDate := by
    by_cases h : endDate = ""
    · simp only [h, if_true]; rfl
    · simp only [h, if_false]; rfl
  have hP : assignEach ResponderInfoModelToDto 0
      (participants.map ResponderInfoDtoToModel)
      (List.replicate (participants.map ResponderInfoDtoToModel).length ⟨none, ""⟩) =
      Outcome.ok participants := by
    rw [assignEach_replicate, List.map_map]
    have : ResponderInfoModelToDto ∘ ResponderInfoDtoToModel = fun p => p :=
      funext responderInfo_round_trip
    rw [this, List.map_id']
  simp only [List.length_map] at hP
  simp only [RotationModelToDto, bind, pure, hS, hE, elementsAs, readElements_responders,
    Option.getD_some, TfValue.Elements, List.length_map, hP, outcome_ok_bind]
  cases restriction with
  | none => rfl
  | some t =>
    simp only [TfValue.IsNull, TfValue.IsUnknown, Bool.or_self, Bool.not_false, if_true,
      timeRestriction_round_trip, outcome_ok_bind, Option.map_some']
    rfl

/-- Claim C27, counterexample. A rotation whose time restriction holds a
non-nil, empty list of weekday restrictions is converted to a model and
back without a panic, and the rotation that comes back has a nil list
there: it is not the rotation that went in. -/
theorem C27_empty_weekday_list_comes_back_nil :
    ∃ m, RotationDtoToModel (fun _ => true) "schedule-1"
          ⟨"r1", "night", "", "", "weekly", 1, [],
            some ⟨"weekday-and-time-of-day", none, some []⟩⟩ = Outcome.ok m ∧
      RotationModelToDto m = Outcome.ok
          ⟨"r1", "night", "", "", "weekly", 1, [],
            some ⟨"weekday-and-time-of-day", none, none⟩⟩ ∧
      RotationModelToDto m ≠ Outcome.ok
          ⟨"r1", "night", "", "", "weekly", 1, [],
            some ⟨"weekday-and-time-of-day", none, some []⟩⟩ := by
  obtain ⟨m, h1, h2⟩ := rotation_round_trip_result (fun _ => true) "schedule-1"
    ⟨"r1", "night", "", "", "weekly", 1, [],
      some ⟨"weekday-and-time-of-day", none, some []⟩⟩ (Or.inl rfl) (Or.inl rfl)
  refine ⟨m, h1, h2, ?_⟩
  rw [h2]
  decide

/-- Claim C27, amended. For every schedule id and every rotation whose
`StartDate` and `EndDate` are each empty or a valid RFC 3339 timestamp and
whose time restriction, when present, does not hold a non-nil empty list
of weekday restrictions, `RotationDtoToModel` returns a model and
`RotationModelToDto` returns from it the rotation that went in: same id,
name, dates, type, length, participants in order with absent ids absent,
and the same time restriction. -/
theorem C27_rotation_round_trip (validRFC3339 : String → Bool) (scheduleId : String)
    (d : dto.Rotation)
    (hstart : d.StartDate = "" ∨ validRFC3339 d.StartDate = true)
    (hend : d.EndDate = "" ∨ validRFC3339 d.EndDate = true)
    (hweek : ∀ t, d.TimeRestriction = some t → t.WeekAndTimeOfDayRestriction ≠ some []) :
    ∃ m, RotationDtoToModel validRFC3339 scheduleId d = Outcome.ok m ∧
      RotationModelToDto m = Outcome.ok d := by
  obtain ⟨m, h1, h2⟩ := rotation_round_trip_result validRFC3339 scheduleId d hstart hend
  refine ⟨m, h1, ?_⟩
  rw [h2]
  rcases d with ⟨id, name, startDate, endDate, type, length, participants, restriction⟩
  cases restriction with
  | none => rfl
  | some t =>
    have := hweek t rfl
    rcases t with ⟨ty, tod, wk⟩
    simp only [Option.map_some', if_neg this]

theorem C27_rotation_round_trip_witness :
    ∃ m, RotationDtoToModel (fun text => text == "2024-01-01T00:00:00Z") "schedule-1"
          ⟨"r1", "night", "2024-01-01T00:00:00Z", "", "weekly", 1,
            [⟨some "u1", "user"⟩, ⟨none, "noone"⟩],
            some ⟨"weekday-and-time-of-day", some ⟨8, 17, 0, 30⟩,
              some [⟨"monday", "friday", 9, 18, 0, 0⟩]⟩⟩ = Outcome.ok m ∧
      RotationModelToDto m = Outcome.ok
          ⟨"r1", "night", "2024-01-01T00:00:00Z", "", "weekly", 1,
            [⟨some "u1", "user"⟩, ⟨none, "noone"⟩],
            some ⟨"weekday-and-time-of-day", some ⟨8, 17, 0, 30⟩,
              some [⟨"monday", "friday", 9, 18, 0, 0⟩]⟩⟩ :=
  C27_rotation_round_trip (fun text => text == "2024-01-01T00:00:00Z") "schedule-1"
    ⟨"r1", "night", "2024-01-01T00:00:00Z", "", "weekly", 1,
      [⟨some "u1", "user"⟩, ⟨none, "noone"⟩],
      some ⟨"weekday-and-time-of-day", some ⟨8, 17, 0, 30⟩,
        some [⟨"monday", "friday", 9, 18, 0, 0⟩]⟩⟩
    (Or.inr (by decide)) (Or.inl rfl)
    (fun t ht => by
      simp only [Option.some.injEq] at ht
      subst ht
      decide)

end httpClient
